import Mathlib

/-!
Shallow embedding of the buffer replacement strategy core
(src/Postgres Files/src-backend-storage-buffer/freelist.c).

Frames (BufferDesc) are flat records in a list indexed by buffer id;
the prev/next/freeNext pointer fields are indices (Option Nat for
possibly-nil pointers, Int with the -1 / -2 sentinels for freeNext).
The per-frame header spinlock is modelled by a boolean flag hdrLocked:
LockBufHdr sets it, UnlockBufHdr clears it, and a frame "returned with
the header lock held" is a frame whose hdrLocked is true in the result
state.  While loops of the source are embedded as fuel-indexed
recursions; running out of fuel is reported as a distinguished outcome
so that theorems can supply adequate fuel explicitly.
-/

namespace Freelist

/-- Sentinel for the freeNext field: the buffer is not in the freelist.
Modelled from the spec: the sentinel constants live in buf_internals.h,
which is not part of this repository; the spec calls this NOT_IN_LIST. -/
def FREENEXT_NOT_IN_LIST : Int := -2

/-- Sentinel for the freeNext field: end of the freelist. -/
def FREENEXT_END_OF_LIST : Int := -1

/-- Sentinel Buffer number for an unpopulated ring slot (InvalidBuffer is 0). -/
def InvalidBuffer : Nat := 0

/-- Per-frame descriptor fields that freelist.c reads and writes. -/
structure BufferDesc where
  buf_id : Nat
  refcount : Nat
  usage_count : Nat
  freeNext : Int
  previous : Option Nat
  next : Option Nat
  hdrLocked : Bool
deriving Repr, DecidableEq

/-- Default descriptor, used only as the out-of-range fallback of list lookup. -/
def dummyBuf : BufferDesc :=
  { buf_id := 0, refcount := 0, usage_count := 0,
    freeNext := FREENEXT_NOT_IN_LIST, previous := none, next := none,
    hdrLocked := false }

instance : Inhabited BufferDesc := ⟨dummyBuf⟩

/-- The shared freelist control information (BufferStrategyControl). -/
structure BufferStrategyControl where
  nextVictimBuffer : Nat
  firstFreeBuffer : Int
  lastFreeBuffer : Int
  completePasses : Nat
  numBufferAllocs : Nat
  bgwriterLatch : Option Nat
  lastUnpinned : Option Nat
  firstUnpinned : Option Nat
  a1Head : Option Nat
  a1Tail : Option Nat
deriving Repr, DecidableEq

/-- Whole shared state: the control block plus the BufferDescriptors array. -/
structure BufState where
  ctl : BufferStrategyControl
  bufs : List BufferDesc
deriving Repr, DecidableEq

/-- NBuffers of a state is the length of the descriptor array. -/
def nBuffers (s : BufState) : Nat := s.bufs.length

/-- Read BufferDescriptors[i]. -/
def getBuf (s : BufState) (i : Nat) : BufferDesc := s.bufs.getD i dummyBuf

/-- Update BufferDescriptors[i] with f (no-op when i is out of range,
which never happens for valid buffer ids). -/
def setBuf (s : BufState) (i : Nat) (f : BufferDesc → BufferDesc) : BufState :=
  { s with bufs := s.bufs.set i (f (getBuf s i)) }

/-- LockBufHdr(buf): acquire the per-frame header spinlock. -/
def LockBufHdr (s : BufState) (i : Nat) : BufState :=
  setBuf s i (fun b => { b with hdrLocked := true })

/-- UnlockBufHdr(buf): release the per-frame header spinlock. -/
def UnlockBufHdr (s : BufState) (i : Nat) : BufState :=
  setBuf s i (fun b => { b with hdrLocked := false })

/-- Write the next field of frame i. -/
def setNext (s : BufState) (i : Nat) (v : Option Nat) : BufState :=
  setBuf s i (fun b => { b with next := v })

/-- Write the previous field of frame i. -/
def setPrev (s : BufState) (i : Nat) (v : Option Nat) : BufState :=
  setBuf s i (fun b => { b with previous := v })

/-- Statement p->next = v for a possibly-nil pointer p as it appears in the
source; dereferencing nil is undefined behaviour in C and is modelled as a
no-op (the source only reaches it under the queue invariants). -/
def setNextP (s : BufState) (p : Option Nat) (v : Option Nat) : BufState :=
  match p with
  | some i => setNext s i v
  | none => s

/-- Statement p->previous = v for a possibly-nil pointer p. -/
def setPrevP (s : BufState) (p : Option Nat) (v : Option Nat) : BufState :=
  match p with
  | some i => setPrev s i v
  | none => s

/-- Read the next pointer of frame i. -/
def nxt (s : BufState) (i : Nat) : Option Nat := (getBuf s i).next

/-- Read the previous pointer of frame i. -/
def prv (s : BufState) (i : Nat) : Option Nat := (getBuf s i).previous

/-- The four buffer replacement policies (PolicyKind). -/
inductive PolicyKind where
  | POLICY_CLOCK
  | POLICY_LRU
  | POLICY_MRU
  | POLICY_2Q
deriving Repr, DecidableEq

/-- BufferAccessStrategyType values used by freelist.c. -/
inductive BufferAccessStrategyType where
  | BAS_NORMAL
  | BAS_BULKREAD
  | BAS_BULKWRITE
  | BAS_VACUUM
deriving Repr, DecidableEq

/-- Private per-caller ring state (BufferAccessStrategyData); buffers holds
Buffer numbers (buffer id + 1, with 0 = InvalidBuffer). -/
structure BufferAccessStrategyData where
  btype : BufferAccessStrategyType
  ring_size : Nat
  current : Nat
  current_was_in_ring : Bool
  buffers : List Nat
deriving Repr, DecidableEq

/-- Macro BufferDescriptorGetBuffer(bdesc).
Modelled from the spec: the macro lives in buf_internals.h, which is not in
this repository; freelist.c itself witnesses the convention since
GetBufferFromRing derefences BufferDescriptors[bufnum - 1] and treats
Buffer number 0 as InvalidBuffer, so the Buffer number of a descriptor is
its buf_id plus one. -/
def BufferDescriptorGetBuffer (b : BufferDesc) : Nat := b.buf_id + 1

/-- StrategyFreeBuffer: put a buffer on the freelist (head push), a no-op
when the buffer is already in it. -/
def StrategyFreeBuffer (s : BufState) (i : Nat) : BufState :=
  let b := getBuf s i
  if b.freeNext = FREENEXT_NOT_IN_LIST then
    let s1 := setBuf s i (fun x => { x with freeNext := s.ctl.firstFreeBuffer })
    let s2 := if (getBuf s1 i).freeNext < 0 then
                { s1 with ctl.lastFreeBuffer := (b.buf_id : Int) }
              else s1
    { s2 with ctl.firstFreeBuffer := (b.buf_id : Int) }
  else s

/-- GetBufferFromRing: advance the ring slot; nil when the slot is
unpopulated or its frame is pinned / touched by others, otherwise the
frame index with its header spinlock held. -/
def GetBufferFromRing (s : BufState) (st : BufferAccessStrategyData) :
    BufState × BufferAccessStrategyData × Option Nat :=
  let cur := if st.current + 1 ≥ st.ring_size then 0 else st.current + 1
  let st1 := { st with current := cur }
  let bufnum := st1.buffers.getD cur 0
  if bufnum = InvalidBuffer then
    (s, { st1 with current_was_in_ring := false }, none)
  else
    let i := bufnum - 1
    let s1 := LockBufHdr s i
    if (getBuf s1 i).refcount = 0 ∧ (getBuf s1 i).usage_count ≤ 1 then
      (s1, { st1 with current_was_in_ring := true }, some i)
    else
      (UnlockBufHdr s1 i, { st1 with current_was_in_ring := false }, none)

/-- AddBufferToRing: record the chosen frame in the current ring slot. -/
def AddBufferToRing (st : BufferAccessStrategyData) (s : BufState) (i : Nat) :
    BufferAccessStrategyData :=
  { st with buffers := st.buffers.set st.current (BufferDescriptorGetBuffer (getBuf s i)) }

/-- StrategyRejectBuffer: consider rejecting a dirty buffer; true means the
caller should ask for a new victim, in which case the ring slot is blanked. -/
def StrategyRejectBuffer (st : BufferAccessStrategyData) (b : BufferDesc) :
    BufferAccessStrategyData × Bool :=
  if st.btype ≠ BufferAccessStrategyType.BAS_BULKREAD then
    (st, false)
  else if ¬ st.current_was_in_ring ∨
          st.buffers.getD st.current 0 ≠ BufferDescriptorGetBuffer b then
    (st, false)
  else
    ({ st with buffers := st.buffers.set st.current InvalidBuffer }, true)

/-- Frame descriptors as set up before StrategyInitialize runs.
Modelled from the spec: InitBufferPool (not in this repository) links all
frames into the freelist 0 .. N-1 via freeNext, with the last entry holding
the end-of-list sentinel, and all other fields zeroed / nil. -/
def initialBufs (n : Nat) : List BufferDesc :=
  (List.range n).map (fun i =>
    { buf_id := i, refcount := 0, usage_count := 0,
      freeNext := if i + 1 = n then FREENEXT_END_OF_LIST else ((i : Int) + 1),
      previous := none, next := none, hdrLocked := false })

/-- StrategyInitialize (first call, init = true): grab the whole linked list
of free buffers and clear the rest of the control block. -/
def StrategyInitialize (n : Nat) : BufState :=
  { ctl := { nextVictimBuffer := 0,
             firstFreeBuffer := 0,
             lastFreeBuffer := (n : Int) - 1,
             completePasses := 0,
             numBufferAllocs := 0,
             bgwriterLatch := none,
             lastUnpinned := none,
             firstUnpinned := none,
             a1Head := none,
             a1Tail := none },
    bufs := initialBufs n }

/-- Outcome of one of the scanning loops inside StrategyGetBuffer:
a victim was found, or the loop terminated empty-handed (drained freelist
respectively the elog("no unpinned buffers available") paths), or the
model's fuel ran out before the loop terminated. -/
inductive LoopRes where
  | found (i : Nat)
  | nil
  | fuelOut
deriving Repr, DecidableEq

/-- Errors with which StrategyGetBuffer can abort (the elog(ERROR, ...)
calls), plus the model's fuel-exhaustion marker. -/
inductive StratError where
  | noUnpinnedBuffers
  | noBufferSelected
  | outOfFuel
deriving Repr, DecidableEq

/-- Loop of StrategyGetBuffer popping the freelist head until a frame with
refcount = 0 and usage_count = 0 is found (returned header-locked, and added
to the ring when one was supplied) or the list drains. -/
def freelistPop (s : BufState) (strat : Option BufferAccessStrategyData) :
    Nat → BufState × Option BufferAccessStrategyData × LoopRes
  | 0 => (s, strat, LoopRes.fuelOut)
  | fuel + 1 =>
    if 0 ≤ s.ctl.firstFreeBuffer then
      let i := s.ctl.firstFreeBuffer.toNat
      let s1 := { s with ctl.firstFreeBuffer := (getBuf s i).freeNext }
      let s2 := setBuf s1 i (fun b => { b with freeNext := FREENEXT_NOT_IN_LIST })
      let s3 := LockBufHdr s2 i
      if (getBuf s3 i).refcount = 0 ∧ (getBuf s3 i).usage_count = 0 then
        match strat with
        | some st => (s3, some (AddBufferToRing st s3 i), LoopRes.found i)
        | none => (s3, none, LoopRes.found i)
      else
        freelistPop (UnlockBufHdr s3 i) strat fuel
    else
      (s, strat, LoopRes.nil)

/-- Hand advance at the top of each POLICY_CLOCK iteration: increment
nextVictimBuffer, wrapping to 0 (and counting a complete pass) when it
reaches NBuffers. -/
def advanceHand (s : BufState) : BufState :=
  if s.ctl.nextVictimBuffer + 1 ≥ nBuffers s then
    { s with ctl.nextVictimBuffer := 0,
             ctl.completePasses := s.ctl.completePasses + 1 }
  else
    { s with ctl.nextVictimBuffer := s.ctl.nextVictimBuffer + 1 }

/-- The POLICY_CLOCK loop of StrategyGetBuffer: advance the hand via
advanceHand, header-lock the frame the hand pointed at, decrement a
positive usage count of an unpinned frame (resetting the no-progress
counter to NBuffers), return the first unpinned frame with usage_count = 0
header-locked, and give up after NBuffers consecutive pinned frames.  The
trycounter is an Int exactly as in the source. -/
def clockLoop :
    BufState → Option BufferAccessStrategyData → Int → Nat →
      BufState × Option BufferAccessStrategyData × LoopRes
  | s, strat, _, 0 => (s, strat, LoopRes.fuelOut)
  | s, strat, trycounter, fuel + 1 =>
    if (getBuf (LockBufHdr (advanceHand s) s.ctl.nextVictimBuffer)
        s.ctl.nextVictimBuffer).refcount = 0 then
      if (getBuf (LockBufHdr (advanceHand s) s.ctl.nextVictimBuffer)
          s.ctl.nextVictimBuffer).usage_count > 0 then
        clockLoop
          (UnlockBufHdr
            (setBuf (LockBufHdr (advanceHand s) s.ctl.nextVictimBuffer)
              s.ctl.nextVictimBuffer
              (fun b => { b with usage_count := b.usage_count - 1 }))
            s.ctl.nextVictimBuffer)
          strat ((nBuffers s : Int)) fuel
      else
        match strat with
        | some st =>
          (LockBufHdr (advanceHand s) s.ctl.nextVictimBuffer,
           some (AddBufferToRing st (LockBufHdr (advanceHand s) s.ctl.nextVictimBuffer)
             s.ctl.nextVictimBuffer),
           LoopRes.found s.ctl.nextVictimBuffer)
        | none =>
          (LockBufHdr (advanceHand s) s.ctl.nextVictimBuffer, none,
           LoopRes.found s.ctl.nextVictimBuffer)
    else if trycounter - 1 = 0 then
      (UnlockBufHdr (LockBufHdr (advanceHand s) s.ctl.nextVictimBuffer)
        s.ctl.nextVictimBuffer, strat, LoopRes.nil)
    else
      clockLoop
        (UnlockBufHdr (LockBufHdr (advanceHand s) s.ctl.nextVictimBuffer)
          s.ctl.nextVictimBuffer)
        strat (trycounter - 1) fuel

/-- The POLICY_LRU walk of StrategyGetBuffer: from firstUnpinned toward the
tail, header-locking each frame, stopping at the first one with
refcount = 0 (left locked, its buf_id recorded as resultIndex); reaching
nil is the no-unpinned-buffers error path. -/
def lruWalk :
    BufState → Option Nat → Nat → BufState × LoopRes
  | s, _, 0 => (s, LoopRes.fuelOut)
  | s, none, _ + 1 => (s, LoopRes.nil)
  | s, some i, fuel + 1 =>
    let s1 := LockBufHdr s i
    if (getBuf s1 i).refcount = 0 then
      (s1, LoopRes.found (getBuf s1 i).buf_id)
    else
      lruWalk (UnlockBufHdr s1 i) (getBuf s1 i).next fuel

/-- The POLICY_MRU walk of StrategyGetBuffer: like the LRU walk but from
lastUnpinned toward the head following the previous pointers. -/
def mruWalk :
    BufState → Option Nat → Nat → BufState × LoopRes
  | s, _, 0 => (s, LoopRes.fuelOut)
  | s, none, _ + 1 => (s, LoopRes.nil)
  | s, some i, fuel + 1 =>
    let s1 := LockBufHdr s i
    if (getBuf s1 i).refcount = 0 then
      (s1, LoopRes.found (getBuf s1 i).buf_id)
    else
      mruWalk (UnlockBufHdr s1 i) (getBuf s1 i).previous fuel

/-- Loop computing sizeA1 in the POLICY_2Q branch (walks the A1 queue
counting nodes); none when the fuel runs out. -/
def queueLen : BufState → Option Nat → Nat → Option Nat
  | _, none, _ => some 0
  | _, some _, 0 => none
  | s, some i, fuel + 1 => (queueLen s (getBuf s i).next fuel).map (· + 1)

/-- The victim-unlink block shared by the two POLICY_2Q scans (the source
repeats it verbatim for the A1 and main queues, with the respective
head/tail fields): adjust the neighbours of frame i by the four-case
analysis on its links, compute the updated head/tail pointers, and nil
the victim's own links. -/
def unlinkVictim (s : BufState) (hd tl : Option Nat) (i : Nat) :
    BufState × Option Nat × Option Nat :=
  let b := getBuf s i
  let step : BufState × Option Nat × Option Nat :=
    match b.next, b.previous with
    | some nx, some pv =>
      (setPrev (setNext s pv (some nx)) nx (some pv), hd, tl)
    | some nx, none =>
      (setPrev s nx none, some nx, tl)
    | none, none =>
      (s, none, none)
    | none, some pv =>
      (setNext s pv none, hd, some pv)
  (setPrev (setNext step.1 i none) i none, step.2)

/-- The POLICY_2Q scan over the A1 queue: from a1Head toward the tail, the
first frame with refcount = 0 is unlinked from A1 (unlinkVictim, writing
the updated head/tail back into a1Head/a1Tail) and its buf_id recorded;
reaching nil is the no-unpinned-buffers error path.  Note that this branch
of the source never takes the header spinlock. -/
def twoQScanA1 :
    BufState → Option Nat → Nat → BufState × LoopRes
  | s, _, 0 => (s, LoopRes.fuelOut)
  | s, none, _ + 1 => (s, LoopRes.nil)
  | s, some i, fuel + 1 =>
    if (getBuf s i).refcount = 0 then
      let r := unlinkVictim s s.ctl.a1Head s.ctl.a1Tail i
      ({ r.1 with ctl.a1Head := r.2.1, ctl.a1Tail := r.2.2 },
       LoopRes.found (getBuf s i).buf_id)
    else
      twoQScanA1 s (getBuf s i).next fuel

/-- The POLICY_2Q scan over the main (AM) queue: same shape as the A1 scan
but unlinking from firstUnpinned/lastUnpinned. -/
def twoQScanMain :
    BufState → Option Nat → Nat → BufState × LoopRes
  | s, _, 0 => (s, LoopRes.fuelOut)
  | s, none, _ + 1 => (s, LoopRes.nil)
  | s, some i, fuel + 1 =>
    if (getBuf s i).refcount = 0 then
      let r := unlinkVictim s s.ctl.firstUnpinned s.ctl.lastUnpinned i
      ({ r.1 with ctl.firstUnpinned := r.2.1, ctl.lastUnpinned := r.2.2 },
       LoopRes.found (getBuf s i).buf_id)
    else
      twoQScanMain s (getBuf s i).next fuel

/-- The bgwriterLatch block of StrategyGetBuffer: if the latch is set,
clear it (the SetLatch signal and the release/re-acquire of the freelist
lock around it are external side effects with no shared-state footprint
beyond the cleared field). -/
def clearLatch (s : BufState) : BufState :=
  match s.ctl.bgwriterLatch with
  | some _ => { s with ctl.bgwriterLatch := none }
  | none => s

/-- The replacement-policy dispatch of StrategyGetBuffer, run after the
freelist has drained: one branch per BufferReplacementPolicy value, each
mapping its loop's outcome to either ok (resultIndex, lock_held = true) or
the no-unpinned-buffers error. -/
def policyVictim (s2 : BufState) (strat2 : Option BufferAccessStrategyData)
    (policy : PolicyKind) (fuel : Nat) :
    BufState × Option BufferAccessStrategyData × Except StratError (Nat × Bool) :=
  match policy with
  | PolicyKind.POLICY_CLOCK =>
    match clockLoop s2 strat2 ((nBuffers s2 : Int)) fuel with
    | (s3, strat3, LoopRes.found i) => (s3, strat3, Except.ok (i, true))
    | (s3, strat3, LoopRes.nil) => (s3, strat3, Except.error StratError.noUnpinnedBuffers)
    | (s3, strat3, LoopRes.fuelOut) => (s3, strat3, Except.error StratError.outOfFuel)
  | PolicyKind.POLICY_LRU =>
    match lruWalk s2 s2.ctl.firstUnpinned fuel with
    | (s3, LoopRes.found i) => (s3, strat2, Except.ok (i, true))
    | (s3, LoopRes.nil) => (s3, strat2, Except.error StratError.noUnpinnedBuffers)
    | (s3, LoopRes.fuelOut) => (s3, strat2, Except.error StratError.outOfFuel)
  | PolicyKind.POLICY_MRU =>
    match mruWalk s2 s2.ctl.lastUnpinned fuel with
    | (s3, LoopRes.found i) => (s3, strat2, Except.ok (i, true))
    | (s3, LoopRes.nil) => (s3, strat2, Except.error StratError.noUnpinnedBuffers)
    | (s3, LoopRes.fuelOut) => (s3, strat2, Except.error StratError.outOfFuel)
  | PolicyKind.POLICY_2Q =>
    match queueLen s2 s2.ctl.a1Head fuel with
    | none => (s2, strat2, Except.error StratError.outOfFuel)
    | some sizeA1 =>
      if sizeA1 ≥ nBuffers s2 / 2 ∨ s2.ctl.lastUnpinned = none then
        match twoQScanA1 s2 s2.ctl.a1Head fuel with
        | (s3, LoopRes.found i) => (s3, strat2, Except.ok (i, true))
        | (s3, LoopRes.nil) => (s3, strat2, Except.error StratError.noUnpinnedBuffers)
        | (s3, LoopRes.fuelOut) => (s3, strat2, Except.error StratError.outOfFuel)
      else
        match twoQScanMain s2 s2.ctl.firstUnpinned fuel with
        | (s3, LoopRes.found i) => (s3, strat2, Except.ok (i, true))
        | (s3, LoopRes.nil) => (s3, strat2, Except.error StratError.noUnpinnedBuffers)
        | (s3, LoopRes.fuelOut) => (s3, strat2, Except.error StratError.outOfFuel)

/-- The freelist-then-policy phase of StrategyGetBuffer: try freelist pops
first and fall through to the policy dispatch when the list drains. -/
def freelistThenPolicy (s1 : BufState) (strat : Option BufferAccessStrategyData)
    (policy : PolicyKind) (fuel : Nat) :
    BufState × Option BufferAccessStrategyData × Except StratError (Nat × Bool) :=
  match freelistPop s1 strat fuel with
  | (s2, strat2, LoopRes.found i) => (s2, strat2, Except.ok (i, true))
  | (s2, strat2, LoopRes.fuelOut) => (s2, strat2, Except.error StratError.outOfFuel)
  | (s2, strat2, LoopRes.nil) => policyVictim s2 strat2 policy fuel

/-- Body of StrategyGetBuffer after the ring was tried: bump
numBufferAllocs, clear (and signal) the bgwriter latch, drain the
freelist, then run the configured replacement policy.  The result carries
the state at return or at the elog(ERROR) abort, the possibly-updated ring,
and either (resultIndex, lock_held) or the error. -/
def StrategyGetBufferCore (s : BufState) (strat : Option BufferAccessStrategyData)
    (policy : PolicyKind) (fuel : Nat) :
    BufState × Option BufferAccessStrategyData × Except StratError (Nat × Bool) :=
  freelistThenPolicy
    (clearLatch { s with ctl.numBufferAllocs := s.ctl.numBufferAllocs + 1 })
    strat policy fuel

/-- StrategyGetBuffer: try the ring first when a strategy was supplied
(returning with lock_held = false), otherwise take the freelist lock
(lock_held = true) and run StrategyGetBufferCore.  The Nat of the ok result
is the index into BufferDescriptors of the returned frame and the Bool is
*lock_held. -/
def StrategyGetBuffer (s : BufState) (strat : Option BufferAccessStrategyData)
    (policy : PolicyKind) (fuel : Nat) :
    BufState × Option BufferAccessStrategyData × Except StratError (Nat × Bool) :=
  match strat with
  | some st =>
    match GetBufferFromRing s st with
    | (s1, st1, some i) => (s1, some st1, Except.ok (i, false))
    | (s1, st1, none) => StrategyGetBufferCore s1 (some st1) policy fuel
  | none => StrategyGetBufferCore s none policy fuel

/-- Walk of BufferUnpinned testing whether target is a member of the queue
starting at cur (pointer comparison head == buf in the source); none when
the fuel runs out. -/
def inQueue : BufState → Nat → Option Nat → Nat → Option Bool
  | _, _, _, 0 => none
  | _, _, none, _ + 1 => some false
  | s, target, some h, fuel + 1 =>
    if h = target then some true
    else inQueue s target (getBuf s h).next fuel

/-- The POLICY_2Q branch of BufferUnpinned for a buf found on the main (AM)
queue: move it to the tail (no-op when buf->next is nil, that is when buf
is already the tail).  first/last/previous/next are the snapshots taken at
the top of BufferUnpinned. -/
def bufferUnpinned2QMain (s : BufState) (buf : Nat)
    (last previous next : Option Nat) : BufState :=
  match next with
  | some nx =>
    match previous with
    | some pv =>
      let s1 := setPrevP (setNext s pv (some nx)) (some nx) (some pv)
      let s2 := setNextP s1 last (some buf)
      let s3 := setNext (setPrev s2 buf last) buf none
      { s3 with ctl.lastUnpinned := some buf }
    | none =>
      let s1 := { setPrevP s (some nx) none with ctl.firstUnpinned := some nx }
      let s2 := setNextP s1 last (some buf)
      let s3 := setNext (setPrev s2 buf last) buf none
      { s3 with ctl.lastUnpinned := some buf }
  | none => s

/-- The common tail of the POLICY_2Q A1 cases of BufferUnpinned: append buf
to the main queue (special-casing an empty main queue), using the first and
last snapshots. -/
def bufferUnpinnedAppendMain (s : BufState) (buf : Nat)
    (first last : Option Nat) : BufState :=
  let s1 := if first = none ∨ last = none then
              { s with ctl.firstUnpinned := some buf }
            else
              setNextP s last (some buf)
  let s2 := setNext (setPrev s1 buf last) buf none
  { s2 with ctl.lastUnpinned := some buf }

/-- The POLICY_2Q branch of BufferUnpinned for a buf found on the A1 queue:
remove it from A1 (four neighbour cases) and append it to the tail of the
main queue. -/
def bufferUnpinned2QA1 (s : BufState) (buf : Nat)
    (first last previous next : Option Nat) : BufState :=
  match next with
  | some nx =>
    match previous with
    | some pv =>
      let s1 := setPrevP (setNext s pv (some nx)) (some nx) (some pv)
      bufferUnpinnedAppendMain s1 buf first last
    | none =>
      let s1 := { setPrevP s (some nx) none with ctl.a1Head := some nx }
      bufferUnpinnedAppendMain s1 buf first last
  | none =>
    match previous with
    | none =>
      let s1 := { s with ctl.a1Head := none, ctl.a1Tail := none }
      bufferUnpinnedAppendMain s1 buf first last
    | some pv =>
      let s1 := { setNext s pv none with ctl.a1Tail := some pv }
      bufferUnpinnedAppendMain s1 buf first last

/-- The POLICY_2Q fall-through of BufferUnpinned: buf is in neither queue,
append it to the tail of A1. -/
def bufferUnpinned2QNew (s : BufState) (buf : Nat) : BufState :=
  let s1 := if s.ctl.a1Head = none ∨ s.ctl.a1Tail = none then
              { setPrev s buf none with ctl.a1Head := some buf, ctl.a1Tail := some buf }
            else
              setPrev (setNextP s s.ctl.a1Tail (some buf)) buf s.ctl.a1Tail
  let s2 := setNext s1 buf none
  { s2 with ctl.a1Tail := some buf }

/-- The non-2Q branch of BufferUnpinned (LRU, MRU or CLOCK): move buf to
the tail of the main queue, dispatching on its snapshotted links; a buf
with nil next and non-nil previous (the tail) is left alone, and a buf with
both links nil is treated as new to the list. -/
def bufferUnpinnedMain (s : BufState) (buf : Nat)
    (first last previous next : Option Nat) : BufState :=
  match next with
  | some nx =>
    match previous with
    | some pv =>
      let s1 := setPrevP (setNext s pv (some nx)) (some nx) (some pv)
      let s2 := setNextP s1 last (some buf)
      let s3 := setNext (setPrev s2 buf last) buf none
      { s3 with ctl.lastUnpinned := some buf }
    | none =>
      let s1 := { setPrevP s (some nx) none with ctl.firstUnpinned := some nx }
      let s2 := setNextP s1 last (some buf)
      let s3 := setNext (setPrev s2 buf last) buf none
      { s3 with ctl.lastUnpinned := some buf }
  | none =>
    match previous with
    | none =>
      let s1 := if first = none then { s with ctl.firstUnpinned := some buf } else s
      let s2 := setNext (setPrev s1 buf last) buf none
      let s3 := setNextP s2 last (some buf)
      { s3 with ctl.lastUnpinned := some buf }
    | some _ => s

/-- BufferUnpinned(bufIndex): called when the buffer is unpinned and
becomes available for replacement.  The conditional freelist-lock
acquisition always succeeds in this sequential model.  Under POLICY_2Q the
membership walks of the source are fueled; when fuel runs out (the source
would loop forever on a corrupted queue) the state is returned unchanged. -/
def BufferUnpinned (s : BufState) (policy : PolicyKind) (bufIndex : Nat)
    (fuel : Nat) : BufState :=
  let buf := bufIndex
  let first := s.ctl.firstUnpinned
  let last := s.ctl.lastUnpinned
  let previous := (getBuf s bufIndex).previous
  let next := (getBuf s bufIndex).next
  if policy = PolicyKind.POLICY_2Q then
    match inQueue s buf first fuel with
    | none => s
    | some true => bufferUnpinned2QMain s buf last previous next
    | some false =>
      match inQueue s buf s.ctl.a1Head fuel with
      | none => s
      | some true => bufferUnpinned2QA1 s buf first last previous next
      | some false => bufferUnpinned2QNew s buf
  else
    bufferUnpinnedMain s buf first last previous next

deriving instance DecidableEq for Except

/-- Fueled walk collecting the queue starting at a head pointer, following
the next fields exactly as the membership walks of the source do. -/
def queueList (s : BufState) : Option Nat → Nat → List Nat
  | _, 0 => []
  | none, _ + 1 => []
  | some i, fuel + 1 => i :: queueList s (getBuf s i).next fuel

/-- Contents of the main victim queue, walked from firstUnpinned. -/
def mainQueueList (s : BufState) : List Nat :=
  queueList s s.ctl.firstUnpinned (s.bufs.length + 1)

/-- Contents of the A1 queue, walked from a1Head. -/
def a1QueueList (s : BufState) : List Nat :=
  queueList s s.ctl.a1Head (s.bufs.length + 1)

/-- Freelist membership as signalled by the freeNext field. -/
def inFreeList (s : BufState) (i : Nat) : Prop :=
  (getBuf s i).freeNext ≠ FREENEXT_NOT_IN_LIST

instance (s : BufState) (i : Nat) : Decidable (inFreeList s i) := by
  unfold inFreeList; infer_instance

/-- Scenario state: the freelist has been drained (every frame was handed
out once and the caller finished with it), all frames are unpinned with the
given usage count, and no frame is on any queue yet. -/
def drainedState (n u : Nat) : BufState :=
  { ctl := { nextVictimBuffer := 0, firstFreeBuffer := -1, lastFreeBuffer := -1,
             completePasses := 0, numBufferAllocs := 0, bgwriterLatch := none,
             lastUnpinned := none, firstUnpinned := none, a1Head := none,
             a1Tail := none },
    bufs := (List.range n).map (fun i =>
      { buf_id := i, refcount := 0, usage_count := u,
        freeNext := FREENEXT_NOT_IN_LIST, previous := none, next := none,
        hdrLocked := false }) }

/-- Scenario state: like drainedState but every frame is pinned once. -/
def allPinnedState (n : Nat) : BufState :=
  { ctl := { nextVictimBuffer := 0, firstFreeBuffer := -1, lastFreeBuffer := -1,
             completePasses := 0, numBufferAllocs := 0, bgwriterLatch := none,
             lastUnpinned := none, firstUnpinned := none, a1Head := none,
             a1Tail := none },
    bufs := (List.range n).map (fun i =>
      { buf_id := i, refcount := 1, usage_count := 0,
        freeNext := FREENEXT_NOT_IN_LIST, previous := none, next := none,
        hdrLocked := false }) }

/-- Scenario states for the 2Q unpin dispatch: on a drained 8-frame pool,
unpin frames 0, 1, 2, re-unpin 1, run a GetBuffer, then exercise the
remaining dispatch arms by unpinning 2 and 1 again. -/
def c6s1 : BufState := BufferUnpinned (drainedState 8 0) PolicyKind.POLICY_2Q 0 100

def c6s2 : BufState := BufferUnpinned c6s1 PolicyKind.POLICY_2Q 1 100

def c6s3 : BufState := BufferUnpinned c6s2 PolicyKind.POLICY_2Q 2 100

def c6s4 : BufState := BufferUnpinned c6s3 PolicyKind.POLICY_2Q 1 100

def c6r : BufState × Option BufferAccessStrategyData × Except StratError (Nat × Bool) :=
  StrategyGetBuffer c6s4 none PolicyKind.POLICY_2Q 100

def c6s5 : BufState := BufferUnpinned c6s4 PolicyKind.POLICY_2Q 2 100

def c6s6 : BufState := BufferUnpinned c6s5 PolicyKind.POLICY_2Q 1 100

/-- Predicate chainQ s p hd L stop tl: a doubly-linked segment.  Starting
from the pointer hd, whose first node is expected to carry previous-pointer
p, following the next fields visits exactly the nodes of L, the next
pointer leaving the segment is stop, and tl names the last node of the
segment (or equals p when L is empty).  A whole queue with head hd and
tail tl is chainQ s none hd L none tl. -/
def chainQ (s : BufState) :
    Option Nat → Option Nat → List Nat → Option Nat → Option Nat → Prop
  | p, hd, [], stop, tl => hd = stop ∧ tl = p
  | p, hd, i :: L, stop, tl =>
    hd = some i ∧ prv s i = p ∧ chainQ s (some i) (nxt s i) L stop tl

/-- Well-formed queue: the head/tail pointers carry the doubly-linked list
L, whose members are distinct valid buffer indices. -/
def wfQ (s : BufState) (hd tl : Option Nat) (L : List Nat) : Prop :=
  chainQ s none hd L none tl ∧ L.Nodup ∧ ∀ i ∈ L, i < s.bufs.length

/-- Equality of all per-frame fields except the two queue links. -/
def sameFrameCore (b1 b2 : BufferDesc) : Prop :=
  b1.buf_id = b2.buf_id ∧ b1.refcount = b2.refcount ∧
  b1.usage_count = b2.usage_count ∧ b1.freeNext = b2.freeNext ∧
  b1.hdrLocked = b2.hdrLocked

/-- Two states differ at most in queue links and control fields: the array
size and every non-link frame field agree. -/
def linkOnly (s1 s2 : BufState) : Prop :=
  s1.bufs.length = s2.bufs.length ∧
  ∀ j, sameFrameCore (getBuf s1 j) (getBuf s2 j)

/-- Two states agree on everything the victim queues are made of: array
size and the previous/next fields of every frame. -/
def linksEq (s1 s2 : BufState) : Prop :=
  s1.bufs.length = s2.bufs.length ∧ ∀ i, nxt s1 i = nxt s2 i ∧ prv s1 i = prv s2 i

/-- Two states have identical victim-queue structure: same head/tail
pointers of both queues and same links everywhere. -/
def queuesEq (s1 s2 : BufState) : Prop :=
  s1.ctl.firstUnpinned = s2.ctl.firstUnpinned ∧
  s1.ctl.lastUnpinned = s2.ctl.lastUnpinned ∧
  s1.ctl.a1Head = s2.ctl.a1Head ∧
  s1.ctl.a1Tail = s2.ctl.a1Tail ∧
  linksEq s1 s2

/-- Invariant maintained by all operations under POLICY_2Q: the main and
A1 queues are well-formed doubly-linked lists with disjoint memberships,
and (since the modelled operations never pin) every frame is unpinned. -/
def Inv2Q (s : BufState) : Prop :=
  ∃ M A, wfQ s s.ctl.firstUnpinned s.ctl.lastUnpinned M ∧
         wfQ s s.ctl.a1Head s.ctl.a1Tail A ∧
         (∀ i ∈ M, i ∉ A) ∧
         (∀ j, j < s.bufs.length → (getBuf s j).refcount = 0)

/-- States reachable from a fresh buffer pool of n frames by any sequence
of StrategyGetBuffer (with an arbitrary ring or none, and arbitrary fuel),
StrategyFreeBuffer and BufferUnpinned calls on valid frame indices, under a
fixed replacement policy. -/
inductive Reachable (n : Nat) (policy : PolicyKind) : BufState → Prop where
  | init : Reachable n policy (StrategyInitialize n)
  | getBuffer (s : BufState) (strat : Option BufferAccessStrategyData) (fuel : Nat) :
      Reachable n policy s →
      Reachable n policy (StrategyGetBuffer s strat policy fuel).1
  | freeBuffer (s : BufState) (b : Nat) (hb : b < s.bufs.length) :
      Reachable n policy s →
      Reachable n policy (StrategyFreeBuffer s b)
  | unpinned (s : BufState) (b : Nat) (hb : b < s.bufs.length) (fuel : Nat) :
      Reachable n policy s →
      Reachable n policy (BufferUnpinned s policy b fuel)

section BasicLemmas

@[simp] lemma ctl_setBuf (s : BufState) (i : Nat) (f : BufferDesc → BufferDesc) :
    (setBuf s i f).ctl = s.ctl := rfl

@[simp] lemma length_setBuf (s : BufState) (i : Nat) (f : BufferDesc → BufferDesc) :
    (setBuf s i f).bufs.length = s.bufs.length := by
  simp [setBuf]

lemma getBuf_setBuf_self (s : BufState) (i : Nat) (f : BufferDesc → BufferDesc)
    (h : i < s.bufs.length) : getBuf (setBuf s i f) i = f (getBuf s i) := by
  simp [getBuf, setBuf, List.getD_eq_getElem?_getD, List.getElem?_set, h]

lemma getBuf_setBuf_ne (s : BufState) (i j : Nat) (f : BufferDesc → BufferDesc)
    (h : i ≠ j) : getBuf (setBuf s i f) j = getBuf s j := by
  simp [getBuf, setBuf, List.getD_eq_getElem?_getD, List.getElem?_set_ne h]

end BasicLemmas

/-- C1: the claim that every successful StrategyGetBuffer returns its frame
with the header spinlock held fails for the POLICY_2Q replacement branch:
in a two-frame pool with frame 0 on the A1 queue, GetBuffer succeeds,
returns frame 0 with refcount 0, but no frame has its header lock held at
return — the 2Q branch of the source never calls LockBufHdr (the calls are
commented out), contradicting the contract stated in the function's own
header comment. -/
theorem C1_twoQ_victim_header_unlocked :
    (StrategyGetBuffer (BufferUnpinned (drainedState 2 0) PolicyKind.POLICY_2Q 0 100)
        none PolicyKind.POLICY_2Q 100).2.2 = Except.ok (0, true) ∧
    (getBuf (StrategyGetBuffer (BufferUnpinned (drainedState 2 0) PolicyKind.POLICY_2Q 0 100)
        none PolicyKind.POLICY_2Q 100).1 0).refcount = 0 ∧
    (getBuf (StrategyGetBuffer (BufferUnpinned (drainedState 2 0) PolicyKind.POLICY_2Q 0 100)
        none PolicyKind.POLICY_2Q 100).1 0).hdrLocked = false ∧
    (∀ i < 2, (getBuf (StrategyGetBuffer
        (BufferUnpinned (drainedState 2 0) PolicyKind.POLICY_2Q 0 100)
        none PolicyKind.POLICY_2Q 100).1 i).hdrLocked = false) := by
  decide

/-- C3: under POLICY_CLOCK with 8 frames, empty freelist, hand at 0 and all
usage counts 1, a single GetBuffer decrements every usage count to 0 on the
first pass, wraps (completePasses becomes 1), then returns frame 0
header-locked with the hand left at 1. -/
theorem C3_clock_decrement_pass_then_evict :
    (StrategyGetBuffer (drainedState 8 1) none PolicyKind.POLICY_CLOCK 100).2.2
      = Except.ok (0, true) ∧
    (StrategyGetBuffer (drainedState 8 1) none PolicyKind.POLICY_CLOCK 100).1.ctl.nextVictimBuffer = 1 ∧
    (StrategyGetBuffer (drainedState 8 1) none PolicyKind.POLICY_CLOCK 100).1.ctl.completePasses = 1 ∧
    (getBuf (StrategyGetBuffer (drainedState 8 1) none PolicyKind.POLICY_CLOCK 100).1 0).hdrLocked = true ∧
    (∀ i < 8,
      (getBuf (StrategyGetBuffer (drainedState 8 1) none PolicyKind.POLICY_CLOCK 100).1 i).usage_count = 0 ∧
      (getBuf (StrategyGetBuffer (drainedState 8 1) none PolicyKind.POLICY_CLOCK 100).1 i).refcount = 0) := by
  decide

/-- C5: the claim fails on the code in the sole-element edge case.  Under
POLICY_LRU, after frame 2 is unpinned into an empty main queue the queue is
the well-formed singleton (head = tail = 2, both links nil); unpinning
frame 2 again should leave that intact, but the code instead sets frame 2's
previous and next pointers to frame 2 itself, so the head's previous and
the tail's next are no longer nil: the main queue is not a well-formed
doubly-linked list afterwards. -/
theorem C5_sole_element_unpin_breaks_queue :
    (BufferUnpinned (drainedState 4 0) PolicyKind.POLICY_LRU 2 100).ctl.firstUnpinned = some 2 ∧
    (BufferUnpinned (drainedState 4 0) PolicyKind.POLICY_LRU 2 100).ctl.lastUnpinned = some 2 ∧
    (getBuf (BufferUnpinned (drainedState 4 0) PolicyKind.POLICY_LRU 2 100) 2).previous = none ∧
    (getBuf (BufferUnpinned (drainedState 4 0) PolicyKind.POLICY_LRU 2 100) 2).next = none ∧
    (BufferUnpinned (BufferUnpinned (drainedState 4 0) PolicyKind.POLICY_LRU 2 100)
        PolicyKind.POLICY_LRU 2 100).ctl.firstUnpinned = some 2 ∧
    (getBuf (BufferUnpinned (BufferUnpinned (drainedState 4 0) PolicyKind.POLICY_LRU 2 100)
        PolicyKind.POLICY_LRU 2 100) 2).previous = some 2 ∧
    (getBuf (BufferUnpinned (BufferUnpinned (drainedState 4 0) PolicyKind.POLICY_LRU 2 100)
        PolicyKind.POLICY_LRU 2 100) 2).next = some 2 := by
  decide

/-- C7 counterexample: the partitioning claim fails as stated.  Starting
from StrategyInitialize with 8 frames (policy 2Q), the single operation
BufferUnpinned(0) leaves frame 0 both on the freelist (freeNext is still 1,
not NOT_IN_LIST, since BufferUnpinned never checks freelist membership) and
on the A1 queue. -/
theorem C7_partition_counterexample :
    inFreeList (BufferUnpinned (StrategyInitialize 8) PolicyKind.POLICY_2Q 0 100) 0 ∧
    0 ∈ a1QueueList (BufferUnpinned (StrategyInitialize 8) PolicyKind.POLICY_2Q 0 100) := by
  decide

/-- Helper: StrategyFreeBuffer is a no-op on a frame already in the freelist. -/
lemma strategyFreeBuffer_no_op (s : BufState) (b : Nat)
    (h : (getBuf s b).freeNext ≠ FREENEXT_NOT_IN_LIST) :
    StrategyFreeBuffer s b = s := by
  simp [StrategyFreeBuffer, h]

/-- C6: the 2Q promotion scenario with 8 frames.  Unpinning frames 0, 1, 2
lands all three on A1 with the main queue empty; re-unpinning frame 1
removes it from A1 and appends it to the main queue (A1 = [0, 2],
main = [1]); the next 2Q GetBuffer (|A1| = 2 < 4 and main non-empty)
evicts from the main queue head, returning frame 1 unlinked from main.
The remaining conjuncts exercise the other two dispatch arms: unpinning
frame 2 promotes it from A1 to the main tail, and unpinning frame 1 (now
in the main queue) moves it to the main tail. -/
theorem C6_twoQ_unpin_dispatch :
    a1QueueList c6s3 = [0, 1, 2] ∧ mainQueueList c6s3 = [] ∧
    a1QueueList c6s4 = [0, 2] ∧ mainQueueList c6s4 = [1] ∧
    c6r.2.2 = Except.ok (1, true) ∧
    mainQueueList c6r.1 = [] ∧ a1QueueList c6r.1 = [0, 2] ∧
    a1QueueList c6s5 = [0] ∧ mainQueueList c6s5 = [1, 2] ∧
    a1QueueList c6s6 = [0] ∧ mainQueueList c6s6 = [2, 1] := by
  decide

/-- C8: StrategyFreeBuffer is idempotent: releasing the same frame twice
leaves the whole state (in particular firstFreeBuffer, lastFreeBuffer and
every freeNext field) identical to releasing it once.  The hypothesis on
firstFreeBuffer says it is a real freelist head value (the end-of-list
sentinel or a buffer id), which holds in every state the program creates. -/
theorem C8_free_buffer_idempotent (s : BufState) (b : Nat)
    (hb : b < s.bufs.length)
    (hff : FREENEXT_NOT_IN_LIST < s.ctl.firstFreeBuffer) :
    StrategyFreeBuffer (StrategyFreeBuffer s b) b = StrategyFreeBuffer s b := by
  by_cases h : (getBuf s b).freeNext = FREENEXT_NOT_IN_LIST
  · have key : (getBuf (StrategyFreeBuffer s b) b).freeNext = s.ctl.firstFreeBuffer := by
      unfold StrategyFreeBuffer
      simp only [h, if_pos]
      split
      · simp [setBuf, getBuf, List.getD_eq_getElem?_getD, List.getElem?_set, hb]
      · simp [setBuf, getBuf, List.getD_eq_getElem?_getD, List.getElem?_set, hb]
    exact strategyFreeBuffer_no_op _ _ (key ▸ ne_of_gt hff)
  · rw [strategyFreeBuffer_no_op s b h]
    exact strategyFreeBuffer_no_op s b h

/-- C8 witness: applying the idempotence theorem to a concrete drained
4-frame pool and frame 2. -/
theorem C8_free_buffer_idempotent_witness :
    StrategyFreeBuffer (StrategyFreeBuffer (drainedState 4 0) 2) 2
      = StrategyFreeBuffer (drainedState 4 0) 2 :=
  C8_free_buffer_idempotent (drainedState 4 0) 2 (by decide) (by decide)

/-- C9: StrategyRejectBuffer returns true exactly when the strategy is
BULKREAD, the current ring slot still refers to the offered frame, and the
frame had come from the ring; in that case the slot is blanked to
InvalidBuffer, and any GetBufferFromRing call whose slot advance reaches a
slot holding InvalidBuffer returns nil (with current_was_in_ring reset). -/
theorem C9_reject_buffer_spec :
    (∀ (st : BufferAccessStrategyData) (b : BufferDesc),
       (StrategyRejectBuffer st b).2 = true ↔
         (st.btype = BufferAccessStrategyType.BAS_BULKREAD ∧
          st.current_was_in_ring = true ∧
          st.buffers.getD st.current 0 = BufferDescriptorGetBuffer b)) ∧
    (∀ (st : BufferAccessStrategyData) (b : BufferDesc),
       (StrategyRejectBuffer st b).2 = true →
       (StrategyRejectBuffer st b).1.buffers.getD st.current 0 = InvalidBuffer) ∧
    (∀ (s : BufState) (st : BufferAccessStrategyData),
       st.buffers.getD (if st.current + 1 ≥ st.ring_size then 0 else st.current + 1) 0
         = InvalidBuffer →
       (GetBufferFromRing s st).2.2 = none ∧
       (GetBufferFromRing s st).2.1.current_was_in_ring = false ∧
       (GetBufferFromRing s st).2.1.current
         = (if st.current + 1 ≥ st.ring_size then 0 else st.current + 1)) := by
  refine ⟨?_, ?_, ?_⟩
  · intro st b
    unfold StrategyRejectBuffer
    split_ifs with h1 h2
    · constructor
      · intro hc; cases hc
      · rintro ⟨hbt, _, _⟩; exact absurd hbt h1
    · constructor
      · intro hc; cases hc
      · rintro ⟨hbt, hring, hslot⟩
        rcases h2 with h2 | h2
        · simp [hring] at h2
        · exact absurd hslot h2
    · have h1a : st.btype = BufferAccessStrategyType.BAS_BULKREAD := by
        by_contra hc; exact h1 hc
      push_neg at h2
      refine ⟨fun _ => ⟨h1a, by simpa using h2.1, h2.2⟩, fun _ => rfl⟩
  · intro st b h
    unfold StrategyRejectBuffer at h ⊢
    split_ifs at h ⊢ with h1 h2
    show (st.buffers.set st.current InvalidBuffer).getD st.current 0 = InvalidBuffer
    rcases Nat.lt_or_ge st.current st.buffers.length with hc | hc
    · simp [List.getD_eq_getElem?_getD, List.getElem?_set, hc, InvalidBuffer]
    · simp [List.getD_eq_getElem?_getD, List.getElem?_set, Nat.not_lt.mpr hc, InvalidBuffer]
  · intro s st h
    unfold GetBufferFromRing
    simp only [ge_iff_le] at h ⊢
    rw [if_pos (by simpa using h)]
    exact ⟨rfl, rfl, rfl⟩

/-- C9 witness: a concrete BULKREAD ring of size 2 whose slot 0 refers to
frame 4 (Buffer number 5): rejecting frame 4 succeeds and blanks the slot,
and a ring call that advances onto a blanked slot returns nil. -/
theorem C9_reject_buffer_spec_witness :
    (StrategyRejectBuffer
        { btype := BufferAccessStrategyType.BAS_BULKREAD, ring_size := 2,
          current := 0, current_was_in_ring := true, buffers := [5, 0] }
        { dummyBuf with buf_id := 4 }).2 = true ∧
    (StrategyRejectBuffer
        { btype := BufferAccessStrategyType.BAS_BULKREAD, ring_size := 2,
          current := 0, current_was_in_ring := true, buffers := [5, 0] }
        { dummyBuf with buf_id := 4 }).1.buffers.getD 0 0 = InvalidBuffer ∧
    (GetBufferFromRing (drainedState 2 0)
        (StrategyRejectBuffer
          { btype := BufferAccessStrategyType.BAS_BULKREAD, ring_size := 2,
            current := 0, current_was_in_ring := true, buffers := [5, 0] }
          { dummyBuf with buf_id := 4 }).1).2.2 = none :=
  ⟨(C9_reject_buffer_spec.1 _ _).mpr (by decide),
   C9_reject_buffer_spec.2.1 _ _ (by decide),
   (C9_reject_buffer_spec.2.2 _ _ (by decide)).1⟩

section QueuePreservation

lemma getBuf_setBuf (s : BufState) (i j : Nat) (f : BufferDesc → BufferDesc) :
    getBuf (setBuf s i f) j =
      if i = j ∧ i < s.bufs.length then f (getBuf s i) else getBuf s j := by
  by_cases hij : i = j
  · subst hij
    by_cases hl : i < s.bufs.length
    · simp [getBuf, setBuf, List.getD_eq_getElem?_getD, List.getElem?_set, hl]
    · simp [getBuf, setBuf, List.getD_eq_getElem?_getD, List.getElem?_set, hl,
        List.getElem?_eq_none (Nat.le_of_not_lt hl)]
  · simp [getBuf, setBuf, List.getD_eq_getElem?_getD, List.getElem?_set, hij]

lemma linksEq_refl (s : BufState) : linksEq s s := ⟨rfl, fun _ => ⟨rfl, rfl⟩⟩

lemma linksEq_trans {s1 s2 s3 : BufState} (h1 : linksEq s1 s2) (h2 : linksEq s2 s3) :
    linksEq s1 s3 :=
  ⟨h1.1.trans h2.1, fun i =>
    ⟨(h1.2 i).1.trans (h2.2 i).1, (h1.2 i).2.trans (h2.2 i).2⟩⟩

lemma linksEq_setBuf (s : BufState) (i : Nat) (f : BufferDesc → BufferDesc)
    (hf : ∀ b, (f b).next = b.next ∧ (f b).previous = b.previous) :
    linksEq (setBuf s i f) s := by
  refine ⟨by simp, fun j => ?_⟩
  show (getBuf (setBuf s i f) j).next = (getBuf s j).next ∧
       (getBuf (setBuf s i f) j).previous = (getBuf s j).previous
  rw [getBuf_setBuf]
  by_cases hc : i = j ∧ i < s.bufs.length
  · rw [if_pos hc]
    obtain ⟨hij, _⟩ := hc
    subst hij
    exact ⟨(hf _).1, (hf _).2⟩
  · rw [if_neg hc]
    exact ⟨rfl, rfl⟩

lemma queuesEq_refl (s : BufState) : queuesEq s s :=
  ⟨rfl, rfl, rfl, rfl, linksEq_refl s⟩

lemma queuesEq_trans {s1 s2 s3 : BufState} (h1 : queuesEq s1 s2) (h2 : queuesEq s2 s3) :
    queuesEq s1 s3 :=
  ⟨h1.1.trans h2.1, h1.2.1.trans h2.2.1, h1.2.2.1.trans h2.2.2.1,
   h1.2.2.2.1.trans h2.2.2.2.1, linksEq_trans h1.2.2.2.2 h2.2.2.2.2⟩

lemma queuesEq_setBuf (s : BufState) (i : Nat) (f : BufferDesc → BufferDesc)
    (hf : ∀ b, (f b).next = b.next ∧ (f b).previous = b.previous) :
    queuesEq (setBuf s i f) s :=
  ⟨rfl, rfl, rfl, rfl, linksEq_setBuf s i f hf⟩

lemma queuesEq_LockBufHdr (s : BufState) (i : Nat) : queuesEq (LockBufHdr s i) s :=
  queuesEq_setBuf s i _ (fun _ => ⟨rfl, rfl⟩)

lemma queuesEq_UnlockBufHdr (s : BufState) (i : Nat) : queuesEq (UnlockBufHdr s i) s :=
  queuesEq_setBuf s i _ (fun _ => ⟨rfl, rfl⟩)

lemma queuesEq_ctl (s : BufState) (c : BufferStrategyControl)
    (h1 : c.firstUnpinned = s.ctl.firstUnpinned)
    (h2 : c.lastUnpinned = s.ctl.lastUnpinned)
    (h3 : c.a1Head = s.ctl.a1Head)
    (h4 : c.a1Tail = s.ctl.a1Tail) :
    queuesEq { s with ctl := c } s :=
  ⟨h1, h2, h3, h4, linksEq_refl s⟩

lemma freelistPop_queuesEq (fuel : Nat) :
    ∀ (s : BufState) (strat : Option BufferAccessStrategyData),
      queuesEq (freelistPop s strat fuel).1 s := by
  induction fuel with
  | zero => intro s strat; exact queuesEq_refl s
  | succ fuel ih =>
    intro s strat
    rw [freelistPop]
    by_cases hc : 0 ≤ s.ctl.firstFreeBuffer
    · rw [if_pos hc]
      set i := s.ctl.firstFreeBuffer.toNat with hi
      have step1 : queuesEq { s with ctl.firstFreeBuffer := (getBuf s i).freeNext } s :=
        queuesEq_ctl _ _ rfl rfl rfl rfl
      have step2 : queuesEq
          (setBuf { s with ctl.firstFreeBuffer := (getBuf s i).freeNext } i
            (fun b => { b with freeNext := FREENEXT_NOT_IN_LIST }))
          { s with ctl.firstFreeBuffer := (getBuf s i).freeNext } :=
        queuesEq_setBuf _ _ _ (fun _ => ⟨rfl, rfl⟩)
      set s2 := setBuf { s with ctl.firstFreeBuffer := (getBuf s i).freeNext } i
            (fun b => { b with freeNext := FREENEXT_NOT_IN_LIST }) with hs2
      have step3 : queuesEq (LockBufHdr s2 i) s2 := queuesEq_LockBufHdr s2 i
      have upTo : queuesEq (LockBufHdr s2 i) s :=
        queuesEq_trans step3 (queuesEq_trans step2 step1)
      by_cases hc2 : (getBuf (LockBufHdr s2 i) i).refcount = 0 ∧
          (getBuf (LockBufHdr s2 i) i).usage_count = 0
      · rw [if_pos hc2]
        cases strat with
        | some st => exact upTo
        | none => exact upTo
      · rw [if_neg hc2]
        exact queuesEq_trans (ih _ strat)
          (queuesEq_trans (queuesEq_UnlockBufHdr _ i) upTo)
    · rw [if_neg hc]
      exact queuesEq_refl s

lemma queuesEq_advanceHand (s : BufState) : queuesEq (advanceHand s) s := by
  unfold advanceHand
  split
  · exact queuesEq_ctl _ _ rfl rfl rfl rfl
  · exact queuesEq_ctl _ _ rfl rfl rfl rfl

lemma queuesEq_clearLatch (s : BufState) : queuesEq (clearLatch s) s := by
  unfold clearLatch
  split
  · exact queuesEq_ctl _ _ rfl rfl rfl rfl
  · exact queuesEq_refl s

lemma clockLoop_succ (s : BufState) (strat : Option BufferAccessStrategyData)
    (t : Int) (fuel : Nat) :
    clockLoop s strat t (fuel + 1) =
    (if (getBuf (LockBufHdr (advanceHand s) s.ctl.nextVictimBuffer)
        s.ctl.nextVictimBuffer).refcount = 0 then
      if (getBuf (LockBufHdr (advanceHand s) s.ctl.nextVictimBuffer)
          s.ctl.nextVictimBuffer).usage_count > 0 then
        clockLoop
          (UnlockBufHdr
            (setBuf (LockBufHdr (advanceHand s) s.ctl.nextVictimBuffer)
              s.ctl.nextVictimBuffer
              (fun b => { b with usage_count := b.usage_count - 1 }))
            s.ctl.nextVictimBuffer)
          strat ((nBuffers s : Int)) fuel
      else
        match strat with
        | some st =>
          (LockBufHdr (advanceHand s) s.ctl.nextVictimBuffer,
           some (AddBufferToRing st (LockBufHdr (advanceHand s) s.ctl.nextVictimBuffer)
             s.ctl.nextVictimBuffer),
           LoopRes.found s.ctl.nextVictimBuffer)
        | none =>
          (LockBufHdr (advanceHand s) s.ctl.nextVictimBuffer, none,
           LoopRes.found s.ctl.nextVictimBuffer)
    else if t - 1 = 0 then
      (UnlockBufHdr (LockBufHdr (advanceHand s) s.ctl.nextVictimBuffer)
        s.ctl.nextVictimBuffer, strat, LoopRes.nil)
    else
      clockLoop
        (UnlockBufHdr (LockBufHdr (advanceHand s) s.ctl.nextVictimBuffer)
          s.ctl.nextVictimBuffer)
        strat (t - 1) fuel) := rfl

lemma lruWalk_zero (s : BufState) (cur : Option Nat) :
    lruWalk s cur 0 = (s, LoopRes.fuelOut) := by
  cases cur <;> rfl

lemma mruWalk_zero (s : BufState) (cur : Option Nat) :
    mruWalk s cur 0 = (s, LoopRes.fuelOut) := by
  cases cur <;> rfl

lemma clockLoop_queuesEq (fuel : Nat) :
    ∀ (s : BufState) (strat : Option BufferAccessStrategyData) (t : Int),
      queuesEq (clockLoop s strat t fuel).1 s := by
  induction fuel with
  | zero => intro s strat t; exact queuesEq_refl s
  | succ fuel ih =>
    intro s strat t
    rw [clockLoop_succ]
    have step2 : queuesEq (LockBufHdr (advanceHand s) s.ctl.nextVictimBuffer) s :=
      queuesEq_trans (queuesEq_LockBufHdr _ _) (queuesEq_advanceHand s)
    by_cases hc : (getBuf (LockBufHdr (advanceHand s) s.ctl.nextVictimBuffer)
        s.ctl.nextVictimBuffer).refcount = 0
    · rw [if_pos hc]
      by_cases hc2 : (getBuf (LockBufHdr (advanceHand s) s.ctl.nextVictimBuffer)
          s.ctl.nextVictimBuffer).usage_count > 0
      · rw [if_pos hc2]
        exact queuesEq_trans (ih _ strat _) (queuesEq_trans (queuesEq_UnlockBufHdr _ _)
          (queuesEq_trans (queuesEq_setBuf _ _ _ (fun _ => ⟨rfl, rfl⟩)) step2))
      · rw [if_neg hc2]
        cases strat with
        | some st => exact step2
        | none => exact step2
    · rw [if_neg hc]
      by_cases hc3 : t - 1 = 0
      · rw [if_pos hc3]
        exact queuesEq_trans (queuesEq_UnlockBufHdr _ _) step2
      · rw [if_neg hc3]
        exact queuesEq_trans (ih _ strat _)
          (queuesEq_trans (queuesEq_UnlockBufHdr _ _) step2)

lemma lruWalk_queuesEq (fuel : Nat) :
    ∀ (s : BufState) (cur : Option Nat), queuesEq (lruWalk s cur fuel).1 s := by
  induction fuel with
  | zero => intro s cur; rw [lruWalk_zero]; exact queuesEq_refl s
  | succ fuel ih =>
    intro s cur
    cases cur with
    | none => exact queuesEq_refl s
    | some i =>
      rw [lruWalk]
      by_cases hc : (getBuf (LockBufHdr s i) i).refcount = 0
      · rw [if_pos hc]; exact queuesEq_LockBufHdr s i
      · rw [if_neg hc]
        exact queuesEq_trans (ih _ _)
          (queuesEq_trans (queuesEq_UnlockBufHdr _ i) (queuesEq_LockBufHdr s i))

lemma mruWalk_queuesEq (fuel : Nat) :
    ∀ (s : BufState) (cur : Option Nat), queuesEq (mruWalk s cur fuel).1 s := by
  induction fuel with
  | zero => intro s cur; rw [mruWalk_zero]; exact queuesEq_refl s
  | succ fuel ih =>
    intro s cur
    cases cur with
    | none => exact queuesEq_refl s
    | some i =>
      rw [mruWalk]
      by_cases hc : (getBuf (LockBufHdr s i) i).refcount = 0
      · rw [if_pos hc]; exact queuesEq_LockBufHdr s i
      · rw [if_neg hc]
        exact queuesEq_trans (ih _ _)
          (queuesEq_trans (queuesEq_UnlockBufHdr _ i) (queuesEq_LockBufHdr s i))

lemma GetBufferFromRing_queuesEq (s : BufState) (st : BufferAccessStrategyData) :
    queuesEq (GetBufferFromRing s st).1 s := by
  unfold GetBufferFromRing
  dsimp only
  repeat' split
  all_goals first
    | exact queuesEq_refl s
    | exact queuesEq_LockBufHdr s _
    | exact queuesEq_trans (queuesEq_UnlockBufHdr _ _) (queuesEq_LockBufHdr s _)

lemma policyVictim_queuesEq_nonTwoQ (s : BufState)
    (strat : Option BufferAccessStrategyData) (policy : PolicyKind)
    (hp : policy ≠ PolicyKind.POLICY_2Q) (fuel : Nat) :
    queuesEq (policyVictim s strat policy fuel).1 s := by
  cases policy with
  | POLICY_CLOCK =>
    have hcl := clockLoop_queuesEq fuel s strat ((nBuffers s : Int))
    unfold policyVictim
    rcases hecl : clockLoop s strat ((nBuffers s : Int)) fuel with ⟨s3, strat3, r3⟩
    rw [hecl] at hcl
    cases r3 <;> exact hcl
  | POLICY_LRU =>
    have hw := lruWalk_queuesEq fuel s s.ctl.firstUnpinned
    unfold policyVictim
    rcases hew : lruWalk s s.ctl.firstUnpinned fuel with ⟨s3, r3⟩
    rw [hew] at hw
    cases r3 <;> exact hw
  | POLICY_MRU =>
    have hw := mruWalk_queuesEq fuel s s.ctl.lastUnpinned
    unfold policyVictim
    rcases hew : mruWalk s s.ctl.lastUnpinned fuel with ⟨s3, r3⟩
    rw [hew] at hw
    cases r3 <;> exact hw
  | POLICY_2Q => exact absurd rfl hp

lemma freelistThenPolicy_queuesEq_nonTwoQ (s1 : BufState)
    (strat : Option BufferAccessStrategyData) (policy : PolicyKind)
    (hp : policy ≠ PolicyKind.POLICY_2Q) (fuel : Nat) :
    queuesEq (freelistThenPolicy s1 strat policy fuel).1 s1 := by
  unfold freelistThenPolicy
  have hpop := freelistPop_queuesEq fuel s1 strat
  rcases hepop : freelistPop s1 strat fuel with ⟨s2, strat2, r⟩
  rw [hepop] at hpop
  cases r with
  | found i => exact hpop
  | fuelOut => exact hpop
  | nil => exact queuesEq_trans (policyVictim_queuesEq_nonTwoQ s2 strat2 policy hp fuel) hpop

lemma StrategyGetBufferCore_queuesEq_nonTwoQ (s : BufState)
    (strat : Option BufferAccessStrategyData) (policy : PolicyKind)
    (hp : policy ≠ PolicyKind.POLICY_2Q) (fuel : Nat) :
    queuesEq (StrategyGetBufferCore s strat policy fuel).1 s := by
  unfold StrategyGetBufferCore
  exact queuesEq_trans
    (freelistThenPolicy_queuesEq_nonTwoQ _ strat policy hp fuel)
    (queuesEq_trans (queuesEq_clearLatch _) (queuesEq_ctl _ _ rfl rfl rfl rfl))

lemma StrategyGetBuffer_queuesEq_nonTwoQ (s : BufState)
    (strat : Option BufferAccessStrategyData) (policy : PolicyKind)
    (hp : policy ≠ PolicyKind.POLICY_2Q) (fuel : Nat) :
    queuesEq (StrategyGetBuffer s strat policy fuel).1 s := by
  unfold StrategyGetBuffer
  cases strat with
  | none => exact StrategyGetBufferCore_queuesEq_nonTwoQ s none policy hp fuel
  | some st =>
    dsimp only
    have hr := GetBufferFromRing_queuesEq s st
    rcases her : GetBufferFromRing s st with ⟨s1, st1, r⟩
    rw [her] at hr
    cases r with
    | some i => exact hr
    | none =>
      exact queuesEq_trans
        (StrategyGetBufferCore_queuesEq_nonTwoQ s1 (some st1) policy hp fuel) hr

end QueuePreservation

/-- C10: LRU and MRU victim selection (and the CLOCK branch as well) leave
the victim-queue structure exactly as it was: both queues' head and tail
pointers and every frame's previous/next links are unchanged by any
StrategyGetBuffer call under those policies, whatever the state, ring and
fuel; only POLICY_2Q unlinks its victim, witnessed by the concrete 2Q
scenario in which eviction empties the main queue. -/
theorem C10_lru_mru_leave_queue_unchanged :
    (∀ (s : BufState) (strat : Option BufferAccessStrategyData) (fuel : Nat),
       queuesEq (StrategyGetBuffer s strat PolicyKind.POLICY_LRU fuel).1 s ∧
       queuesEq (StrategyGetBuffer s strat PolicyKind.POLICY_MRU fuel).1 s ∧
       queuesEq (StrategyGetBuffer s strat PolicyKind.POLICY_CLOCK fuel).1 s) ∧
    (let s4 := BufferUnpinned (BufferUnpinned (BufferUnpinned (BufferUnpinned
         (drainedState 8 0) PolicyKind.POLICY_2Q 0 100)
         PolicyKind.POLICY_2Q 1 100) PolicyKind.POLICY_2Q 2 100)
         PolicyKind.POLICY_2Q 1 100
     mainQueueList (StrategyGetBuffer s4 none PolicyKind.POLICY_2Q 100).1 ≠
       mainQueueList s4) :=
  ⟨fun s strat fuel =>
    ⟨StrategyGetBuffer_queuesEq_nonTwoQ s strat _ (by intro h; cases h) fuel,
     StrategyGetBuffer_queuesEq_nonTwoQ s strat _ (by intro h; cases h) fuel,
     StrategyGetBuffer_queuesEq_nonTwoQ s strat _ (by intro h; cases h) fuel⟩,
   by decide⟩

section ChainMachinery

lemma nxt_setNext (s : BufState) (i j : Nat) (v : Option Nat) :
    nxt (setNext s i v) j = if i = j ∧ i < s.bufs.length then v else nxt s j := by
  unfold nxt setNext
  rw [getBuf_setBuf]
  split <;> rfl

lemma prv_setNext (s : BufState) (i j : Nat) (v : Option Nat) :
    prv (setNext s i v) j = prv s j := by
  unfold prv setNext
  rw [getBuf_setBuf]
  split
  · next hc => rw [hc.1]
  · rfl

lemma nxt_setPrev (s : BufState) (i j : Nat) (v : Option Nat) :
    nxt (setPrev s i v) j = nxt s j := by
  unfold nxt setPrev
  rw [getBuf_setBuf]
  split
  · next hc => rw [hc.1]
  · rfl

lemma prv_setPrev (s : BufState) (i j : Nat) (v : Option Nat) :
    prv (setPrev s i v) j = if i = j ∧ i < s.bufs.length then v else prv s j := by
  unfold prv setPrev
  rw [getBuf_setBuf]
  split <;> rfl

@[simp] lemma nxt_ctlUpd (s : BufState) (c : BufferStrategyControl) (j : Nat) :
    nxt { s with ctl := c } j = nxt s j := rfl

@[simp] lemma prv_ctlUpd (s : BufState) (c : BufferStrategyControl) (j : Nat) :
    prv { s with ctl := c } j = prv s j := rfl

@[simp] lemma length_setNext (s : BufState) (i : Nat) (v : Option Nat) :
    (setNext s i v).bufs.length = s.bufs.length := by
  unfold setNext; simp

@[simp] lemma length_setPrev (s : BufState) (i : Nat) (v : Option Nat) :
    (setPrev s i v).bufs.length = s.bufs.length := by
  unfold setPrev; simp

lemma linkOnly_refl (s : BufState) : linkOnly s s :=
  ⟨rfl, fun _ => ⟨rfl, rfl, rfl, rfl, rfl⟩⟩

lemma linkOnly_trans {s1 s2 s3 : BufState} (h1 : linkOnly s1 s2) (h2 : linkOnly s2 s3) :
    linkOnly s1 s3 := by
  refine ⟨h1.1.trans h2.1, fun j => ?_⟩
  obtain ⟨a1, a2, a3, a4, a5⟩ := h1.2 j
  obtain ⟨b1, b2, b3, b4, b5⟩ := h2.2 j
  exact ⟨a1.trans b1, a2.trans b2, a3.trans b3, a4.trans b4, a5.trans b5⟩

lemma linkOnly_setNext (s : BufState) (i : Nat) (v : Option Nat) :
    linkOnly (setNext s i v) s := by
  refine ⟨by simp, fun j => ?_⟩
  unfold setNext
  rw [getBuf_setBuf]
  split
  · next hc => rw [hc.1]; exact ⟨rfl, rfl, rfl, rfl, rfl⟩
  · exact ⟨rfl, rfl, rfl, rfl, rfl⟩

lemma linkOnly_setPrev (s : BufState) (i : Nat) (v : Option Nat) :
    linkOnly (setPrev s i v) s := by
  refine ⟨by simp, fun j => ?_⟩
  unfold setPrev
  rw [getBuf_setBuf]
  split
  · next hc => rw [hc.1]; exact ⟨rfl, rfl, rfl, rfl, rfl⟩
  · exact ⟨rfl, rfl, rfl, rfl, rfl⟩

lemma linkOnly_ctlUpd (s : BufState) (c : BufferStrategyControl) :
    linkOnly { s with ctl := c } s := linkOnly_refl s

lemma chainQ_agree {s s2 : BufState} {L : List Nat} :
    ∀ {p hd stop tl : Option Nat},
      (∀ i ∈ L, nxt s2 i = nxt s i ∧ prv s2 i = prv s i) →
      chainQ s p hd L stop tl → chainQ s2 p hd L stop tl := by
  induction L with
  | nil => intro p hd stop tl _ h; exact h
  | cons i L ih =>
    intro p hd stop tl hagree h
    obtain ⟨h1, h2, h3⟩ := h
    refine ⟨h1, ?_, ?_⟩
    · rw [(hagree i (by simp)).2]; exact h2
    · rw [(hagree i (by simp)).1]
      exact ih (fun j hj => hagree j (by simp [hj])) h3

lemma chainQ_append_elim {s : BufState} {X Y : List Nat} :
    ∀ {p hd stop tl : Option Nat}, chainQ s p hd (X ++ Y) stop tl →
      ∃ mid pmid, chainQ s p hd X mid pmid ∧ chainQ s pmid mid Y stop tl := by
  induction X with
  | nil => intro p hd stop tl h; exact ⟨hd, p, ⟨rfl, rfl⟩, h⟩
  | cons i X ih =>
    intro p hd stop tl h
    obtain ⟨h1, h2, h3⟩ := h
    obtain ⟨mid, pmid, hX, hY⟩ := ih h3
    exact ⟨mid, pmid, ⟨h1, h2, hX⟩, hY⟩

lemma chainQ_append_intro {s : BufState} {X Y : List Nat} :
    ∀ {p hd stop tl mid pmid : Option Nat},
      chainQ s p hd X mid pmid → chainQ s pmid mid Y stop tl →
      chainQ s p hd (X ++ Y) stop tl := by
  induction X with
  | nil =>
    intro p hd stop tl mid pmid hX hY
    obtain ⟨h1, h2⟩ := hX
    subst h1; subst h2
    exact hY
  | cons i X ih =>
    intro p hd stop tl mid pmid hX hY
    obtain ⟨h1, h2, h3⟩ := hX
    exact ⟨h1, h2, ih h3 hY⟩

lemma chainQ_hd {s : BufState} {L : List Nat} {p hd stop tl : Option Nat}
    (h : chainQ s p hd L stop tl) : hd = (L.head?).or stop := by
  cases L with
  | nil => exact h.1
  | cons i L => rw [h.1]; rfl

lemma chainQ_tl {s : BufState} {L : List Nat} :
    ∀ {p hd stop tl : Option Nat}, chainQ s p hd L stop tl →
      tl = (L.getLast?).or p := by
  induction L with
  | nil => intro p hd stop tl h; rw [h.2]; rfl
  | cons i L ih =>
    intro p hd stop tl h
    obtain ⟨h1, h2, h3⟩ := h
    have := ih h3
    cases L with
    | nil => simpa using this
    | cons j L2 =>
      rw [this]
      have hne : (j :: L2).getLast? = some ((j :: L2).getLast (by simp)) := by
        rw [List.getLast?_eq_getLast]
      simp [List.getLast?_cons_cons, hne]

lemma chainQ_retarget {s s2 : BufState} {L : List Nat} (hL : L ≠ []) :
    ∀ {p hd stop stop2 tl : Option Nat},
      chainQ s p hd L stop tl →
      L.Nodup →
      (∀ i ∈ L, prv s2 i = prv s i) →
      nxt s2 (L.getLast hL) = stop2 →
      (∀ i ∈ L, i ≠ L.getLast hL → nxt s2 i = nxt s i) →
      chainQ s2 p hd L stop2 tl := by
  induction L with
  | nil => exact absurd rfl hL
  | cons x L ih =>
    intro p hd stop stop2 tl h hnd hprv hlast hother
    obtain ⟨h1, h2, h3⟩ := h
    cases L with
    | nil =>
      obtain ⟨h4, h5⟩ := h3
      refine ⟨h1, by rw [hprv x (by simp)]; exact h2, ?_, h5⟩
      simpa using hlast
    | cons y L2 =>
      have hxlast : x ≠ (x :: y :: L2).getLast (by simp) := by
        have hmem : (x :: y :: L2).getLast (by simp) ∈ y :: L2 := by
          rw [List.getLast_cons_cons]
          exact List.getLast_mem _
        intro hx
        rw [← hx] at hmem
        exact (List.nodup_cons.mp hnd).1 hmem
      refine ⟨h1, by rw [hprv x (by simp)]; exact h2, ?_⟩
      rw [hother x (by simp) hxlast]
      refine ih (by simp) h3 (List.nodup_cons.mp hnd).2
        (fun i hi => hprv i (by simp [hi])) ?_ ?_
      · rw [List.getLast_cons_cons] at hlast
        exact hlast
      · intro i hi hine
        refine hother i (by simp [hi]) ?_
        rw [List.getLast_cons_cons]
        exact hine

lemma chainQ_reprev {s s2 : BufState} {L : List Nat} (hL : L ≠ [])
    {p p2 hd stop tl : Option Nat}
    (h : chainQ s p hd L stop tl)
    (hnd : L.Nodup)
    (hnxt : ∀ i ∈ L, nxt s2 i = nxt s i)
    (hhd : prv s2 (L.head hL) = p2)
    (hprv : ∀ i ∈ L, i ≠ L.head hL → prv s2 i = prv s i) :
    chainQ s2 p2 hd L stop tl := by
  cases L with
  | nil => exact absurd rfl hL
  | cons x L2 =>
    obtain ⟨h1, h2, h3⟩ := h
    refine ⟨h1, by simpa using hhd, ?_⟩
    rw [hnxt x (by simp)]
    refine chainQ_agree (fun i hi => ⟨hnxt i (by simp [hi]), ?_⟩) h3
    refine hprv i (by simp [hi]) ?_
    intro hix
    rw [List.head_cons] at hix
    subst hix
    exact (List.nodup_cons.mp hnd).1 hi

lemma chainQ_prv_head {s : BufState} {L : List Nat} {x : Nat}
    {p hd stop tl : Option Nat} (h : chainQ s p hd (x :: L) stop tl) :
    prv s x = p := h.2.1

/-- Specification of the shared unlinkVictim block: removing the member v
of a well-linked queue X ++ v :: Y yields the well-linked queue X ++ Y
with the returned head/tail pointers, leaves links of frames outside the
queue untouched, nils the victim's links, and changes neither the control
block nor any non-link frame field. -/
lemma unlinkVictim_spec (s : BufState) (hd tl : Option Nat) (v : Nat)
    (X Y : List Nat)
    (hchain : chainQ s none hd (X ++ v :: Y) none tl)
    (hnd : (X ++ v :: Y).Nodup)
    (hbound : ∀ i ∈ X ++ v :: Y, i < s.bufs.length) :
    chainQ (unlinkVictim s hd tl v).1 none (unlinkVictim s hd tl v).2.1
        (X ++ Y) none (unlinkVictim s hd tl v).2.2 ∧
    (∀ j, j ∉ X ++ v :: Y →
       nxt (unlinkVictim s hd tl v).1 j = nxt s j ∧
       prv (unlinkVictim s hd tl v).1 j = prv s j) ∧
    nxt (unlinkVictim s hd tl v).1 v = none ∧
    prv (unlinkVictim s hd tl v).1 v = none ∧
    (unlinkVictim s hd tl v).1.ctl = s.ctl ∧
    linkOnly (unlinkVictim s hd tl v).1 s := by
  have hvlen : v < s.bufs.length := hbound v (by simp)
  have hvX : v ∉ X := by
    intro hx
    have := List.nodup_middle.mp hnd
    exact (List.nodup_cons.mp this).1 (by simp [hx])
  have hvY : v ∉ Y := by
    intro hy
    have := List.nodup_middle.mp hnd
    exact (List.nodup_cons.mp this).1 (by simp [hy])
  obtain ⟨mid, pmid, hX, hVY⟩ := chainQ_append_elim hchain
  have hmid : mid = some v := by
    have := chainQ_hd hVY
    simpa using this
  have hpv : prv s v = pmid := chainQ_prv_head hVY
  have hY : chainQ s (some v) (nxt s v) Y none tl := hVY.2.2
  have hnx : nxt s v = (Y.head?).or none := chainQ_hd hY
  have hpmid : pmid = (X.getLast?).or none := chainQ_tl hX
  subst hmid
  have hXnd : X.Nodup := ((List.nodup_append).mp hnd).1
  have hYnd : Y.Nodup := (List.nodup_cons.mp ((List.nodup_append).mp hnd).2.1).2
  have hdisj : ∀ a ∈ X, a ∉ v :: Y := fun a ha hb =>
    ((List.nodup_append).mp hnd).2.2 ha hb
  cases Y with
  | nil =>
    cases X with
    | nil =>
      -- sole element of the queue
      have hnxv : (getBuf s v).next = none := by simpa using hnx
      have hpvv : (getBuf s v).previous = none := by
        show prv s v = none
        rw [hpv]; simpa using hpmid
      unfold unlinkVictim
      simp only [hnxv, hpvv]
      refine ⟨⟨rfl, rfl⟩, ?_, ?_, ?_, rfl, ?_⟩
      · intro j hj
        have hjv : j ≠ v := by simpa using hj
        constructor
        · rw [nxt_setPrev, nxt_setNext, if_neg (fun hc => hjv hc.1.symm)]
        · rw [prv_setPrev, if_neg (fun hc => hjv hc.1.symm), prv_setNext]
      · rw [nxt_setPrev, nxt_setNext, if_pos ⟨rfl, by simpa using hvlen⟩]
      · rw [prv_setPrev, if_pos ⟨rfl, by simpa using hvlen⟩]
      · exact linkOnly_trans (linkOnly_setPrev _ _ _) (linkOnly_setNext _ _ _)
    | cons x0 X0 =>
      -- v is the tail, X nonempty
      have hXne : x0 :: X0 ≠ [] := by simp
      have hpvmem : (x0 :: X0).getLast hXne ∈ x0 :: X0 := List.getLast_mem hXne
      set pv := (x0 :: X0).getLast hXne with hpvdef
      have hpvlen : pv < s.bufs.length := hbound pv (by simp only [List.mem_append]; exact Or.inl hpvmem)
      have htl : pmid = some pv := by
        rw [hpmid, List.getLast?_eq_getLast _ hXne]; rfl
      have hpvv : (getBuf s v).previous = some pv := by
        show prv s v = some pv
        rw [hpv, htl]
      have hnxv : (getBuf s v).next = none := by simpa using hnx
      have hvpv : v ≠ pv := fun h => hvX (h ▸ hpvmem)
      unfold unlinkVictim
      simp only [hnxv, hpvv]
      have hnxt2 : ∀ j, j ≠ v → j ≠ pv →
          nxt (setPrev (setNext (setNext s pv none) v none) v none) j = nxt s j := by
        intro j hjv hjpv
        rw [nxt_setPrev, nxt_setNext, if_neg (fun hc => hjv hc.1.symm),
          nxt_setNext, if_neg (fun hc => hjpv hc.1.symm)]
      have hprv2 : ∀ j, j ≠ v →
          prv (setPrev (setNext (setNext s pv none) v none) v none) j = prv s j := by
        intro j hjv
        rw [prv_setPrev, if_neg (fun hc => hjv hc.1.symm), prv_setNext, prv_setNext]
      refine ⟨?_, ?_, ?_, ?_, rfl, ?_⟩
      · rw [List.append_nil]
        rw [htl] at hX
        refine chainQ_retarget hXne hX hXnd ?_ ?_ ?_
        · intro i hi
          exact hprv2 i (fun h => hvX (h ▸ hi))
        · rw [nxt_setPrev, nxt_setNext, if_neg (fun hc => hvpv hc.1), nxt_setNext,
            if_pos ⟨rfl, by simpa using hpvlen⟩]
        · intro i hi hine
          exact hnxt2 i (fun h => hvX (h ▸ hi)) hine
      · intro j hj
        have hjv : j ≠ v := fun h => hj (by simp [h])
        have hjpv : j ≠ pv := fun h => hj (by simp only [List.mem_append]; exact Or.inl (h ▸ hpvmem))
        exact ⟨hnxt2 j hjv hjpv, hprv2 j hjv⟩
      · rw [nxt_setPrev, nxt_setNext, if_pos ⟨rfl, by simpa using hvlen⟩]
      · rw [prv_setPrev, if_pos ⟨rfl, by simpa using hvlen⟩]
      · exact linkOnly_trans (linkOnly_setPrev _ _ _)
          (linkOnly_trans (linkOnly_setNext _ _ _) (linkOnly_setNext _ _ _))
  | cons ny Y0 =>
    have hnymem : ny ∈ ny :: Y0 := by simp
    have hnylen : ny < s.bufs.length := hbound ny (by simp)
    have hvny : v ≠ ny := fun h => hvY (h ▸ hnymem)
    have hnxvN : nxt s v = some ny := by rw [hnx]; rfl
    have hnxv : (getBuf s v).next = some ny := hnxvN
    cases X with
    | nil =>
      -- v is the head, queue has more elements
      have hpvv : (getBuf s v).previous = none := by
        show prv s v = none
        rw [hpv]; simpa using hpmid
      unfold unlinkVictim
      simp only [hnxv, hpvv]
      have hnxt2 : ∀ j, j ≠ v →
          nxt (setPrev (setNext (setPrev s ny none) v none) v none) j = nxt s j := by
        intro j hjv
        rw [nxt_setPrev, nxt_setNext, if_neg (fun hc => hjv hc.1.symm), nxt_setPrev]
      have hprv2 : ∀ j, j ≠ v → j ≠ ny →
          prv (setPrev (setNext (setPrev s ny none) v none) v none) j = prv s j := by
        intro j hjv hjny
        rw [prv_setPrev, if_neg (fun hc => hjv hc.1.symm), prv_setNext,
          prv_setPrev, if_neg (fun hc => hjny hc.1.symm)]
      refine ⟨?_, ?_, ?_, ?_, rfl, ?_⟩
      · rw [List.nil_append]
        rw [hnxvN] at hY
        refine chainQ_reprev (by simp) hY hYnd ?_ ?_ ?_
        · intro i hi
          exact hnxt2 i (fun h => hvY (h ▸ hi))
        · show prv _ ny = none
          rw [prv_setPrev, if_neg (fun hc => hvny hc.1), prv_setNext, prv_setPrev,
            if_pos ⟨rfl, by simpa using hnylen⟩]
        · intro i hi hine
          refine hprv2 i (fun h => hvY (h ▸ hi)) ?_
          simpa using hine
      · intro j hj
        have hjv : j ≠ v := fun h => hj (by simp [h])
        have hjny : j ≠ ny := fun h => hj (by simp [h])
        exact ⟨hnxt2 j hjv, hprv2 j hjv hjny⟩
      · rw [nxt_setPrev, nxt_setNext, if_pos ⟨rfl, by simpa using hvlen⟩]
      · rw [prv_setPrev, if_pos ⟨rfl, by simpa using hvlen⟩]
      · exact linkOnly_trans (linkOnly_setPrev _ _ _)
          (linkOnly_trans (linkOnly_setNext _ _ _) (linkOnly_setPrev _ _ _))
    | cons x0 X0 =>
      -- v is in the middle
      have hXne : x0 :: X0 ≠ [] := by simp
      have hpvmem : (x0 :: X0).getLast hXne ∈ x0 :: X0 := List.getLast_mem hXne
      set pv := (x0 :: X0).getLast hXne with hpvdef
      have hpvlen : pv < s.bufs.length := hbound pv (by simp only [List.mem_append]; exact Or.inl hpvmem)
      have htl : pmid = some pv := by
        rw [hpmid, List.getLast?_eq_getLast _ hXne]; rfl
      have hpvv : (getBuf s v).previous = some pv := by
        show prv s v = some pv
        rw [hpv, htl]
      have hvpv : v ≠ pv := fun h => hvX (h ▸ hpvmem)
      have hpvny : pv ≠ ny := fun h => hdisj pv hpvmem (by simp [h])
      unfold unlinkVictim
      simp only [hnxv, hpvv]
      have hnxt2 : ∀ j, j ≠ v → j ≠ pv →
          nxt (setPrev (setNext (setPrev (setNext s pv (some ny)) ny (some pv)) v none) v none) j
            = nxt s j := by
        intro j hjv hjpv
        rw [nxt_setPrev, nxt_setNext, if_neg (fun hc => hjv hc.1.symm), nxt_setPrev,
          nxt_setNext, if_neg (fun hc => hjpv hc.1.symm)]
      have hprv2 : ∀ j, j ≠ v → j ≠ ny →
          prv (setPrev (setNext (setPrev (setNext s pv (some ny)) ny (some pv)) v none) v none) j
            = prv s j := by
        intro j hjv hjny
        rw [prv_setPrev, if_neg (fun hc => hjv hc.1.symm), prv_setNext,
          prv_setPrev, if_neg (fun hc => hjny hc.1.symm), prv_setNext]
      refine ⟨?_, ?_, ?_, ?_, rfl, ?_⟩
      · rw [htl] at hX
        rw [hnxvN] at hY
        have hlast2 : nxt (setPrev (setNext (setPrev (setNext s pv (some ny)) ny
            (some pv)) v none) v none) ((x0 :: X0).getLast hXne) = some ny := by
          rw [nxt_setPrev, nxt_setNext, if_neg (fun hc => hvpv hc.1), nxt_setPrev,
            nxt_setNext, if_pos ⟨rfl, by simpa using hpvlen⟩]
        have hhd2 : prv (setPrev (setNext (setPrev (setNext s pv (some ny)) ny
            (some pv)) v none) v none) ny = some pv := by
          rw [prv_setPrev, if_neg (fun hc => hvny hc.1), prv_setNext, prv_setPrev,
            if_pos ⟨rfl, by simpa using hnylen⟩]
        exact chainQ_append_intro
          (chainQ_retarget hXne hX hXnd
            (fun i hi => hprv2 i (fun h => hvX (h ▸ hi))
              (fun h => hdisj i hi (by simp [h])))
            hlast2
            (fun i hi hine => hnxt2 i (fun h => hvX (h ▸ hi)) hine))
          (chainQ_reprev (by simp) hY hYnd
            (fun i hi => hnxt2 i (fun h => hvY (h ▸ hi))
              (fun h => hdisj pv hpvmem (by simp [← h, hi])))
            hhd2
            (fun i hi hine => hprv2 i (fun h => hvY (h ▸ hi)) (by simpa using hine)))
      · intro j hj
        have hjv : j ≠ v := fun h => hj (by simp [h])
        have hjny : j ≠ ny := fun h => hj (by simp [h])
        have hjpv : j ≠ pv := fun h => hj (by simp only [List.mem_append]; exact Or.inl (h ▸ hpvmem))
        exact ⟨hnxt2 j hjv hjpv, hprv2 j hjv hjny⟩
      · rw [nxt_setPrev, nxt_setNext, if_pos ⟨rfl, by simpa using hvlen⟩]
      · rw [prv_setPrev, if_pos ⟨rfl, by simpa using hvlen⟩]
      · exact linkOnly_trans (linkOnly_setPrev _ _ _)
          (linkOnly_trans (linkOnly_setNext _ _ _)
            (linkOnly_trans (linkOnly_setPrev _ _ _) (linkOnly_setNext _ _ _)))

lemma getBuf_LockBufHdr (s : BufState) (i j : Nat) :
    getBuf (LockBufHdr s i) j =
      if i = j ∧ i < s.bufs.length then { getBuf s j with hdrLocked := true }
      else getBuf s j := by
  unfold LockBufHdr
  rw [getBuf_setBuf]
  split
  · next hc => rw [hc.1]
  · rfl

lemma getBuf_UnlockBufHdr (s : BufState) (i j : Nat) :
    getBuf (UnlockBufHdr s i) j =
      if i = j ∧ i < s.bufs.length then { getBuf s j with hdrLocked := false }
      else getBuf s j := by
  unfold UnlockBufHdr
  rw [getBuf_setBuf]
  split
  · next hc => rw [hc.1]
  · rfl

lemma refcount_LockBufHdr (s : BufState) (i j : Nat) :
    (getBuf (LockBufHdr s i) j).refcount = (getBuf s j).refcount := by
  rw [getBuf_LockBufHdr]; split <;> rfl

lemma refcount_UnlockBufHdr (s : BufState) (i j : Nat) :
    (getBuf (UnlockBufHdr s i) j).refcount = (getBuf s j).refcount := by
  rw [getBuf_UnlockBufHdr]; split <;> rfl

lemma links_LockBufHdr (s : BufState) (i j : Nat) :
    nxt (LockBufHdr s i) j = nxt s j ∧ prv (LockBufHdr s i) j = prv s j := by
  unfold nxt prv
  rw [getBuf_LockBufHdr]
  split <;> exact ⟨rfl, rfl⟩

lemma links_UnlockBufHdr (s : BufState) (i j : Nat) :
    nxt (UnlockBufHdr s i) j = nxt s j ∧ prv (UnlockBufHdr s i) j = prv s j := by
  unfold nxt prv
  rw [getBuf_UnlockBufHdr]
  split <;> exact ⟨rfl, rfl⟩

@[simp] lemma length_LockBufHdr (s : BufState) (i : Nat) :
    (LockBufHdr s i).bufs.length = s.bufs.length := by
  unfold LockBufHdr; simp

@[simp] lemma length_UnlockBufHdr (s : BufState) (i : Nat) :
    (UnlockBufHdr s i).bufs.length = s.bufs.length := by
  unfold UnlockBufHdr; simp

@[simp] lemma ctl_LockBufHdr (s : BufState) (i : Nat) :
    (LockBufHdr s i).ctl = s.ctl := rfl

@[simp] lemma ctl_UnlockBufHdr (s : BufState) (i : Nat) :
    (UnlockBufHdr s i).ctl = s.ctl := rfl

lemma clearLatch_bufs (s : BufState) : (clearLatch s).bufs = s.bufs := by
  unfold clearLatch; split <;> rfl

lemma clearLatch_ctl (s : BufState) :
    (clearLatch s).ctl.firstUnpinned = s.ctl.firstUnpinned ∧
    (clearLatch s).ctl.lastUnpinned = s.ctl.lastUnpinned ∧
    (clearLatch s).ctl.a1Head = s.ctl.a1Head ∧
    (clearLatch s).ctl.a1Tail = s.ctl.a1Tail ∧
    (clearLatch s).ctl.nextVictimBuffer = s.ctl.nextVictimBuffer ∧
    (clearLatch s).ctl.firstFreeBuffer = s.ctl.firstFreeBuffer := by
  unfold clearLatch; split <;> exact ⟨rfl, rfl, rfl, rfl, rfl, rfl⟩

lemma getBuf_congr_bufs {s1 s2 : BufState} (h : s1.bufs = s2.bufs) (j : Nat) :
    getBuf s1 j = getBuf s2 j := by
  unfold getBuf; rw [h]

lemma freelistPop_empty (s : BufState) (strat : Option BufferAccessStrategyData)
    (h : s.ctl.firstFreeBuffer < 0) (fuel : Nat) (hf : 0 < fuel) :
    freelistPop s strat fuel = (s, strat, LoopRes.nil) := by
  cases fuel with
  | zero => exact absurd hf (by simp)
  | succ f =>
    rw [freelistPop]
    rw [if_neg (by omega)]

lemma queueLen_of_chainQ {s : BufState} :
    ∀ (L : List Nat) {p hd tl : Option Nat}, chainQ s p hd L none tl →
      ∀ fuel, L.length ≤ fuel → queueLen s hd fuel = some L.length := by
  intro L
  induction L with
  | nil =>
    intro p hd tl h fuel _
    rw [h.1]
    cases fuel <;> rfl
  | cons i L ih =>
    intro p hd tl h fuel hf
    obtain ⟨h1, h2, h3⟩ := h
    cases fuel with
    | zero => simp at hf
    | succ f =>
      rw [h1]
      show (queueLen s (nxt s i) f).map (· + 1) = some (L.length + 1)
      rw [ih h3 f (by simpa using hf)]
      rfl

lemma queueList_of_chainQ {s : BufState} :
    ∀ (L : List Nat) {p hd tl : Option Nat}, chainQ s p hd L none tl →
      ∀ fuel, L.length ≤ fuel → queueList s hd fuel = L := by
  intro L
  induction L with
  | nil =>
    intro p hd tl h fuel _
    rw [h.1]
    cases fuel <;> rfl
  | cons i L ih =>
    intro p hd tl h fuel hf
    obtain ⟨h1, h2, h3⟩ := h
    cases fuel with
    | zero => simp at hf
    | succ f =>
      rw [h1]
      show i :: queueList s (nxt s i) f = i :: L
      rw [ih h3 f (by simpa using hf)]

lemma inQueue_of_chainQ {s : BufState} :
    ∀ (L : List Nat) {p hd tl : Option Nat}, chainQ s p hd L none tl →
      ∀ (t : Nat) (fuel : Nat), L.length + 1 ≤ fuel →
        inQueue s t hd fuel = some (decide (t ∈ L)) := by
  intro L
  induction L with
  | nil =>
    intro p hd tl h t fuel hf
    rw [h.1]
    cases fuel with
    | zero => simp at hf
    | succ f => simp [inQueue]
  | cons i L ih =>
    intro p hd tl h t fuel hf
    obtain ⟨h1, h2, h3⟩ := h
    cases fuel with
    | zero => simp at hf
    | succ f =>
      rw [h1]
      show (if i = t then some true else inQueue s t (nxt s i) f) = _
      by_cases hit : i = t
      · subst hit
        simp [if_pos rfl]
      · rw [if_neg hit, ih h3 t f (by simpa using hf)]
        have hiff : (t ∈ i :: L) ↔ (t ∈ L) := by
          constructor
          · intro hm
            rcases List.mem_cons.mp hm with hm | hm
            · exact absurd hm.symm hit
            · exact hm
          · intro hm
            exact List.mem_cons.mpr (Or.inr hm)
        rw [decide_eq_decide.mpr hiff]

lemma advanceHand_bufs (s : BufState) : (advanceHand s).bufs = s.bufs := by
  unfold advanceHand; split <;> rfl

lemma advanceHand_hand (s : BufState) (h : s.ctl.nextVictimBuffer < s.bufs.length) :
    (advanceHand s).ctl.nextVictimBuffer < (advanceHand s).bufs.length := by
  unfold advanceHand
  split
  · show 0 < s.bufs.length
    omega
  · next hc =>
    show s.ctl.nextVictimBuffer + 1 < s.bufs.length
    unfold nBuffers at hc
    omega

lemma lruWalk_step (s : BufState) (i : Nat) (f : Nat) :
    lruWalk s (some i) (f + 1) =
      (if (getBuf (LockBufHdr s i) i).refcount = 0 then
        (LockBufHdr s i, LoopRes.found (getBuf (LockBufHdr s i) i).buf_id)
      else
        lruWalk (UnlockBufHdr (LockBufHdr s i) i) (getBuf (LockBufHdr s i) i).next f) := rfl

lemma mruWalk_step (s : BufState) (i : Nat) (f : Nat) :
    mruWalk s (some i) (f + 1) =
      (if (getBuf (LockBufHdr s i) i).refcount = 0 then
        (LockBufHdr s i, LoopRes.found (getBuf (LockBufHdr s i) i).buf_id)
      else
        mruWalk (UnlockBufHdr (LockBufHdr s i) i) (getBuf (LockBufHdr s i) i).previous f) := rfl

lemma twoQScanA1_step (s : BufState) (i : Nat) (f : Nat) :
    twoQScanA1 s (some i) (f + 1) =
      (if (getBuf s i).refcount = 0 then
        ({ (unlinkVictim s s.ctl.a1Head s.ctl.a1Tail i).1 with
            ctl.a1Head := (unlinkVictim s s.ctl.a1Head s.ctl.a1Tail i).2.1,
            ctl.a1Tail := (unlinkVictim s s.ctl.a1Head s.ctl.a1Tail i).2.2 },
         LoopRes.found (getBuf s i).buf_id)
      else
        twoQScanA1 s (getBuf s i).next f) := rfl

lemma twoQScanMain_step (s : BufState) (i : Nat) (f : Nat) :
    twoQScanMain s (some i) (f + 1) =
      (if (getBuf s i).refcount = 0 then
        ({ (unlinkVictim s s.ctl.firstUnpinned s.ctl.lastUnpinned i).1 with
            ctl.firstUnpinned := (unlinkVictim s s.ctl.firstUnpinned s.ctl.lastUnpinned i).2.1,
            ctl.lastUnpinned := (unlinkVictim s s.ctl.firstUnpinned s.ctl.lastUnpinned i).2.2 },
         LoopRes.found (getBuf s i).buf_id)
      else
        twoQScanMain s (getBuf s i).next f) := rfl

lemma lruWalk_pinned :
    ∀ (L : List Nat) (s : BufState) (p hd tl : Option Nat),
      chainQ s p hd L none tl →
      (∀ i ∈ L, i < s.bufs.length) →
      (∀ i ∈ L, (getBuf s i).refcount ≠ 0) →
      ∀ fuel, L.length + 1 ≤ fuel → (lruWalk s hd fuel).2 = LoopRes.nil := by
  intro L
  induction L with
  | nil =>
    intro s p hd tl h _ _ fuel hf
    rw [h.1]
    cases fuel with
    | zero => simp at hf
    | succ f => rfl
  | cons i L ih =>
    intro s p hd tl h hbd hpin fuel hf
    obtain ⟨h1, h2, h3⟩ := h
    cases fuel with
    | zero => simp at hf
    | succ f =>
      rw [h1, lruWalk_step]
      have hrc : (getBuf (LockBufHdr s i) i).refcount ≠ 0 := by
        rw [refcount_LockBufHdr]
        exact hpin i (by simp)
      rw [if_neg hrc]
      have hnx2 : (getBuf (LockBufHdr s i) i).next = nxt s i :=
        (links_LockBufHdr s i i).1
      rw [hnx2]
      set s3 := UnlockBufHdr (LockBufHdr s i) i with hs3
      have hagree : ∀ j ∈ L, nxt s3 j = nxt s j ∧ prv s3 j = prv s j := by
        intro j _
        exact ⟨(links_UnlockBufHdr _ i j).1.trans (links_LockBufHdr s i j).1,
               (links_UnlockBufHdr _ i j).2.trans (links_LockBufHdr s i j).2⟩
      refine ih s3 (some i) (nxt s i) tl (chainQ_agree hagree h3) ?_ ?_ f (by simpa using hf)
      · intro j hj
        show j < s3.bufs.length
        rw [hs3]
        simpa using hbd j (by simp [hj])
      · intro j hj
        rw [hs3, refcount_UnlockBufHdr, refcount_LockBufHdr]
        exact hpin j (by simp [hj])

lemma mruWalk_pinned :
    ∀ (L : List Nat) (s : BufState) (hd stop tl : Option Nat),
      chainQ s none hd L stop tl →
      (∀ i ∈ L, i < s.bufs.length) →
      (∀ i ∈ L, (getBuf s i).refcount ≠ 0) →
      ∀ fuel, L.length + 1 ≤ fuel → (mruWalk s tl fuel).2 = LoopRes.nil := by
  intro L
  induction L using List.reverseRecOn with
  | nil =>
    intro s hd stop tl h _ _ fuel hf
    rw [h.2]
    cases fuel with
    | zero => simp at hf
    | succ f => rfl
  | append_singleton L x ih =>
    intro s hd stop tl h hbd hpin fuel hf
    obtain ⟨mid, pmid, hX, hx⟩ := chainQ_append_elim h
    obtain ⟨hx1, hx2, hx3, hx4⟩ := hx
    cases fuel with
    | zero => simp at hf
    | succ f =>
      rw [hx4, mruWalk_step]
      have hrc : (getBuf (LockBufHdr s x) x).refcount ≠ 0 := by
        rw [refcount_LockBufHdr]
        exact hpin x (by simp)
      rw [if_neg hrc]
      have hpv2 : (getBuf (LockBufHdr s x) x).previous = prv s x :=
        (links_LockBufHdr s x x).2
      rw [hpv2, hx2]
      set s3 := UnlockBufHdr (LockBufHdr s x) x with hs3
      have hagree : ∀ j ∈ L, nxt s3 j = nxt s j ∧ prv s3 j = prv s j := by
        intro j _
        exact ⟨(links_UnlockBufHdr _ x j).1.trans (links_LockBufHdr s x j).1,
               (links_UnlockBufHdr _ x j).2.trans (links_LockBufHdr s x j).2⟩
      refine ih s3 hd mid pmid (chainQ_agree hagree hX) ?_ ?_ f (by simp at hf; omega)
      · intro j hj
        show j < s3.bufs.length
        rw [hs3]
        simpa using hbd j (by simp [hj])
      · intro j hj
        rw [hs3, refcount_UnlockBufHdr, refcount_LockBufHdr]
        exact hpin j (by simp [hj])

lemma clockLoop_pinned :
    ∀ (fuel : Nat) (s : BufState) (strat : Option BufferAccessStrategyData) (t : Int),
      (∀ j, j < s.bufs.length → (getBuf s j).refcount ≠ 0) →
      s.ctl.nextVictimBuffer < s.bufs.length →
      1 ≤ t →
      (clockLoop s strat t fuel).2.2
        = (if t.toNat ≤ fuel then LoopRes.nil else LoopRes.fuelOut) := by
  intro fuel
  induction fuel with
  | zero =>
    intro s strat t hpin hhand ht
    rw [if_neg (by omega)]
    rfl
  | succ f ih =>
    intro s strat t hpin hhand ht
    rw [clockLoop_succ]
    have hrc : (getBuf (LockBufHdr (advanceHand s) s.ctl.nextVictimBuffer)
        s.ctl.nextVictimBuffer).refcount ≠ 0 := by
      rw [refcount_LockBufHdr, getBuf_congr_bufs (advanceHand_bufs s)]
      exact hpin _ hhand
    rw [if_neg hrc]
    by_cases ht1 : t - 1 = 0
    · rw [if_pos ht1]
      rw [if_pos (by omega)]
    · rw [if_neg ht1]
      set s3 := UnlockBufHdr (LockBufHdr (advanceHand s) s.ctl.nextVictimBuffer)
        s.ctl.nextVictimBuffer with hs3
      have hlen3 : s3.bufs.length = s.bufs.length := by
        rw [hs3]
        simp only [length_UnlockBufHdr, length_LockBufHdr]
        rw [advanceHand_bufs s]
      have h3 := ih s3 strat (t - 1) ?_ ?_ (by omega)
      · rw [h3]
        rw [if_congr (by omega : (t - 1).toNat ≤ f ↔ t.toNat ≤ f + 1) rfl rfl]
      · intro j hj
        rw [hs3, refcount_UnlockBufHdr, refcount_LockBufHdr,
          getBuf_congr_bufs (advanceHand_bufs s)]
        refine hpin j ?_
        rw [hlen3] at hj
        exact hj
      · show s3.ctl.nextVictimBuffer < s3.bufs.length
        rw [hs3]
        simp only [ctl_UnlockBufHdr, ctl_LockBufHdr, length_UnlockBufHdr, length_LockBufHdr]
        exact advanceHand_hand s hhand

lemma twoQScanA1_skip :
    ∀ (X : List Nat) (s : BufState) (cur p stop tl : Option Nat) (f : Nat),
      chainQ s p cur X stop tl →
      (∀ i ∈ X, (getBuf s i).refcount ≠ 0) →
      twoQScanA1 s cur (X.length + f) = twoQScanA1 s stop f := by
  intro X
  induction X with
  | nil =>
    intro s cur p stop tl f h _
    rw [List.length_nil, Nat.zero_add, h.1]
  | cons x X ih =>
    intro s cur p stop tl f h hpin
    obtain ⟨h1, h2, h3⟩ := h
    have hlen : (x :: X).length + f = (X.length + f) + 1 := by
      simp [List.length_cons]
      omega
    rw [h1, hlen, twoQScanA1_step, if_neg (hpin x (by simp))]
    show twoQScanA1 s (nxt s x) (X.length + f) = twoQScanA1 s stop f
    exact ih s (nxt s x) (some x) stop tl f h3 (fun i hi => hpin i (by simp [hi]))

lemma twoQScanMain_skip :
    ∀ (X : List Nat) (s : BufState) (cur p stop tl : Option Nat) (f : Nat),
      chainQ s p cur X stop tl →
      (∀ i ∈ X, (getBuf s i).refcount ≠ 0) →
      twoQScanMain s cur (X.length + f) = twoQScanMain s stop f := by
  intro X
  induction X with
  | nil =>
    intro s cur p stop tl f h _
    rw [List.length_nil, Nat.zero_add, h.1]
  | cons x X ih =>
    intro s cur p stop tl f h hpin
    obtain ⟨h1, h2, h3⟩ := h
    have hlen : (x :: X).length + f = (X.length + f) + 1 := by
      simp [List.length_cons]
      omega
    rw [h1, hlen, twoQScanMain_step, if_neg (hpin x (by simp))]
    show twoQScanMain s (nxt s x) (X.length + f) = twoQScanMain s stop f
    exact ih s (nxt s x) (some x) stop tl f h3 (fun i hi => hpin i (by simp [hi]))

lemma twoQScanA1_nilPtr (s : BufState) (f : Nat) (hf : 0 < f) :
    twoQScanA1 s none f = (s, LoopRes.nil) := by
  cases f with
  | zero => simp at hf
  | succ f2 => rfl

lemma twoQScanMain_nilPtr (s : BufState) (f : Nat) (hf : 0 < f) :
    twoQScanMain s none f = (s, LoopRes.nil) := by
  cases f with
  | zero => simp at hf
  | succ f2 => rfl

lemma freelistThenPolicy_emptyFree (s1 : BufState)
    (strat : Option BufferAccessStrategyData) (policy : PolicyKind) (fuel : Nat)
    (h : s1.ctl.firstFreeBuffer < 0) (hf : 0 < fuel) :
    freelistThenPolicy s1 strat policy fuel = policyVictim s1 strat policy fuel := by
  unfold freelistThenPolicy
  rw [freelistPop_empty s1 strat h fuel hf]

lemma chainQ_of_bufsEq {s s2 : BufState} (h : s2.bufs = s.bufs)
    {p hd stop tl : Option Nat} {L : List Nat}
    (hc : chainQ s p hd L stop tl) : chainQ s2 p hd L stop tl :=
  chainQ_agree (fun i _ => by
    unfold nxt prv
    rw [getBuf_congr_bufs h i]
    exact ⟨rfl, rfl⟩) hc

end ChainMachinery

/-- C2: when the freelist is empty and every frame is pinned, every policy
fails with the no-unpinned-buffers error: CLOCK errors exactly when it has
examined NBuffers consecutive pinned frames (with less fuel than NBuffers
the model's loop is still only scanning), the LRU and MRU walks error once
they have walked the whole main queue and reached nil, and 2Q errors once
its chosen scan has walked its queue and reached nil. -/
theorem C2_all_pinned_no_unpinned_buffers
    (s : BufState) (M A : List Nat)
    (hM : wfQ s s.ctl.firstUnpinned s.ctl.lastUnpinned M)
    (hA : wfQ s s.ctl.a1Head s.ctl.a1Tail A)
    (hpin : ∀ j, j < s.bufs.length → (getBuf s j).refcount ≠ 0)
    (hfree : s.ctl.firstFreeBuffer = -1)
    (hhand : s.ctl.nextVictimBuffer < s.bufs.length)
    (hn : 0 < s.bufs.length) :
    (∀ fuel, s.bufs.length ≤ fuel →
       (StrategyGetBuffer s none PolicyKind.POLICY_CLOCK fuel).2.2
         = Except.error StratError.noUnpinnedBuffers) ∧
    (∀ fuel, 0 < fuel → fuel < s.bufs.length →
       (StrategyGetBuffer s none PolicyKind.POLICY_CLOCK fuel).2.2
         = Except.error StratError.outOfFuel) ∧
    (∀ fuel, M.length + 1 ≤ fuel →
       (StrategyGetBuffer s none PolicyKind.POLICY_LRU fuel).2.2
         = Except.error StratError.noUnpinnedBuffers) ∧
    (∀ fuel, M.length + 1 ≤ fuel →
       (StrategyGetBuffer s none PolicyKind.POLICY_MRU fuel).2.2
         = Except.error StratError.noUnpinnedBuffers) ∧
    (∀ fuel, A.length + M.length + 1 ≤ fuel →
       (StrategyGetBuffer s none PolicyKind.POLICY_2Q fuel).2.2
         = Except.error StratError.noUnpinnedBuffers) := by
  set s0 : BufState := { s with ctl.numBufferAllocs := s.ctl.numBufferAllocs + 1 } with hs0
  set s2 : BufState := clearLatch s0 with hs2
  have hbufs2 : s2.bufs = s.bufs := by rw [hs2]; exact clearLatch_bufs s0
  have hctl2 := clearLatch_ctl s0
  have hlen2 : s2.bufs.length = s.bufs.length := by rw [hbufs2]
  have hpin2 : ∀ j, j < s2.bufs.length → (getBuf s2 j).refcount ≠ 0 := by
    intro j hj
    rw [getBuf_congr_bufs hbufs2]
    exact hpin j (by rw [← hlen2]; exact hj)
  have hfree2 : s2.ctl.firstFreeBuffer < 0 := by
    rw [hs2]
    rw [hctl2.2.2.2.2.2]
    show s.ctl.firstFreeBuffer < 0
    rw [hfree]
    decide
  have hcore : ∀ (policy : PolicyKind) (fuel : Nat),
      StrategyGetBuffer s none policy fuel = freelistThenPolicy s2 none policy fuel :=
    fun _ _ => rfl
  have hMlen : ∀ i ∈ M, i < s2.bufs.length := by
    intro i hi; rw [hlen2]; exact hM.2.2 i hi
  have hAlen : ∀ i ∈ A, i < s2.bufs.length := by
    intro i hi; rw [hlen2]; exact hA.2.2 i hi
  have hMpin : ∀ i ∈ M, (getBuf s2 i).refcount ≠ 0 :=
    fun i hi => hpin2 i (hMlen i hi)
  have hApin : ∀ i ∈ A, (getBuf s2 i).refcount ≠ 0 :=
    fun i hi => hpin2 i (hAlen i hi)
  have hMchain : chainQ s2 none s2.ctl.firstUnpinned M none s2.ctl.lastUnpinned := by
    have h1 : s2.ctl.firstUnpinned = s.ctl.firstUnpinned := by rw [hs2]; exact hctl2.1
    have h2 : s2.ctl.lastUnpinned = s.ctl.lastUnpinned := by rw [hs2]; exact hctl2.2.1
    rw [h1, h2]
    exact chainQ_of_bufsEq hbufs2 hM.1
  have hAchain : chainQ s2 none s2.ctl.a1Head A none s2.ctl.a1Tail := by
    have h1 : s2.ctl.a1Head = s.ctl.a1Head := by rw [hs2]; exact hctl2.2.2.1
    have h2 : s2.ctl.a1Tail = s.ctl.a1Tail := by rw [hs2]; exact hctl2.2.2.2.1
    rw [h1, h2]
    exact chainQ_of_bufsEq hbufs2 hA.1
  have hhand2 : s2.ctl.nextVictimBuffer < s2.bufs.length := by
    rw [hs2, hctl2.2.2.2.2.1, hlen2]
    show s.ctl.nextVictimBuffer < s.bufs.length
    exact hhand
  have hn2 : 0 < s2.bufs.length := by rw [hlen2]; exact hn
  have hclock : ∀ fuel, 0 < fuel →
      (StrategyGetBuffer s none PolicyKind.POLICY_CLOCK fuel).2.2
        = (if s.bufs.length ≤ fuel then Except.error StratError.noUnpinnedBuffers
           else Except.error StratError.outOfFuel) := by
    intro fuel hf
    rw [hcore, freelistThenPolicy_emptyFree s2 none _ fuel hfree2 hf]
    have hloop := clockLoop_pinned fuel s2 none ((nBuffers s2 : Int)) hpin2 hhand2
      (by show (1 : Int) ≤ ((s2.bufs.length : Nat) : Int); omega)
    unfold policyVictim
    rcases hc : clockLoop s2 none ((nBuffers s2 : Int)) fuel with ⟨s3, st3, r⟩
    rw [hc] at hloop
    have htn : ((nBuffers s2 : Int)).toNat = s.bufs.length := by
      show ((s2.bufs.length : Int)).toNat = s.bufs.length
      rw [Int.toNat_natCast, hlen2]
    by_cases hcnd : s.bufs.length ≤ fuel
    · rw [if_pos hcnd]
      have hr : r = LoopRes.nil := by
        have : (s3, st3, r).2.2 = LoopRes.nil := by
          rw [hloop, if_pos (by rw [htn]; exact hcnd)]
        exact this
      subst hr
      rfl
    · rw [if_neg hcnd]
      have hr : r = LoopRes.fuelOut := by
        have : (s3, st3, r).2.2 = LoopRes.fuelOut := by
          rw [hloop, if_neg (by rw [htn]; exact hcnd)]
        exact this
      subst hr
      rfl
  refine ⟨?_, ?_, ?_, ?_, ?_⟩
  · intro fuel hfl
    rw [hclock fuel (by omega), if_pos hfl]
  · intro fuel hf0 hfl
    rw [hclock fuel hf0, if_neg (by omega)]
  · intro fuel hfl
    rw [hcore, freelistThenPolicy_emptyFree s2 none _ fuel hfree2 (by omega)]
    unfold policyVictim
    have hnil := lruWalk_pinned M s2 none s2.ctl.firstUnpinned s2.ctl.lastUnpinned
      hMchain hMlen hMpin fuel hfl
    rcases hw : lruWalk s2 s2.ctl.firstUnpinned fuel with ⟨s3, r⟩
    rw [hw] at hnil
    have hr : r = LoopRes.nil := hnil
    subst hr
    rfl
  · intro fuel hfl
    rw [hcore, freelistThenPolicy_emptyFree s2 none _ fuel hfree2 (by omega)]
    unfold policyVictim
    have hnil := mruWalk_pinned M s2 s2.ctl.firstUnpinned none s2.ctl.lastUnpinned
      hMchain hMlen hMpin fuel hfl
    rcases hw : mruWalk s2 s2.ctl.lastUnpinned fuel with ⟨s3, r⟩
    rw [hw] at hnil
    have hr : r = LoopRes.nil := hnil
    subst hr
    rfl
  · intro fuel hfl
    rw [hcore, freelistThenPolicy_emptyFree s2 none _ fuel hfree2 (by omega)]
    unfold policyVictim
    have hql : queueLen s2 s2.ctl.a1Head fuel = some A.length :=
      queueLen_of_chainQ A hAchain fuel (by omega)
    rw [hql]
    dsimp only
    by_cases hbr : A.length ≥ nBuffers s2 / 2 ∨ s2.ctl.lastUnpinned = none
    · rw [if_pos hbr]
      have hskip : twoQScanA1 s2 s2.ctl.a1Head fuel = (s2, LoopRes.nil) := by
        have hfeq : fuel = A.length + (fuel - A.length) := by omega
        rw [hfeq, twoQScanA1_skip A s2 s2.ctl.a1Head none none s2.ctl.a1Tail
          (fuel - A.length) hAchain hApin]
        exact twoQScanA1_nilPtr s2 (fuel - A.length) (by omega)
      rw [hskip]
    · rw [if_neg hbr]
      have hskip : twoQScanMain s2 s2.ctl.firstUnpinned fuel = (s2, LoopRes.nil) := by
        have hfeq : fuel = M.length + (fuel - M.length) := by omega
        rw [hfeq, twoQScanMain_skip M s2 s2.ctl.firstUnpinned none none
          s2.ctl.lastUnpinned (fuel - M.length) hMchain hMpin]
        exact twoQScanMain_nilPtr s2 (fuel - M.length) (by omega)
      rw [hskip]

/-- C2 witness: in a 2-frame pool with both frames pinned, an empty
freelist and empty queues, CLOCK (with fuel NBuffers), LRU and 2Q all
report no unpinned buffers. -/
theorem C2_all_pinned_no_unpinned_buffers_witness :
    (StrategyGetBuffer (allPinnedState 2) none PolicyKind.POLICY_CLOCK 2).2.2
      = Except.error StratError.noUnpinnedBuffers ∧
    (StrategyGetBuffer (allPinnedState 2) none PolicyKind.POLICY_LRU 1).2.2
      = Except.error StratError.noUnpinnedBuffers ∧
    (StrategyGetBuffer (allPinnedState 2) none PolicyKind.POLICY_2Q 1).2.2
      = Except.error StratError.noUnpinnedBuffers := by
  have h := C2_all_pinned_no_unpinned_buffers (allPinnedState 2) [] []
    ⟨⟨rfl, rfl⟩, List.nodup_nil, by simp⟩
    ⟨⟨rfl, rfl⟩, List.nodup_nil, by simp⟩
    (by decide) rfl (by decide) (by decide)
  exact ⟨h.1 2 (by decide), h.2.2.1 1 (by decide), h.2.2.2.2 1 (by decide)⟩

/-- Core of C4 at the level of the A1 scan: scanning from the head of a
well-linked A1 queue X ++ v :: Y whose prefix X is pinned and whose member
v is unpinned ends at v, unlinks it, and touches nothing else. -/
lemma twoQScanA1_found (s : BufState) (X Y : List Nat) (v : Nat) (fuel : Nat)
    (hchain : chainQ s none s.ctl.a1Head (X ++ v :: Y) none s.ctl.a1Tail)
    (hXpin : ∀ i ∈ X, (getBuf s i).refcount ≠ 0)
    (hv : (getBuf s v).refcount = 0)
    (hfuel : X.length + 1 ≤ fuel) :
    twoQScanA1 s s.ctl.a1Head fuel =
      ({ (unlinkVictim s s.ctl.a1Head s.ctl.a1Tail v).1 with
          ctl.a1Head := (unlinkVictim s s.ctl.a1Head s.ctl.a1Tail v).2.1,
          ctl.a1Tail := (unlinkVictim s s.ctl.a1Head s.ctl.a1Tail v).2.2 },
       LoopRes.found (getBuf s v).buf_id) := by
  obtain ⟨mid, pmid, hX, hVY⟩ := chainQ_append_elim hchain
  have hmid : mid = some v := by
    have := chainQ_hd hVY
    simpa using this
  subst hmid
  have hfeq : fuel = X.length + (fuel - X.length) := by omega
  rw [hfeq, twoQScanA1_skip X s s.ctl.a1Head none (some v) pmid
    (fuel - X.length) hX hXpin]
  have hpos : ∃ k, fuel - X.length = k + 1 := ⟨fuel - X.length - 1, by omega⟩
  obtain ⟨k, hk⟩ := hpos
  rw [hk, twoQScanA1_step, if_pos hv]

/-- Core of C4 at the level of the main-queue scan, symmetric to
twoQScanA1_found. -/
lemma twoQScanMain_found (s : BufState) (X Y : List Nat) (v : Nat) (fuel : Nat)
    (hchain : chainQ s none s.ctl.firstUnpinned (X ++ v :: Y) none s.ctl.lastUnpinned)
    (hXpin : ∀ i ∈ X, (getBuf s i).refcount ≠ 0)
    (hv : (getBuf s v).refcount = 0)
    (hfuel : X.length + 1 ≤ fuel) :
    twoQScanMain s s.ctl.firstUnpinned fuel =
      ({ (unlinkVictim s s.ctl.firstUnpinned s.ctl.lastUnpinned v).1 with
          ctl.firstUnpinned := (unlinkVictim s s.ctl.firstUnpinned s.ctl.lastUnpinned v).2.1,
          ctl.lastUnpinned := (unlinkVictim s s.ctl.firstUnpinned s.ctl.lastUnpinned v).2.2 },
       LoopRes.found (getBuf s v).buf_id) := by
  obtain ⟨mid, pmid, hX, hVY⟩ := chainQ_append_elim hchain
  have hmid : mid = some v := by
    have := chainQ_hd hVY
    simpa using this
  subst hmid
  have hfeq : fuel = X.length + (fuel - X.length) := by omega
  rw [hfeq, twoQScanMain_skip X s s.ctl.firstUnpinned none (some v) pmid
    (fuel - X.length) hX hXpin]
  have hpos : ∃ k, fuel - X.length = k + 1 := ⟨fuel - X.length - 1, by omega⟩
  obtain ⟨k, hk⟩ := hpos
  rw [hk, twoQScanMain_step, if_pos hv]

/-- C4: 2Q victim selection computes |A1| by walking the A1 queue and
dispatches on |A1| >= NBuffers/2 or an empty main queue: in the A1 branch
it returns the first unpinned frame of A1 (the pinned prefix X is skipped)
unlinked from A1 (A1 becomes X ++ Y) with the main queue untouched, and in
the main branch it symmetrically evicts the first unpinned frame of the
main queue, unlinking it there, with A1 untouched.  In particular
|A1| = NBuffers/2 satisfies the first guard and |A1| = NBuffers/2 - 1 with
a non-empty main queue the second. -/
theorem C4_twoQ_threshold_selection
    (s : BufState) (M A : List Nat)
    (hM : wfQ s s.ctl.firstUnpinned s.ctl.lastUnpinned M)
    (hA : wfQ s s.ctl.a1Head s.ctl.a1Tail A)
    (hdisj : ∀ i ∈ M, i ∉ A)
    (hfree : s.ctl.firstFreeBuffer = -1)
    (fuel : Nat) (hfuel : A.length + M.length + 1 ≤ fuel) :
    ((A.length ≥ s.bufs.length / 2 ∨ M = []) →
      ∀ X v Y, A = X ++ v :: Y →
        (∀ i ∈ X, (getBuf s i).refcount ≠ 0) →
        (getBuf s v).refcount = 0 →
        (StrategyGetBuffer s none PolicyKind.POLICY_2Q fuel).2.2
          = Except.ok ((getBuf s v).buf_id, true) ∧
        wfQ (StrategyGetBuffer s none PolicyKind.POLICY_2Q fuel).1
          (StrategyGetBuffer s none PolicyKind.POLICY_2Q fuel).1.ctl.a1Head
          (StrategyGetBuffer s none PolicyKind.POLICY_2Q fuel).1.ctl.a1Tail
          (X ++ Y) ∧
        (StrategyGetBuffer s none PolicyKind.POLICY_2Q fuel).1.ctl.firstUnpinned
          = s.ctl.firstUnpinned ∧
        (StrategyGetBuffer s none PolicyKind.POLICY_2Q fuel).1.ctl.lastUnpinned
          = s.ctl.lastUnpinned ∧
        wfQ (StrategyGetBuffer s none PolicyKind.POLICY_2Q fuel).1
          (StrategyGetBuffer s none PolicyKind.POLICY_2Q fuel).1.ctl.firstUnpinned
          (StrategyGetBuffer s none PolicyKind.POLICY_2Q fuel).1.ctl.lastUnpinned
          M) ∧
    (¬ (A.length ≥ s.bufs.length / 2 ∨ M = []) →
      ∀ X v Y, M = X ++ v :: Y →
        (∀ i ∈ X, (getBuf s i).refcount ≠ 0) →
        (getBuf s v).refcount = 0 →
        (StrategyGetBuffer s none PolicyKind.POLICY_2Q fuel).2.2
          = Except.ok ((getBuf s v).buf_id, true) ∧
        wfQ (StrategyGetBuffer s none PolicyKind.POLICY_2Q fuel).1
          (StrategyGetBuffer s none PolicyKind.POLICY_2Q fuel).1.ctl.firstUnpinned
          (StrategyGetBuffer s none PolicyKind.POLICY_2Q fuel).1.ctl.lastUnpinned
          (X ++ Y) ∧
        (StrategyGetBuffer s none PolicyKind.POLICY_2Q fuel).1.ctl.a1Head
          = s.ctl.a1Head ∧
        (StrategyGetBuffer s none PolicyKind.POLICY_2Q fuel).1.ctl.a1Tail
          = s.ctl.a1Tail ∧
        wfQ (StrategyGetBuffer s none PolicyKind.POLICY_2Q fuel).1
          (StrategyGetBuffer s none PolicyKind.POLICY_2Q fuel).1.ctl.a1Head
          (StrategyGetBuffer s none PolicyKind.POLICY_2Q fuel).1.ctl.a1Tail
          A) := by
  set s0 : BufState := { s with ctl.numBufferAllocs := s.ctl.numBufferAllocs + 1 } with hs0
  set s2 : BufState := clearLatch s0 with hs2
  have hbufs2 : s2.bufs = s.bufs := by rw [hs2]; exact clearLatch_bufs s0
  have hctl2 := clearLatch_ctl s0
  have hlen2 : s2.bufs.length = s.bufs.length := by rw [hbufs2]
  have hfree2 : s2.ctl.firstFreeBuffer < 0 := by
    rw [hs2, hctl2.2.2.2.2.2]
    show s.ctl.firstFreeBuffer < 0
    rw [hfree]; decide
  have hfu2 : s2.ctl.firstUnpinned = s.ctl.firstUnpinned := by rw [hs2]; exact hctl2.1
  have hlu2 : s2.ctl.lastUnpinned = s.ctl.lastUnpinned := by rw [hs2]; exact hctl2.2.1
  have hah2 : s2.ctl.a1Head = s.ctl.a1Head := by rw [hs2]; exact hctl2.2.2.1
  have hat2 : s2.ctl.a1Tail = s.ctl.a1Tail := by rw [hs2]; exact hctl2.2.2.2.1
  have hMchain : chainQ s2 none s2.ctl.firstUnpinned M none s2.ctl.lastUnpinned := by
    rw [hfu2, hlu2]; exact chainQ_of_bufsEq hbufs2 hM.1
  have hAchain : chainQ s2 none s2.ctl.a1Head A none s2.ctl.a1Tail := by
    rw [hah2, hat2]; exact chainQ_of_bufsEq hbufs2 hA.1
  have hcore : StrategyGetBuffer s none PolicyKind.POLICY_2Q fuel
      = freelistThenPolicy s2 none PolicyKind.POLICY_2Q fuel := rfl
  have hql : queueLen s2 s2.ctl.a1Head fuel = some A.length :=
    queueLen_of_chainQ A hAchain fuel (by omega)
  have hgb2 : ∀ j, getBuf s2 j = getBuf s j := getBuf_congr_bufs hbufs2
  have hMempty_last : M = [] → s2.ctl.lastUnpinned = none := by
    intro hMe
    subst hMe
    exact hMchain.2
  have hMne_last : M ≠ [] → s2.ctl.lastUnpinned ≠ none := by
    intro hMne
    have := chainQ_tl hMchain
    cases hMl : M.getLast? with
    | none => exact absurd (List.getLast?_eq_none_iff.mp hMl) hMne
    | some x => rw [this, hMl]; simp
  constructor
  · -- A1 branch
    intro hguard X v Y hAeq hXpin hv
    have hbr : A.length ≥ nBuffers s2 / 2 ∨ s2.ctl.lastUnpinned = none := by
      rcases hguard with hg | hg
      · left
        show A.length ≥ s2.bufs.length / 2
        rw [hlen2]
        exact hg
      · right
        exact hMempty_last hg
    subst hAeq
    have hXpin2 : ∀ i ∈ X, (getBuf s2 i).refcount ≠ 0 := by
      intro i hi; rw [hgb2]; exact hXpin i hi
    have hv2 : (getBuf s2 v).refcount = 0 := by rw [hgb2]; exact hv
    have hscan := twoQScanA1_found s2 X Y v fuel hAchain hXpin2 hv2
      (by have := List.length_append X (v :: Y); omega)
    have heval : StrategyGetBuffer s none PolicyKind.POLICY_2Q fuel =
        ({ (unlinkVictim s2 s2.ctl.a1Head s2.ctl.a1Tail v).1 with
            ctl.a1Head := (unlinkVictim s2 s2.ctl.a1Head s2.ctl.a1Tail v).2.1,
            ctl.a1Tail := (unlinkVictim s2 s2.ctl.a1Head s2.ctl.a1Tail v).2.2 },
         none,
         Except.ok ((getBuf s2 v).buf_id, true)) := by
      rw [hcore, freelistThenPolicy_emptyFree s2 none _ fuel hfree2 (by omega)]
      unfold policyVictim
      rw [hql]
      dsimp only
      rw [if_pos hbr, hscan]
    have hspec := unlinkVictim_spec s2 s2.ctl.a1Head s2.ctl.a1Tail v X Y hAchain
      (by
        have : (X ++ v :: Y).Nodup := hA.2.1
        exact this)
      (by
        intro i hi
        rw [hlen2]
        exact hA.2.2 i hi)
    obtain ⟨hnewchain, huntouched, hvn, hvp, hctlkeep, hlinkonly⟩ := hspec
    rw [heval]
    set u := unlinkVictim s2 s2.ctl.a1Head s2.ctl.a1Tail v with hu
    have hulen : u.1.bufs.length = s.bufs.length := by
      rw [hlinkonly.1, hlen2]
    refine ⟨by rw [hgb2], ?_, ?_, ?_, ?_⟩
    · refine ⟨?_, ?_, ?_⟩
      · show chainQ _ none u.2.1 (X ++ Y) none u.2.2
        refine chainQ_of_bufsEq ?_ hnewchain
        rfl
      · have hmid : (X ++ v :: Y).Nodup := hA.2.1
        exact (List.nodup_cons.mp (List.nodup_middle.mp hmid)).2
      · intro i hi
        show i < u.1.bufs.length
        rw [hulen]
        refine hA.2.2 i ?_
        rcases List.mem_append.mp hi with hi | hi
        · exact List.mem_append.mpr (Or.inl hi)
        · exact List.mem_append.mpr (Or.inr (by simp [hi]))
    · show u.1.ctl.firstUnpinned = s.ctl.firstUnpinned
      rw [hctlkeep, hfu2]
    · show u.1.ctl.lastUnpinned = s.ctl.lastUnpinned
      rw [hctlkeep, hlu2]
    · refine ⟨?_, hM.2.1, ?_⟩
      · show chainQ _ none _ M none _
        have h1 : ({ u.1 with ctl.a1Head := u.2.1, ctl.a1Tail := u.2.2 } : BufState).ctl.firstUnpinned
            = s2.ctl.firstUnpinned := by
          show u.1.ctl.firstUnpinned = s2.ctl.firstUnpinned
          rw [hctlkeep]
        have h2 : ({ u.1 with ctl.a1Head := u.2.1, ctl.a1Tail := u.2.2 } : BufState).ctl.lastUnpinned
            = s2.ctl.lastUnpinned := by
          show u.1.ctl.lastUnpinned = s2.ctl.lastUnpinned
          rw [hctlkeep]
        rw [h1, h2]
        refine chainQ_of_bufsEq (by rfl) (chainQ_agree ?_ hMchain)
        intro i hi
        exact huntouched i (hdisj i hi)
      · intro i hi
        show i < u.1.bufs.length
        rw [hulen]
        exact hM.2.2 i hi
  · -- main branch
    intro hguard X v Y hMeq hXpin hv
    have hbr : ¬ (A.length ≥ nBuffers s2 / 2 ∨ s2.ctl.lastUnpinned = none) := by
      push_neg at hguard ⊢
      constructor
      · show A.length < s2.bufs.length / 2
        rw [hlen2]
        exact hguard.1
      · exact hMne_last hguard.2
    subst hMeq
    have hXpin2 : ∀ i ∈ X, (getBuf s2 i).refcount ≠ 0 := by
      intro i hi; rw [hgb2]; exact hXpin i hi
    have hv2 : (getBuf s2 v).refcount = 0 := by rw [hgb2]; exact hv
    have hscan := twoQScanMain_found s2 X Y v fuel hMchain hXpin2 hv2
      (by have := List.length_append X (v :: Y); omega)
    have heval : StrategyGetBuffer s none PolicyKind.POLICY_2Q fuel =
        ({ (unlinkVictim s2 s2.ctl.firstUnpinned s2.ctl.lastUnpinned v).1 with
            ctl.firstUnpinned := (unlinkVictim s2 s2.ctl.firstUnpinned s2.ctl.lastUnpinned v).2.1,
            ctl.lastUnpinned := (unlinkVictim s2 s2.ctl.firstUnpinned s2.ctl.lastUnpinned v).2.2 },
         none,
         Except.ok ((getBuf s2 v).buf_id, true)) := by
      rw [hcore, freelistThenPolicy_emptyFree s2 none _ fuel hfree2 (by omega)]
      unfold policyVictim
      rw [hql]
      dsimp only
      rw [if_neg hbr, hscan]
    have hMnd : (X ++ v :: Y).Nodup := hM.2.1
    have hspec := unlinkVictim_spec s2 s2.ctl.firstUnpinned s2.ctl.lastUnpinned v X Y
      hMchain hMnd
      (by
        intro i hi
        rw [hlen2]
        exact hM.2.2 i hi)
    obtain ⟨hnewchain, huntouched, hvn, hvp, hctlkeep, hlinkonly⟩ := hspec
    rw [heval]
    set u := unlinkVictim s2 s2.ctl.firstUnpinned s2.ctl.lastUnpinned v with hu
    have hulen : u.1.bufs.length = s.bufs.length := by
      rw [hlinkonly.1, hlen2]
    have hdisj2 : ∀ i ∈ A, i ∉ X ++ v :: Y := by
      intro i hi hmem
      exact hdisj i hmem hi
    refine ⟨by rw [hgb2], ?_, ?_, ?_, ?_⟩
    · refine ⟨?_, (List.nodup_cons.mp (List.nodup_middle.mp hMnd)).2, ?_⟩
      · show chainQ _ none u.2.1 (X ++ Y) none u.2.2
        refine chainQ_of_bufsEq ?_ hnewchain
        rfl
      · intro i hi
        show i < u.1.bufs.length
        rw [hulen]
        refine hM.2.2 i ?_
        rcases List.mem_append.mp hi with hi | hi
        · exact List.mem_append.mpr (Or.inl hi)
        · exact List.mem_append.mpr (Or.inr (by simp [hi]))
    · show u.1.ctl.a1Head = s.ctl.a1Head
      rw [hctlkeep, hah2]
    · show u.1.ctl.a1Tail = s.ctl.a1Tail
      rw [hctlkeep, hat2]
    · refine ⟨?_, hA.2.1, ?_⟩
      · show chainQ _ none _ A none _
        have h1 : ({ u.1 with ctl.firstUnpinned := u.2.1, ctl.lastUnpinned := u.2.2 } : BufState).ctl.a1Head
            = s2.ctl.a1Head := by
          show u.1.ctl.a1Head = s2.ctl.a1Head
          rw [hctlkeep]
        have h2 : ({ u.1 with ctl.firstUnpinned := u.2.1, ctl.lastUnpinned := u.2.2 } : BufState).ctl.a1Tail
            = s2.ctl.a1Tail := by
          show u.1.ctl.a1Tail = s2.ctl.a1Tail
          rw [hctlkeep]
        rw [h1, h2]
        refine chainQ_of_bufsEq (by rfl) (chainQ_agree ?_ hAchain)
        intro i hi
        exact huntouched i (hdisj2 i hi)
      · intro i hi
        show i < u.1.bufs.length
        rw [hulen]
        exact hA.2.2 i hi

/-- C4 witness: with 4 frames (threshold 2), main queue [2] and A1 queue
[0, 1] (|A1| = threshold) the 2Q GetBuffer evicts frame 0 from A1; with
A1 = [0] (|A1| = threshold - 1) and non-empty main it evicts frame 2 from
the main queue. -/
theorem C4_twoQ_threshold_selection_witness :
    (StrategyGetBuffer
        (BufferUnpinned (BufferUnpinned (BufferUnpinned (BufferUnpinned
          (drainedState 4 0) PolicyKind.POLICY_2Q 2 100) PolicyKind.POLICY_2Q 2 100)
          PolicyKind.POLICY_2Q 0 100) PolicyKind.POLICY_2Q 1 100)
        none PolicyKind.POLICY_2Q 100).2.2 = Except.ok (0, true) ∧
    (StrategyGetBuffer
        (BufferUnpinned (BufferUnpinned (BufferUnpinned
          (drainedState 4 0) PolicyKind.POLICY_2Q 2 100) PolicyKind.POLICY_2Q 2 100)
          PolicyKind.POLICY_2Q 0 100)
        none PolicyKind.POLICY_2Q 100).2.2 = Except.ok (2, true) := by
  constructor
  · exact ((C4_twoQ_threshold_selection
      (BufferUnpinned (BufferUnpinned (BufferUnpinned (BufferUnpinned
        (drainedState 4 0) PolicyKind.POLICY_2Q 2 100) PolicyKind.POLICY_2Q 2 100)
        PolicyKind.POLICY_2Q 0 100) PolicyKind.POLICY_2Q 1 100)
      [2] [0, 1]
      ⟨⟨rfl, rfl, rfl, rfl⟩, by decide, by decide⟩
      ⟨⟨rfl, rfl, rfl, rfl, rfl, rfl⟩, by decide, by decide⟩
      (by decide) rfl 100 (by decide)).1 (by decide)
      [] 0 [1] rfl (by decide) rfl).1
  · exact ((C4_twoQ_threshold_selection
      (BufferUnpinned (BufferUnpinned (BufferUnpinned
        (drainedState 4 0) PolicyKind.POLICY_2Q 2 100) PolicyKind.POLICY_2Q 2 100)
        PolicyKind.POLICY_2Q 0 100)
      [2] [0]
      ⟨⟨rfl, rfl, rfl, rfl⟩, by decide, by decide⟩
      ⟨⟨rfl, rfl, rfl, rfl⟩, by decide, by decide⟩
      (by decide) rfl 100 (by decide)).2 (by decide)
      [] 2 [] rfl (by decide) rfl).1

/-- Combined segment surgery: a well-linked segment stays well-linked in a
new state that rewires only the previous-pointer of its head (to p2) and
the next-pointer of its last node (to stop2). -/
lemma chainQ_surgery {s s2 : BufState} {L : List Nat} (hL : L ≠ []) :
    ∀ {p p2 hd stop stop2 tl : Option Nat},
      chainQ s p hd L stop tl →
      L.Nodup →
      prv s2 (L.head hL) = p2 →
      nxt s2 (L.getLast hL) = stop2 →
      (∀ i ∈ L, i ≠ L.head hL → prv s2 i = prv s i) →
      (∀ i ∈ L, i ≠ L.getLast hL → nxt s2 i = nxt s i) →
      chainQ s2 p2 hd L stop2 tl := by
  induction L with
  | nil => exact absurd rfl hL
  | cons x L ih =>
    intro p p2 hd stop stop2 tl h hnd hhd hlast hprv hnxt
    obtain ⟨h1, h2, h3⟩ := h
    cases L with
    | nil =>
      obtain ⟨h4, h5⟩ := h3
      refine ⟨h1, by simpa using hhd, ?_, h5⟩
      simpa using hlast
    | cons y L2 =>
      have hxlast : x ≠ (x :: y :: L2).getLast (by simp) := by
        have hmem : (x :: y :: L2).getLast (by simp) ∈ y :: L2 := by
          rw [List.getLast_cons_cons]
          exact List.getLast_mem _
        intro hx
        rw [← hx] at hmem
        exact (List.nodup_cons.mp hnd).1 hmem
      refine ⟨h1, by simpa using hhd, ?_⟩
      rw [hnxt x (by simp) hxlast]
      refine ih (by simp) h3 (List.nodup_cons.mp hnd).2 ?_ ?_ ?_ ?_
      · show prv s2 y = some x
        have hyx : y ≠ x := by
          intro hyx
          exact (List.nodup_cons.mp hnd).1 (by simp [← hyx])
        rw [hprv y (by simp) (by simpa using hyx)]
        exact (h3.2.1 : prv s y = some x)
      · rw [List.getLast_cons_cons] at hlast
        exact hlast
      · intro i hi hine
        refine hprv i (by simp [hi]) ?_
        intro hix
        rw [List.head_cons] at hix
        subst hix
        exact (List.nodup_cons.mp hnd).1 hi
      · intro i hi hine
        refine hnxt i (by simp [hi]) ?_
        rw [List.getLast_cons_cons]
        exact hine

/-- Soundness of the membership walk for any fuel: whenever inQueue
answers at all on a well-linked queue, its answer is true membership. -/
lemma inQueue_sound {s : BufState} :
    ∀ (L : List Nat) {p hd tl : Option Nat} {b : Nat} {fuel : Nat} {r : Bool},
      chainQ s p hd L none tl →
      inQueue s b hd fuel = some r →
      (r = true ↔ b ∈ L) := by
  intro L
  induction L with
  | nil =>
    intro p hd tl b fuel r h hq
    rw [h.1] at hq
    cases fuel with
    | zero => cases hq
    | succ f =>
      have : r = false := by
        have : (some false : Option Bool) = some r := by rw [← hq]; rfl
        cases this; rfl
      subst this
      simp
  | cons x L ih =>
    intro p hd tl b fuel r h hq
    obtain ⟨h1, h2, h3⟩ := h
    rw [h1] at hq
    cases fuel with
    | zero => cases hq
    | succ f =>
      by_cases hxb : x = b
      · subst hxb
        have : (some true : Option Bool) = some r := by
          rw [← hq]
          show some true = inQueue s x (some x) (f + 1)
          show some true = (if x = x then some true else _)
          rw [if_pos rfl]
        cases this
        simp
      · have hq2 : inQueue s b (nxt s x) f = some r := by
          have : inQueue s b (some x) (f + 1) = (if x = b then some true else inQueue s b (nxt s x) f) := rfl
          rw [this, if_neg hxb] at hq
          exact hq
        have := ih h3 hq2
        rw [this]
        constructor
        · intro hm; exact List.mem_cons.mpr (Or.inr hm)
        · intro hm
          rcases List.mem_cons.mp hm with hm | hm
          · exact absurd hm.symm hxb
          · exact hm

/-- Specification of the append-to-main tail block shared by the 2Q
BufferUnpinned cases: appending a frame v that is in no queue yields the
well-linked main queue M ++ [v]; links of other frames and the A1 head and
tail are untouched. -/
lemma appendMain_spec (s : BufState) (v : Nat) (first last : Option Nat) (M : List Nat)
    (hfirst : first = s.ctl.firstUnpinned) (hlast : last = s.ctl.lastUnpinned)
    (hM : chainQ s none s.ctl.firstUnpinned M none s.ctl.lastUnpinned)
    (hnd : M.Nodup) (hbound : ∀ i ∈ M, i < s.bufs.length)
    (hv : v ∉ M) (hvlen : v < s.bufs.length) :
    chainQ (bufferUnpinnedAppendMain s v first last) none
        (bufferUnpinnedAppendMain s v first last).ctl.firstUnpinned (M ++ [v]) none
        (bufferUnpinnedAppendMain s v first last).ctl.lastUnpinned ∧
    (∀ j, j ∉ M → j ≠ v →
        nxt (bufferUnpinnedAppendMain s v first last) j = nxt s j ∧
        prv (bufferUnpinnedAppendMain s v first last) j = prv s j) ∧
    (bufferUnpinnedAppendMain s v first last).ctl.a1Head = s.ctl.a1Head ∧
    (bufferUnpinnedAppendMain s v first last).ctl.a1Tail = s.ctl.a1Tail ∧
    linkOnly (bufferUnpinnedAppendMain s v first last) s := by
  subst hfirst
  subst hlast
  rcases List.eq_nil_or_concat M with rfl | ⟨M1, t, heq⟩
  · have h1 : s.ctl.firstUnpinned = none := hM.1
    have h2 : s.ctl.lastUnpinned = none := hM.2
    have hB : bufferUnpinnedAppendMain s v s.ctl.firstUnpinned s.ctl.lastUnpinned =
        { setNext (setPrev { s with ctl.firstUnpinned := some v } v none) v none with
          ctl.lastUnpinned := some v } := by
      unfold bufferUnpinnedAppendMain
      rw [if_pos (Or.inl h1), h2]
    rw [hB]
    refine ⟨⟨rfl, ?_, ?_, rfl⟩, ?_, rfl, rfl, ?_⟩
    · simp only [prv_ctlUpd, prv_setNext, prv_setPrev]
      split
      · rfl
      · next hc => exact absurd ⟨True.intro, hvlen⟩ hc
    · simp only [nxt_ctlUpd, nxt_setNext, nxt_setPrev]
      split
      · rfl
      · next hc => exact absurd ⟨True.intro, by rw [length_setPrev]; exact hvlen⟩ hc
    · intro j hjM hjv
      refine ⟨?_, ?_⟩
      · simp only [nxt_ctlUpd, nxt_setNext, nxt_setPrev]
        split
        · next hc => exact absurd hc.1.symm hjv
        · rfl
      · simp only [prv_ctlUpd, prv_setNext, prv_setPrev]
        split
        · next hc => exact absurd hc.1.symm hjv
        · rfl
    · exact linkOnly_trans (linkOnly_ctlUpd _ _) (linkOnly_trans (linkOnly_setNext _ _ _)
        (linkOnly_trans (linkOnly_setPrev _ _ _) (linkOnly_ctlUpd _ _)))
  · rw [List.concat_eq_append] at heq
    subst heq
    have htmem : t ∈ M1 ++ [t] := by simp
    have htv : t ≠ v := fun h => hv (by rw [← h]; exact htmem)
    have hvt : v ≠ t := Ne.symm htv
    have htlen : t < s.bufs.length := hbound t htmem
    have htnotM1 : t ∉ M1 := fun hmem => (List.nodup_append.mp hnd).2.2 hmem (by simp)
    have hiv : ∀ i ∈ M1, i ≠ v := fun i hi h =>
      hv (by rw [← h]; exact List.mem_append.mpr (Or.inl hi))
    have hit : ∀ i ∈ M1, i ≠ t := fun i hi h => htnotM1 (by rw [← h]; exact hi)
    have htl : s.ctl.lastUnpinned = some t := by
      have h := chainQ_tl hM
      rw [List.getLast?_concat] at h
      exact h
    have hhd : s.ctl.firstUnpinned ≠ none := by
      rw [chainQ_hd hM]
      cases M1 <;> simp
    have hcond : ¬(s.ctl.firstUnpinned = none ∨ s.ctl.lastUnpinned = none) := by
      rw [htl]
      rintro (h | h)
      · exact hhd h
      · cases h
    obtain ⟨mid, pmid, hX, hT⟩ := chainQ_append_elim hM
    obtain ⟨hmid, hprvt, -, -⟩ := hT
    have hB : bufferUnpinnedAppendMain s v s.ctl.firstUnpinned s.ctl.lastUnpinned =
        { setNext (setPrev (setNext s t (some v)) v (some t)) v none with
          ctl.lastUnpinned := some v } := by
      unfold bufferUnpinnedAppendMain
      rw [if_neg hcond, htl]
      rfl
    rw [hB]
    have hnxt_other : ∀ j, j ≠ v → j ≠ t →
        nxt { setNext (setPrev (setNext s t (some v)) v (some t)) v none with
              ctl.lastUnpinned := some v } j = nxt s j := by
      intro j hjv hjt
      simp only [nxt_ctlUpd, nxt_setNext, nxt_setPrev]
      split
      · next hc => exact absurd hc.1.symm hjv
      · split
        · next hc => exact absurd hc.1.symm hjt
        · rfl
    have hprv_other : ∀ j, j ≠ v →
        prv { setNext (setPrev (setNext s t (some v)) v (some t)) v none with
              ctl.lastUnpinned := some v } j = prv s j := by
      intro j hjv
      simp only [prv_ctlUpd, prv_setNext, prv_setPrev]
      split
      · next hc => exact absurd hc.1.symm hjv
      · rfl
    have hnxt_t : nxt { setNext (setPrev (setNext s t (some v)) v (some t)) v none with
          ctl.lastUnpinned := some v } t = some v := by
      simp only [nxt_ctlUpd, nxt_setNext, nxt_setPrev]
      split
      · next hc => exact absurd hc.1 hvt
      · split
        · rfl
        · next hc => exact absurd ⟨True.intro, htlen⟩ hc
    have hnxt_v : nxt { setNext (setPrev (setNext s t (some v)) v (some t)) v none with
          ctl.lastUnpinned := some v } v = none := by
      simp only [nxt_ctlUpd, nxt_setNext, nxt_setPrev]
      split
      · rfl
      · next hc =>
        exact absurd ⟨True.intro, by rw [length_setPrev, length_setNext]; exact hvlen⟩ hc
    have hprv_v : prv { setNext (setPrev (setNext s t (some v)) v (some t)) v none with
          ctl.lastUnpinned := some v } v = some t := by
      simp only [prv_ctlUpd, prv_setNext, prv_setPrev]
      split
      · rfl
      · next hc => exact absurd ⟨True.intro, by rw [length_setNext]; exact hvlen⟩ hc
    have hXpart : chainQ { setNext (setPrev (setNext s t (some v)) v (some t)) v none with
          ctl.lastUnpinned := some v } none s.ctl.firstUnpinned M1 mid pmid :=
      chainQ_agree (fun i hi => ⟨hnxt_other i (hiv i hi) (hit i hi),
        hprv_other i (hiv i hi)⟩) hX
    have hTpart : chainQ { setNext (setPrev (setNext s t (some v)) v (some t)) v none with
          ctl.lastUnpinned := some v } pmid mid [t] (some v) (some t) :=
      ⟨hmid, (hprv_other t htv).trans hprvt, hnxt_t, rfl⟩
    have hVpart : chainQ { setNext (setPrev (setNext s t (some v)) v (some t)) v none with
          ctl.lastUnpinned := some v } (some t) (some v) [v] none (some v) :=
      ⟨rfl, hprv_v, hnxt_v, rfl⟩
    refine ⟨?_, ?_, rfl, rfl, ?_⟩
    · exact chainQ_append_intro (chainQ_append_intro hXpart hTpart) hVpart
    · intro j hjM hjv
      have hjt : j ≠ t := fun h => hjM (by rw [h]; exact htmem)
      exact ⟨hnxt_other j hjv hjt, hprv_other j hjv⟩
    · exact linkOnly_trans (linkOnly_ctlUpd _ _) (linkOnly_trans (linkOnly_setNext _ _ _)
        (linkOnly_trans (linkOnly_setPrev _ _ _) (linkOnly_setNext _ _ _)))

/-- Specification of the 2Q move-to-tail block of BufferUnpinned for a
member v of the main queue X ++ v :: Y: when v is already the tail the
state is unchanged, otherwise the main queue becomes X ++ (Y ++ [v]);
links of frames outside the queue and the A1 head and tail are
untouched. -/
lemma bufferUnpinned2QMain_spec (s : BufState) (v : Nat) (X Y : List Nat)
    (hM : chainQ s none s.ctl.firstUnpinned (X ++ v :: Y) none s.ctl.lastUnpinned)
    (hnd : (X ++ v :: Y).Nodup)
    (hbound : ∀ i ∈ X ++ v :: Y, i < s.bufs.length) :
    ∃ L, (L = X ++ v :: Y ∨ L = X ++ (Y ++ [v])) ∧
      chainQ (bufferUnpinned2QMain s v s.ctl.lastUnpinned (prv s v) (nxt s v)) none
        (bufferUnpinned2QMain s v s.ctl.lastUnpinned (prv s v) (nxt s v)).ctl.firstUnpinned
        L none
        (bufferUnpinned2QMain s v s.ctl.lastUnpinned (prv s v) (nxt s v)).ctl.lastUnpinned ∧
      (∀ j, j ∉ X ++ v :: Y →
        nxt (bufferUnpinned2QMain s v s.ctl.lastUnpinned (prv s v) (nxt s v)) j = nxt s j ∧
        prv (bufferUnpinned2QMain s v s.ctl.lastUnpinned (prv s v) (nxt s v)) j = prv s j) ∧
      (bufferUnpinned2QMain s v s.ctl.lastUnpinned (prv s v) (nxt s v)).ctl.a1Head
        = s.ctl.a1Head ∧
      (bufferUnpinned2QMain s v s.ctl.lastUnpinned (prv s v) (nxt s v)).ctl.a1Tail
        = s.ctl.a1Tail ∧
      linkOnly (bufferUnpinned2QMain s v s.ctl.lastUnpinned (prv s v) (nxt s v)) s := by
  obtain ⟨mid, pmid, hX, hV⟩ := chainQ_append_elim hM
  obtain ⟨hmid, hpv, hrest⟩ := hV
  cases Y with
  | nil =>
    obtain ⟨hnv, hlastv⟩ := hrest
    rw [hnv]
    exact ⟨X ++ v :: [], Or.inl rfl, hM, fun j _ => ⟨rfl, rfl⟩, rfl, rfl, linkOnly_refl s⟩
  | cons y0 Y2 =>
    obtain ⟨hy0, hpy0, hrest2⟩ := hrest
    have hYseg : chainQ s (some v) (some y0) (y0 :: Y2) none s.ctl.lastUnpinned :=
      ⟨rfl, hpy0, hrest2⟩
    have hgl : s.ctl.lastUnpinned = some ((y0 :: Y2).getLast (by simp)) := by
      have h := chainQ_tl hYseg
      rw [h, List.getLast?_eq_getLast _ (by simp)]
      rfl
    obtain ⟨t, hglt, htl⟩ : ∃ t, (y0 :: Y2).getLast (by simp) = t ∧
        s.ctl.lastUnpinned = some t := ⟨_, rfl, hgl⟩
    rw [htl] at hYseg
    have ht_mem : t ∈ y0 :: Y2 := by rw [← hglt]; exact List.getLast_mem _
    have hnd1 := List.nodup_append.mp hnd
    have hndX : X.Nodup := hnd1.1
    have hvY : v ∉ y0 :: Y2 := (List.nodup_cons.mp hnd1.2.1).1
    have hndY : (y0 :: Y2).Nodup := (List.nodup_cons.mp hnd1.2.1).2
    have hvt : v ≠ t := fun h => hvY (by rw [h]; exact ht_mem)
    have htv : t ≠ v := Ne.symm hvt
    have hy0v : y0 ≠ v := fun h => hvY (by rw [← h]; simp)
    have hvy0 : v ≠ y0 := Ne.symm hy0v
    have hvlen : v < s.bufs.length := hbound v (List.mem_append.mpr (Or.inr (by simp)))
    have htlen : t < s.bufs.length :=
      hbound t (List.mem_append.mpr (Or.inr (List.mem_cons_of_mem v ht_mem)))
    have hy0len : y0 < s.bufs.length :=
      hbound y0 (List.mem_append.mpr (Or.inr (by simp)))
    rcases List.eq_nil_or_concat X with rfl | ⟨X1, px, heqX⟩
    · obtain ⟨hfm, hpmid⟩ := hX
      have hprev : prv s v = none := by rw [hpv, hpmid]
      have hB : bufferUnpinned2QMain s v s.ctl.lastUnpinned (prv s v) (nxt s v) =
          { setNext (setPrev (setNext { setPrev s y0 none with
              ctl.firstUnpinned := some y0 } t (some v)) v (some t)) v none with
            ctl.lastUnpinned := some v } := by
        rw [hy0, hprev, htl]
        rfl
      rw [hB]
      have hprv_y0 : prv { setNext (setPrev (setNext { setPrev s y0 none with
          ctl.firstUnpinned := some y0 } t (some v)) v (some t)) v none with
          ctl.lastUnpinned := some v } y0 = none := by
        simp only [prv_ctlUpd, prv_setNext, prv_setPrev]
        split
        · next hc => exact absurd hc.1 hvy0
        · split
          · rfl
          · next hc => exact absurd ⟨True.intro, hy0len⟩ hc
      have hprv_v : prv { setNext (setPrev (setNext { setPrev s y0 none with
          ctl.firstUnpinned := some y0 } t (some v)) v (some t)) v none with
          ctl.lastUnpinned := some v } v = some t := by
        simp only [prv_ctlUpd, prv_setNext, prv_setPrev]
        split
        · rfl
        · next hc => exact absurd ⟨True.intro, by simpa using hvlen⟩ hc
      have hprv_other : ∀ j, j ≠ v → j ≠ y0 →
          prv { setNext (setPrev (setNext { setPrev s y0 none with
            ctl.firstUnpinned := some y0 } t (some v)) v (some t)) v none with
            ctl.lastUnpinned := some v } j = prv s j := by
        intro j hjv hjy
        simp only [prv_ctlUpd, prv_setNext, prv_setPrev]
        split
        · next hc => exact absurd hc.1.symm hjv
        · split
          · next hc => exact absurd hc.1.symm hjy
          · rfl
      have hnxt_v : nxt { setNext (setPrev (setNext { setPrev s y0 none with
          ctl.firstUnpinned := some y0 } t (some v)) v (some t)) v none with
          ctl.lastUnpinned := some v } v = none := by
        simp only [nxt_ctlUpd, nxt_setNext, nxt_setPrev]
        split
        · rfl
        · next hc => exact absurd ⟨True.intro, by simpa using hvlen⟩ hc
      have hnxt_t : nxt { setNext (setPrev (setNext { setPrev s y0 none with
          ctl.firstUnpinned := some y0 } t (some v)) v (some t)) v none with
          ctl.lastUnpinned := some v } t = some v := by
        simp only [nxt_ctlUpd, nxt_setNext, nxt_setPrev]
        split
        · next hc => exact absurd hc.1 hvt
        · split
          · rfl
          · next hc => exact absurd ⟨True.intro, by simpa using htlen⟩ hc
      have hnxt_other : ∀ j, j ≠ v → j ≠ t →
          nxt { setNext (setPrev (setNext { setPrev s y0 none with
            ctl.firstUnpinned := some y0 } t (some v)) v (some t)) v none with
            ctl.lastUnpinned := some v } j = nxt s j := by
        intro j hjv hjt
        simp only [nxt_ctlUpd, nxt_setNext, nxt_setPrev]
        split
        · next hc => exact absurd hc.1.symm hjv
        · split
          · next hc => exact absurd hc.1.symm hjt
          · rfl
      have hYpart : chainQ { setNext (setPrev (setNext { setPrev s y0 none with
          ctl.firstUnpinned := some y0 } t (some v)) v (some t)) v none with
          ctl.lastUnpinned := some v } none (some y0) (y0 :: Y2) (some v) (some t) := by
        refine chainQ_surgery (by simp) hYseg hndY ?_ ?_ ?_ ?_
        · exact hprv_y0
        · rw [hglt]; exact hnxt_t
        · intro i hi hine
          exact hprv_other i (fun h => hvY (by rw [← h]; exact hi)) hine
        · intro i hi hine
          rw [hglt] at hine
          exact hnxt_other i (fun h => hvY (by rw [← h]; exact hi)) hine
      have hVpart : chainQ { setNext (setPrev (setNext { setPrev s y0 none with
          ctl.firstUnpinned := some y0 } t (some v)) v (some t)) v none with
          ctl.lastUnpinned := some v } (some t) (some v) [v] none (some v) :=
        ⟨rfl, hprv_v, hnxt_v, rfl⟩
      refine ⟨(y0 :: Y2) ++ [v], Or.inr rfl, ?_, ?_, rfl, rfl, ?_⟩
      · exact chainQ_append_intro hYpart hVpart
      · intro j hj
        have hjv : j ≠ v := fun h => hj (by rw [h]; simp)
        have hjy : j ≠ y0 := fun h => hj (by rw [h]; simp)
        have hjt : j ≠ t := fun h => hj (by
          rw [h]
          exact List.mem_append.mpr (Or.inr (List.mem_cons_of_mem _ ht_mem)))
        exact ⟨hnxt_other j hjv hjt, hprv_other j hjv hjy⟩
      · exact linkOnly_trans (linkOnly_ctlUpd _ _) (linkOnly_trans (linkOnly_setNext _ _ _)
          (linkOnly_trans (linkOnly_setPrev _ _ _) (linkOnly_trans (linkOnly_setNext _ _ _)
            (linkOnly_trans (linkOnly_ctlUpd _ _) (linkOnly_setPrev _ _ _)))))
    · rw [List.concat_eq_append] at heqX
      subst heqX
      have hpxmem : px ∈ X1 ++ [px] := by simp
      have hpxnotV : px ∉ v :: y0 :: Y2 := hnd1.2.2 hpxmem
      have hpxv : px ≠ v := fun h => hpxnotV (by rw [h]; simp)
      have hvpx : v ≠ px := Ne.symm hpxv
      have hpxy0 : px ≠ y0 := fun h => hpxnotV (by rw [h]; simp)
      have hpxt : px ≠ t := fun h => hpxnotV (by rw [h]; exact List.mem_cons_of_mem _ ht_mem)
      have htpx : t ≠ px := Ne.symm hpxt
      have hpxlen : px < s.bufs.length := hbound px (List.mem_append.mpr (Or.inl hpxmem))
      have hpxX1 : px ∉ X1 := fun hmem =>
        (List.nodup_append.mp hndX).2.2 hmem (by simp)
      have hX1notV : ∀ i ∈ X1, i ∉ v :: y0 :: Y2 := fun i hi =>
        hnd1.2.2 (List.mem_append.mpr (Or.inl hi))
      have hX1v : ∀ i ∈ X1, i ≠ v := fun i hi h => hX1notV i hi (by rw [h]; simp)
      have hX1y0 : ∀ i ∈ X1, i ≠ y0 := fun i hi h => hX1notV i hi (by rw [h]; simp)
      have hX1t : ∀ i ∈ X1, i ≠ t := fun i hi h =>
        hX1notV i hi (by rw [h]; exact List.mem_cons_of_mem _ ht_mem)
      have hX1px : ∀ i ∈ X1, i ≠ px := fun i hi h => hpxX1 (by rw [← h]; exact hi)
      obtain ⟨midx, pmidx, hX1, hPx⟩ := chainQ_append_elim hX
      obtain ⟨hmidx, hppx, hnpx, hpmid⟩ := hPx
      have hprev : prv s v = some px := by rw [hpv, hpmid]
      have hB : bufferUnpinned2QMain s v s.ctl.lastUnpinned (prv s v) (nxt s v) =
          { setNext (setPrev (setNext (setPrev (setNext s px (some y0)) y0 (some px))
              t (some v)) v (some t)) v none with ctl.lastUnpinned := some v } := by
        rw [hy0, hprev, htl]
        rfl
      rw [hB]
      have hprv_y0 : prv { setNext (setPrev (setNext (setPrev (setNext s px (some y0))
          y0 (some px)) t (some v)) v (some t)) v none with
          ctl.lastUnpinned := some v } y0 = some px := by
        simp only [prv_ctlUpd, prv_setNext, prv_setPrev]
        split
        · next hc => exact absurd hc.1 hvy0
        · split
          · rfl
          · next hc => exact absurd ⟨True.intro, by simpa using hy0len⟩ hc
      have hprv_v : prv { setNext (setPrev (setNext (setPrev (setNext s px (some y0))
          y0 (some px)) t (some v)) v (some t)) v none with
          ctl.lastUnpinned := some v } v = some t := by
        simp only [prv_ctlUpd, prv_setNext, prv_setPrev]
        split
        · rfl
        · next hc => exact absurd ⟨True.intro, by simpa using hvlen⟩ hc
      have hprv_other : ∀ j, j ≠ v → j ≠ y0 →
          prv { setNext (setPrev (setNext (setPrev (setNext s px (some y0))
            y0 (some px)) t (some v)) v (some t)) v none with
            ctl.lastUnpinned := some v } j = prv s j := by
        intro j hjv hjy
        simp only [prv_ctlUpd, prv_setNext, prv_setPrev]
        split
        · next hc => exact absurd hc.1.symm hjv
        · split
          · next hc => exact absurd hc.1.symm hjy
          · rfl
      have hnxt_v : nxt { setNext (setPrev (setNext (setPrev (setNext s px (some y0))
          y0 (some px)) t (some v)) v (some t)) v none with
          ctl.lastUnpinned := some v } v = none := by
        simp only [nxt_ctlUpd, nxt_setNext, nxt_setPrev]
        split
        · rfl
        · next hc => exact absurd ⟨True.intro, by simpa using hvlen⟩ hc
      have hnxt_t : nxt { setNext (setPrev (setNext (setPrev (setNext s px (some y0))
          y0 (some px)) t (some v)) v (some t)) v none with
          ctl.lastUnpinned := some v } t = some v := by
        simp only [nxt_ctlUpd, nxt_setNext, nxt_setPrev]
        split
        · next hc => exact absurd hc.1 hvt
        · split
          · rfl
          · next hc => exact absurd ⟨True.intro, by simpa using htlen⟩ hc
      have hnxt_px : nxt { setNext (setPrev (setNext (setPrev (setNext s px (some y0))
          y0 (some px)) t (some v)) v (some t)) v none with
          ctl.lastUnpinned := some v } px = some y0 := by
        simp only [nxt_ctlUpd, nxt_setNext, nxt_setPrev]
        split
        · next hc => exact absurd hc.1 hvpx
        · split
          · next hc => exact absurd hc.1 htpx
          · split
            · rfl
            · next hc => exact absurd ⟨True.intro, hpxlen⟩ hc
      have hnxt_other : ∀ j, j ≠ v → j ≠ t → j ≠ px →
          nxt { setNext (setPrev (setNext (setPrev (setNext s px (some y0))
            y0 (some px)) t (some v)) v (some t)) v none with
            ctl.lastUnpinned := some v } j = nxt s j := by
        intro j hjv hjt hjpx
        simp only [nxt_ctlUpd, nxt_setNext, nxt_setPrev]
        split
        · next hc => exact absurd hc.1.symm hjv
        · split
          · next hc => exact absurd hc.1.symm hjt
          · split
            · next hc => exact absurd hc.1.symm hjpx
            · rfl
      have hX1part : chainQ { setNext (setPrev (setNext (setPrev (setNext s px (some y0))
          y0 (some px)) t (some v)) v (some t)) v none with
          ctl.lastUnpinned := some v } none s.ctl.firstUnpinned X1 midx pmidx :=
        chainQ_agree (fun i hi => ⟨hnxt_other i (hX1v i hi) (hX1t i hi) (hX1px i hi),
          hprv_other i (hX1v i hi) (hX1y0 i hi)⟩) hX1
      have hPxpart : chainQ { setNext (setPrev (setNext (setPrev (setNext s px (some y0))
          y0 (some px)) t (some v)) v (some t)) v none with
          ctl.lastUnpinned := some v } pmidx midx [px] (some y0) (some px) :=
        ⟨hmidx, (hprv_other px hpxv hpxy0).trans hppx, hnxt_px, rfl⟩
      have hYpart : chainQ { setNext (setPrev (setNext (setPrev (setNext s px (some y0))
          y0 (some px)) t (some v)) v (some t)) v none with
          ctl.lastUnpinned := some v } (some px) (some y0) (y0 :: Y2) (some v) (some t) := by
        refine chainQ_surgery (by simp) hYseg hndY ?_ ?_ ?_ ?_
        · exact hprv_y0
        · rw [hglt]; exact hnxt_t
        · intro i hi hine
          exact hprv_other i (fun h => hvY (by rw [← h]; exact hi)) hine
        · intro i hi hine
          rw [hglt] at hine
          refine hnxt_other i (fun h => hvY (by rw [← h]; exact hi)) hine ?_
          intro h
          exact hpxnotV (by rw [← h]; exact List.mem_cons_of_mem _ hi)
      have hVpart : chainQ { setNext (setPrev (setNext (setPrev (setNext s px (some y0))
          y0 (some px)) t (some v)) v (some t)) v none with
          ctl.lastUnpinned := some v } (some t) (some v) [v] none (some v) :=
        ⟨rfl, hprv_v, hnxt_v, rfl⟩
      refine ⟨(X1 ++ [px]) ++ ((y0 :: Y2) ++ [v]), Or.inr rfl, ?_, ?_, rfl, rfl, ?_⟩
      · exact chainQ_append_intro (chainQ_append_intro hX1part hPxpart)
          (chainQ_append_intro hYpart hVpart)
      · intro j hj
        have hjv : j ≠ v := fun h => hj (by rw [h]; simp)
        have hjy : j ≠ y0 := fun h => hj (by rw [h]; simp)
        have hjpx : j ≠ px := fun h => hj (by rw [h]; simp)
        have hjt : j ≠ t := fun h => hj (by
          rw [h]
          exact List.mem_append.mpr (Or.inr (List.mem_cons_of_mem _ ht_mem)))
        exact ⟨hnxt_other j hjv hjt hjpx, hprv_other j hjv hjy⟩
      · exact linkOnly_trans (linkOnly_ctlUpd _ _) (linkOnly_trans (linkOnly_setNext _ _ _)
          (linkOnly_trans (linkOnly_setPrev _ _ _) (linkOnly_trans (linkOnly_setNext _ _ _)
            (linkOnly_trans (linkOnly_setPrev _ _ _) (linkOnly_setNext _ _ _)))))

/-- Glue for the 2Q A1 cases of BufferUnpinned: if the intermediate state
s1 (after the A1 unlink surgery) carries the A1 queue XA ++ YA, agrees
with s outside the old A1 queue and keeps the main queue's head and tail
pointers, then appending v to the main queue finishes the dispatch: the
main queue becomes M ++ [v] and the A1 queue stays XA ++ YA. -/
lemma unpinA1_glue (s s1 : BufState) (v : Nat) (XA YA M : List Nat)
    (hfl : s1.ctl.firstUnpinned = s.ctl.firstUnpinned)
    (hll : s1.ctl.lastUnpinned = s.ctl.lastUnpinned)
    (hlen1 : s1.bufs.length = s.bufs.length)
    (hA1s1 : chainQ s1 none s1.ctl.a1Head (XA ++ YA) none s1.ctl.a1Tail)
    (huns1 : ∀ j, j ∉ XA ++ v :: YA → nxt s1 j = nxt s j ∧ prv s1 j = prv s j)
    (hlo1 : linkOnly s1 s)
    (hM : chainQ s none s.ctl.firstUnpinned M none s.ctl.lastUnpinned)
    (hndM : M.Nodup) (hboundM : ∀ i ∈ M, i < s.bufs.length)
    (hMA : ∀ i ∈ M, i ∉ XA ++ v :: YA)
    (hAnotM : ∀ i ∈ XA ++ YA, i ∉ M)
    (hAv : ∀ i ∈ XA ++ YA, i ≠ v)
    (hvM : v ∉ M) (hvlen : v < s.bufs.length) :
    chainQ (bufferUnpinnedAppendMain s1 v s.ctl.firstUnpinned s.ctl.lastUnpinned) none
      (bufferUnpinnedAppendMain s1 v s.ctl.firstUnpinned
        s.ctl.lastUnpinned).ctl.firstUnpinned
      (M ++ [v]) none
      (bufferUnpinnedAppendMain s1 v s.ctl.firstUnpinned
        s.ctl.lastUnpinned).ctl.lastUnpinned ∧
    chainQ (bufferUnpinnedAppendMain s1 v s.ctl.firstUnpinned s.ctl.lastUnpinned) none
      (bufferUnpinnedAppendMain s1 v s.ctl.firstUnpinned s.ctl.lastUnpinned).ctl.a1Head
      (XA ++ YA) none
      (bufferUnpinnedAppendMain s1 v s.ctl.firstUnpinned s.ctl.lastUnpinned).ctl.a1Tail ∧
    (∀ j, j ∉ XA ++ v :: YA → j ∉ M →
      nxt (bufferUnpinnedAppendMain s1 v s.ctl.firstUnpinned s.ctl.lastUnpinned) j
        = nxt s j ∧
      prv (bufferUnpinnedAppendMain s1 v s.ctl.firstUnpinned s.ctl.lastUnpinned) j
        = prv s j) ∧
    linkOnly (bufferUnpinnedAppendMain s1 v s.ctl.firstUnpinned s.ctl.lastUnpinned) s := by
  have hM1 : chainQ s1 none s1.ctl.firstUnpinned M none s1.ctl.lastUnpinned := by
    rw [hfl, hll]
    exact chainQ_agree (fun i hi => huns1 i (hMA i hi)) hM
  obtain ⟨hchain2, hun2, ha1h2, ha1t2, hlo2⟩ :=
    appendMain_spec s1 v s.ctl.firstUnpinned s.ctl.lastUnpinned M hfl.symm hll.symm hM1 hndM
      (fun i hi => hlen1 ▸ hboundM i hi) hvM (hlen1 ▸ hvlen)
  refine ⟨hchain2, ?_, ?_, linkOnly_trans hlo2 hlo1⟩
  · rw [ha1h2, ha1t2]
    exact chainQ_agree (fun i hi => hun2 i (hAnotM i hi) (hAv i hi)) hA1s1
  · intro j hjA hjM
    have h2 := hun2 j hjM (fun h => hjA (by rw [h]; simp))
    have h1 := huns1 j hjA
    exact ⟨h2.1.trans h1.1, h2.2.trans h1.2⟩

/-- Specification of the 2Q A1 branch of BufferUnpinned: a frame v on the
A1 queue XA ++ v :: YA is unlinked from A1 and appended to the tail of the
main queue M; links of frames outside both queues are untouched. -/
lemma bufferUnpinned2QA1_spec (s : BufState) (v : Nat) (XA YA M : List Nat)
    (hA : chainQ s none s.ctl.a1Head (XA ++ v :: YA) none s.ctl.a1Tail)
    (hndA : (XA ++ v :: YA).Nodup)
    (hboundA : ∀ i ∈ XA ++ v :: YA, i < s.bufs.length)
    (hM : chainQ s none s.ctl.firstUnpinned M none s.ctl.lastUnpinned)
    (hndM : M.Nodup)
    (hboundM : ∀ i ∈ M, i < s.bufs.length)
    (hdisjMA : ∀ i ∈ M, i ∉ XA ++ v :: YA) :
    chainQ (bufferUnpinned2QA1 s v s.ctl.firstUnpinned s.ctl.lastUnpinned (prv s v) (nxt s v))
      none
      (bufferUnpinned2QA1 s v s.ctl.firstUnpinned s.ctl.lastUnpinned (prv s v)
        (nxt s v)).ctl.firstUnpinned
      (M ++ [v]) none
      (bufferUnpinned2QA1 s v s.ctl.firstUnpinned s.ctl.lastUnpinned (prv s v)
        (nxt s v)).ctl.lastUnpinned ∧
    chainQ (bufferUnpinned2QA1 s v s.ctl.firstUnpinned s.ctl.lastUnpinned (prv s v) (nxt s v))
      none
      (bufferUnpinned2QA1 s v s.ctl.firstUnpinned s.ctl.lastUnpinned (prv s v)
        (nxt s v)).ctl.a1Head
      (XA ++ YA) none
      (bufferUnpinned2QA1 s v s.ctl.firstUnpinned s.ctl.lastUnpinned (prv s v)
        (nxt s v)).ctl.a1Tail ∧
    (∀ j, j ∉ XA ++ v :: YA → j ∉ M →
      nxt (bufferUnpinned2QA1 s v s.ctl.firstUnpinned s.ctl.lastUnpinned (prv s v)
        (nxt s v)) j = nxt s j ∧
      prv (bufferUnpinned2QA1 s v s.ctl.firstUnpinned s.ctl.lastUnpinned (prv s v)
        (nxt s v)) j = prv s j) ∧
    linkOnly (bufferUnpinned2QA1 s v s.ctl.firstUnpinned s.ctl.lastUnpinned (prv s v)
      (nxt s v)) s := by
  obtain ⟨mida, pmida, hXA, hVA⟩ := chainQ_append_elim hA
  obtain ⟨hmida, hpva, hresta⟩ := hVA
  have hvM : v ∉ M := fun hvm => hdisjMA v hvm
    (List.mem_append.mpr (Or.inr (List.mem_cons_self v YA)))
  have hvlen : v < s.bufs.length := hboundA v
    (List.mem_append.mpr (Or.inr (List.mem_cons_self v YA)))
  have hndA1 := List.nodup_append.mp hndA
  have hvXA : v ∉ XA := fun h => hndA1.2.2 h (by simp)
  have hvYA : v ∉ YA := (List.nodup_cons.mp hndA1.2.1).1
  have hAnotM : ∀ i ∈ XA ++ YA, i ∉ M := by
    intro i hi him
    refine hdisjMA i him ?_
    rcases List.mem_append.mp hi with h | h
    · exact List.mem_append.mpr (Or.inl h)
    · exact List.mem_append.mpr (Or.inr (List.mem_cons_of_mem v h))
  have hAv : ∀ i ∈ XA ++ YA, i ≠ v := by
    intro i hi h
    subst h
    rcases List.mem_append.mp hi with h2 | h2
    · exact hvXA h2
    · exact hvYA h2
  cases YA with
  | nil =>
    obtain ⟨hnva, hta⟩ := hresta
    rcases List.eq_nil_or_concat XA with rfl | ⟨XA1, pv, heq⟩
    · obtain ⟨hha, hpm⟩ := hXA
      have hprev : prv s v = none := by rw [hpva, hpm]
      have hB : bufferUnpinned2QA1 s v s.ctl.firstUnpinned s.ctl.lastUnpinned
            (prv s v) (nxt s v)
          = bufferUnpinnedAppendMain { s with ctl.a1Head := none, ctl.a1Tail := none } v
              s.ctl.firstUnpinned s.ctl.lastUnpinned := by
        rw [hnva, hprev]
        rfl
      rw [hB]
      have hA1s1 : chainQ { s with ctl.a1Head := none, ctl.a1Tail := none } none
          (none : Option Nat) (([] : List Nat) ++ []) none (none : Option Nat) := ⟨rfl, rfl⟩
      have huns1 : ∀ j, j ∉ ([] : List Nat) ++ v :: [] →
          nxt { s with ctl.a1Head := none, ctl.a1Tail := none } j = nxt s j ∧
          prv { s with ctl.a1Head := none, ctl.a1Tail := none } j = prv s j :=
        fun j _ => ⟨rfl, rfl⟩
      exact unpinA1_glue s _ v [] [] M rfl rfl rfl hA1s1 huns1 (linkOnly_ctlUpd _ _) hM hndM
        hboundM hdisjMA hAnotM hAv hvM hvlen
    · rw [List.concat_eq_append] at heq
      subst heq
      obtain ⟨midx, pmidx, hXA1, hPv⟩ := chainQ_append_elim hXA
      obtain ⟨hmidx, hppv, hnpv, hpmida⟩ := hPv
      have hprev : prv s v = some pv := by rw [hpva, hpmida]
      have hpvmem : pv ∈ XA1 ++ [pv] := by simp
      have hpvv : pv ≠ v := hAv pv (List.mem_append.mpr (Or.inl hpvmem))
      have hvpv : v ≠ pv := Ne.symm hpvv
      have hpvlen : pv < s.bufs.length := hboundA pv (List.mem_append.mpr (Or.inl hpvmem))
      have hpvX1 : pv ∉ XA1 := fun hmem =>
        (List.nodup_append.mp hndA1.1).2.2 hmem (by simp)
      have hX1pv : ∀ i ∈ XA1, i ≠ pv := fun i hi h => hpvX1 (by rw [← h]; exact hi)
      have hB : bufferUnpinned2QA1 s v s.ctl.firstUnpinned s.ctl.lastUnpinned
            (prv s v) (nxt s v)
          = bufferUnpinnedAppendMain { setNext s pv none with ctl.a1Tail := some pv } v
              s.ctl.firstUnpinned s.ctl.lastUnpinned := by
        rw [hnva, hprev]
        rfl
      rw [hB]
      have hnxt_pv : nxt { setNext s pv none with ctl.a1Tail := some pv } pv = none := by
        simp only [nxt_ctlUpd, nxt_setNext]
        split
        · rfl
        · next hc => exact absurd ⟨True.intro, hpvlen⟩ hc
      have hnxt_oth : ∀ j, j ≠ pv →
          nxt { setNext s pv none with ctl.a1Tail := some pv } j = nxt s j := by
        intro j hj
        simp only [nxt_ctlUpd, nxt_setNext]
        split
        · next hc => exact absurd hc.1.symm hj
        · rfl
      have hprv_all : ∀ j,
          prv { setNext s pv none with ctl.a1Tail := some pv } j = prv s j := by
        intro j
        simp only [prv_ctlUpd, prv_setNext]
      have hA1s1 : chainQ { setNext s pv none with ctl.a1Tail := some pv } none
          s.ctl.a1Head ((XA1 ++ [pv]) ++ ([] : List Nat)) none (some pv) := by
        have hX1part : chainQ { setNext s pv none with ctl.a1Tail := some pv } none
            s.ctl.a1Head XA1 midx pmidx :=
          chainQ_agree (fun i hi => ⟨hnxt_oth i (hX1pv i hi), hprv_all i⟩) hXA1
        have hPvpart : chainQ { setNext s pv none with ctl.a1Tail := some pv } pmidx midx
            [pv] none (some pv) :=
          ⟨hmidx, (hprv_all pv).trans hppv, hnxt_pv, rfl⟩
        have hNilpart : chainQ { setNext s pv none with ctl.a1Tail := some pv } (some pv)
            none ([] : List Nat) none (some pv) := ⟨rfl, rfl⟩
        exact chainQ_append_intro (chainQ_append_intro hX1part hPvpart) hNilpart
      have huns1 : ∀ j, j ∉ (XA1 ++ [pv]) ++ v :: [] →
          nxt { setNext s pv none with ctl.a1Tail := some pv } j = nxt s j ∧
          prv { setNext s pv none with ctl.a1Tail := some pv } j = prv s j := by
        intro j hj
        have hjpv : j ≠ pv := fun h => hj (by rw [h]; simp)
        exact ⟨hnxt_oth j hjpv, hprv_all j⟩
      exact unpinA1_glue s _ v (XA1 ++ [pv]) [] M rfl rfl (by simp) hA1s1 huns1
        (linkOnly_trans (linkOnly_ctlUpd _ _) (linkOnly_setNext _ _ _)) hM hndM
        hboundM hdisjMA hAnotM hAv hvM hvlen
  | cons y0 YA2 =>
    obtain ⟨hy0a, hpy0a, hresta2⟩ := hresta
    have hYAseg : chainQ s (some v) (some y0) (y0 :: YA2) none s.ctl.a1Tail :=
      ⟨rfl, hpy0a, hresta2⟩
    have hndYA : (y0 :: YA2).Nodup := (List.nodup_cons.mp hndA1.2.1).2
    have hy0v : y0 ≠ v := hAv y0 (List.mem_append.mpr (Or.inr (List.mem_cons_self y0 YA2)))
    have hvy0 : v ≠ y0 := Ne.symm hy0v
    have hy0len : y0 < s.bufs.length := hboundA y0
      (List.mem_append.mpr (Or.inr (List.mem_cons_of_mem v (List.mem_cons_self y0 YA2))))
    rcases List.eq_nil_or_concat XA with rfl | ⟨XA1, pv, heq⟩
    · obtain ⟨hha, hpm⟩ := hXA
      have hprev : prv s v = none := by rw [hpva, hpm]
      have hB : bufferUnpinned2QA1 s v s.ctl.firstUnpinned s.ctl.lastUnpinned
            (prv s v) (nxt s v)
          = bufferUnpinnedAppendMain { setPrev s y0 none with ctl.a1Head := some y0 } v
              s.ctl.firstUnpinned s.ctl.lastUnpinned := by
        rw [hy0a, hprev]
        rfl
      rw [hB]
      have hprv_y0 : prv { setPrev s y0 none with ctl.a1Head := some y0 } y0 = none := by
        simp only [prv_ctlUpd, prv_setPrev]
        split
        · rfl
        · next hc => exact absurd ⟨True.intro, hy0len⟩ hc
      have hprv_oth : ∀ j, j ≠ y0 →
          prv { setPrev s y0 none with ctl.a1Head := some y0 } j = prv s j := by
        intro j hj
        simp only [prv_ctlUpd, prv_setPrev]
        split
        · next hc => exact absurd hc.1.symm hj
        · rfl
      have hnxt_all : ∀ j,
          nxt { setPrev s y0 none with ctl.a1Head := some y0 } j = nxt s j := by
        intro j
        simp only [nxt_ctlUpd, nxt_setPrev]
      have hA1s1 : chainQ { setPrev s y0 none with ctl.a1Head := some y0 } none
          (some y0) (([] : List Nat) ++ y0 :: YA2) none s.ctl.a1Tail := by
        refine chainQ_reprev (by simp) hYAseg hndYA (fun i _ => hnxt_all i) ?_ ?_
        · exact hprv_y0
        · intro i hi hine
          exact hprv_oth i hine
      have huns1 : ∀ j, j ∉ ([] : List Nat) ++ v :: y0 :: YA2 →
          nxt { setPrev s y0 none with ctl.a1Head := some y0 } j = nxt s j ∧
          prv { setPrev s y0 none with ctl.a1Head := some y0 } j = prv s j := by
        intro j hj
        have hjy : j ≠ y0 := fun h => hj (by rw [h]; simp)
        exact ⟨hnxt_all j, hprv_oth j hjy⟩
      exact unpinA1_glue s _ v [] (y0 :: YA2) M rfl rfl (by simp) hA1s1 huns1
        (linkOnly_trans (linkOnly_ctlUpd _ _) (linkOnly_setPrev _ _ _)) hM hndM
        hboundM hdisjMA hAnotM hAv hvM hvlen
    · rw [List.concat_eq_append] at heq
      subst heq
      obtain ⟨midx, pmidx, hXA1, hPv⟩ := chainQ_append_elim hXA
      obtain ⟨hmidx, hppv, hnpv, hpmida⟩ := hPv
      have hprev : prv s v = some pv := by rw [hpva, hpmida]
      have hpvmem : pv ∈ XA1 ++ [pv] := by simp
      have hpvnotV : pv ∉ v :: y0 :: YA2 := hndA1.2.2 hpvmem
      have hpvv : pv ≠ v := fun h => hpvnotV (by rw [h]; simp)
      have hvpv : v ≠ pv := Ne.symm hpvv
      have hpvy0 : pv ≠ y0 := fun h => hpvnotV (by rw [h]; simp)
      have hy0pv : y0 ≠ pv := Ne.symm hpvy0
      have hpvlen : pv < s.bufs.length := hboundA pv (List.mem_append.mpr (Or.inl hpvmem))
      have hpvX1 : pv ∉ XA1 := fun hmem =>
        (List.nodup_append.mp hndA1.1).2.2 hmem (by simp)
      have hX1pv : ∀ i ∈ XA1, i ≠ pv := fun i hi h => hpvX1 (by rw [← h]; exact hi)
      have hX1notV : ∀ i ∈ XA1, i ∉ v :: y0 :: YA2 := fun i hi =>
        hndA1.2.2 (List.mem_append.mpr (Or.inl hi))
      have hX1y0 : ∀ i ∈ XA1, i ≠ y0 := fun i hi h => hX1notV i hi (by rw [h]; simp)
      have hYApv : ∀ i ∈ y0 :: YA2, i ≠ pv := fun i hi h =>
        hpvnotV (by rw [← h]; exact List.mem_cons_of_mem v hi)
      have hB : bufferUnpinned2QA1 s v s.ctl.firstUnpinned s.ctl.lastUnpinned
            (prv s v) (nxt s v)
          = bufferUnpinnedAppendMain (setPrev (setNext s pv (some y0)) y0 (some pv)) v
              s.ctl.firstUnpinned s.ctl.lastUnpinned := by
        rw [hy0a, hprev]
        rfl
      rw [hB]
      have hprv_y0 : prv (setPrev (setNext s pv (some y0)) y0 (some pv)) y0 = some pv := by
        simp only [prv_setNext, prv_setPrev]
        split
        · rfl
        · next hc => exact absurd ⟨True.intro, by simpa using hy0len⟩ hc
      have hprv_oth : ∀ j, j ≠ y0 →
          prv (setPrev (setNext s pv (some y0)) y0 (some pv)) j = prv s j := by
        intro j hj
        simp only [prv_setNext, prv_setPrev]
        split
        · next hc => exact absurd hc.1.symm hj
        · rfl
      have hnxt_pv : nxt (setPrev (setNext s pv (some y0)) y0 (some pv)) pv = some y0 := by
        simp only [nxt_setNext, nxt_setPrev]
        split
        · rfl
        · next hc => exact absurd ⟨True.intro, hpvlen⟩ hc
      have hnxt_oth : ∀ j, j ≠ pv →
          nxt (setPrev (setNext s pv (some y0)) y0 (some pv)) j = nxt s j := by
        intro j hj
        simp only [nxt_setNext, nxt_setPrev]
        split
        · next hc => exact absurd hc.1.symm hj
        · rfl
      have hA1s1 : chainQ (setPrev (setNext s pv (some y0)) y0 (some pv)) none
          s.ctl.a1Head ((XA1 ++ [pv]) ++ y0 :: YA2) none s.ctl.a1Tail := by
        have hX1part : chainQ (setPrev (setNext s pv (some y0)) y0 (some pv)) none
            s.ctl.a1Head XA1 midx pmidx :=
          chainQ_agree (fun i hi => ⟨hnxt_oth i (hX1pv i hi),
            hprv_oth i (hX1y0 i hi)⟩) hXA1
        have hPvpart : chainQ (setPrev (setNext s pv (some y0)) y0 (some pv)) pmidx midx
            [pv] (some y0) (some pv) :=
          ⟨hmidx, (hprv_oth pv hpvy0).trans hppv, hnxt_pv, rfl⟩
        have hYApart : chainQ (setPrev (setNext s pv (some y0)) y0 (some pv)) (some pv)
            (some y0) (y0 :: YA2) none s.ctl.a1Tail := by
          refine chainQ_reprev (by simp) hYAseg hndYA
            (fun i hi => hnxt_oth i (hYApv i hi)) ?_ ?_
          · exact hprv_y0
          · intro i hi hine
            exact hprv_oth i hine
        exact chainQ_append_intro (chainQ_append_intro hX1part hPvpart) hYApart
      have huns1 : ∀ j, j ∉ (XA1 ++ [pv]) ++ v :: y0 :: YA2 →
          nxt (setPrev (setNext s pv (some y0)) y0 (some pv)) j = nxt s j ∧
          prv (setPrev (setNext s pv (some y0)) y0 (some pv)) j = prv s j := by
        intro j hj
        have hjpv : j ≠ pv := fun h => hj (by rw [h]; simp)
        have hjy : j ≠ y0 := fun h => hj (by rw [h]; simp)
        exact ⟨hnxt_oth j hjpv, hprv_oth j hjy⟩
      exact unpinA1_glue s _ v (XA1 ++ [pv]) (y0 :: YA2) M rfl rfl (by simp) hA1s1 huns1
        (linkOnly_trans (linkOnly_setPrev _ _ _) (linkOnly_setNext _ _ _)) hM hndM
        hboundM hdisjMA hAnotM hAv hvM hvlen

/-- Specification of the 2Q fall-through of BufferUnpinned: a frame v in
neither queue is appended to the tail of the A1 queue; links of other
frames and the main queue's head and tail are untouched. -/
lemma bufferUnpinned2QNew_spec (s : BufState) (v : Nat) (A : List Nat)
    (hA : chainQ s none s.ctl.a1Head A none s.ctl.a1Tail)
    (hnd : A.Nodup) (hbound : ∀ i ∈ A, i < s.bufs.length)
    (hv : v ∉ A) (hvlen : v < s.bufs.length) :
    chainQ (bufferUnpinned2QNew s v) none (bufferUnpinned2QNew s v).ctl.a1Head (A ++ [v])
      none (bufferUnpinned2QNew s v).ctl.a1Tail ∧
    (∀ j, j ∉ A → j ≠ v → nxt (bufferUnpinned2QNew s v) j = nxt s j ∧
        prv (bufferUnpinned2QNew s v) j = prv s j) ∧
    (bufferUnpinned2QNew s v).ctl.firstUnpinned = s.ctl.firstUnpinned ∧
    (bufferUnpinned2QNew s v).ctl.lastUnpinned = s.ctl.lastUnpinned ∧
    linkOnly (bufferUnpinned2QNew s v) s := by
  rcases List.eq_nil_or_concat A with rfl | ⟨A1, t, heq⟩
  · have h1 : s.ctl.a1Head = none := hA.1
    have h2 : s.ctl.a1Tail = none := hA.2
    have hB : bufferUnpinned2QNew s v =
        { setNext { setPrev s v none with ctl.a1Head := some v, ctl.a1Tail := some v }
            v none with ctl.a1Tail := some v } := by
      unfold bufferUnpinned2QNew
      rw [if_pos (Or.inl h1)]
    rw [hB]
    refine ⟨⟨rfl, ?_, ?_, rfl⟩, ?_, rfl, rfl, ?_⟩
    · simp only [prv_ctlUpd, prv_setNext, prv_setPrev]
      split
      · rfl
      · next hc => exact absurd ⟨True.intro, hvlen⟩ hc
    · simp only [nxt_ctlUpd, nxt_setNext, nxt_setPrev]
      split
      · rfl
      · next hc => exact absurd ⟨True.intro, by simpa using hvlen⟩ hc
    · intro j hjA hjv
      refine ⟨?_, ?_⟩
      · simp only [nxt_ctlUpd, nxt_setNext, nxt_setPrev]
        split
        · next hc => exact absurd hc.1.symm hjv
        · rfl
      · simp only [prv_ctlUpd, prv_setNext, prv_setPrev]
        split
        · next hc => exact absurd hc.1.symm hjv
        · rfl
    · exact linkOnly_trans (linkOnly_ctlUpd _ _) (linkOnly_trans (linkOnly_setNext _ _ _)
        (linkOnly_trans (linkOnly_ctlUpd _ _) (linkOnly_setPrev _ _ _)))
  · rw [List.concat_eq_append] at heq
    subst heq
    have htmem : t ∈ A1 ++ [t] := by simp
    have htv : t ≠ v := fun h => hv (by rw [← h]; exact htmem)
    have hvt : v ≠ t := Ne.symm htv
    have htlen : t < s.bufs.length := hbound t htmem
    have htnotA1 : t ∉ A1 := fun hmem => (List.nodup_append.mp hnd).2.2 hmem (by simp)
    have hiv : ∀ i ∈ A1, i ≠ v := fun i hi h =>
      hv (by rw [← h]; exact List.mem_append.mpr (Or.inl hi))
    have hit : ∀ i ∈ A1, i ≠ t := fun i hi h => htnotA1 (by rw [← h]; exact hi)
    have htl : s.ctl.a1Tail = some t := by
      have h := chainQ_tl hA
      rw [List.getLast?_concat] at h
      exact h
    have hhd : s.ctl.a1Head ≠ none := by
      rw [chainQ_hd hA]
      cases A1 <;> simp
    have hcond : ¬(s.ctl.a1Head = none ∨ s.ctl.a1Tail = none) := by
      rw [htl]
      rintro (h | h)
      · exact hhd h
      · cases h
    obtain ⟨mid, pmid, hX, hT⟩ := chainQ_append_elim hA
    obtain ⟨hmid, hprvt, -, -⟩ := hT
    have hB : bufferUnpinned2QNew s v =
        { setNext (setPrev (setNext s t (some v)) v (some t)) v none with
          ctl.a1Tail := some v } := by
      unfold bufferUnpinned2QNew
      rw [if_neg hcond, htl]
      rfl
    rw [hB]
    have hnxt_other : ∀ j, j ≠ v → j ≠ t →
        nxt { setNext (setPrev (setNext s t (some v)) v (some t)) v none with
              ctl.a1Tail := some v } j = nxt s j := by
      intro j hjv hjt
      simp only [nxt_ctlUpd, nxt_setNext, nxt_setPrev]
      split
      · next hc => exact absurd hc.1.symm hjv
      · split
        · next hc => exact absurd hc.1.symm hjt
        · rfl
    have hprv_other : ∀ j, j ≠ v →
        prv { setNext (setPrev (setNext s t (some v)) v (some t)) v none with
              ctl.a1Tail := some v } j = prv s j := by
      intro j hjv
      simp only [prv_ctlUpd, prv_setNext, prv_setPrev]
      split
      · next hc => exact absurd hc.1.symm hjv
      · rfl
    have hnxt_t : nxt { setNext (setPrev (setNext s t (some v)) v (some t)) v none with
          ctl.a1Tail := some v } t = some v := by
      simp only [nxt_ctlUpd, nxt_setNext, nxt_setPrev]
      split
      · next hc => exact absurd hc.1 hvt
      · split
        · rfl
        · next hc => exact absurd ⟨True.intro, htlen⟩ hc
    have hnxt_v : nxt { setNext (setPrev (setNext s t (some v)) v (some t)) v none with
          ctl.a1Tail := some v } v = none := by
      simp only [nxt_ctlUpd, nxt_setNext, nxt_setPrev]
      split
      · rfl
      · next hc =>
        exact absurd ⟨True.intro, by rw [length_setPrev, length_setNext]; exact hvlen⟩ hc
    have hprv_v : prv { setNext (setPrev (setNext s t (some v)) v (some t)) v none with
          ctl.a1Tail := some v } v = some t := by
      simp only [prv_ctlUpd, prv_setNext, prv_setPrev]
      split
      · rfl
      · next hc => exact absurd ⟨True.intro, by rw [length_setNext]; exact hvlen⟩ hc
    have hXpart : chainQ { setNext (setPrev (setNext s t (some v)) v (some t)) v none with
          ctl.a1Tail := some v } none s.ctl.a1Head A1 mid pmid :=
      chainQ_agree (fun i hi => ⟨hnxt_other i (hiv i hi) (hit i hi),
        hprv_other i (hiv i hi)⟩) hX
    have hTpart : chainQ { setNext (setPrev (setNext s t (some v)) v (some t)) v none with
          ctl.a1Tail := some v } pmid mid [t] (some v) (some t) :=
      ⟨hmid, (hprv_other t htv).trans hprvt, hnxt_t, rfl⟩
    have hVpart : chainQ { setNext (setPrev (setNext s t (some v)) v (some t)) v none with
          ctl.a1Tail := some v } (some t) (some v) [v] none (some v) :=
      ⟨rfl, hprv_v, hnxt_v, rfl⟩
    refine ⟨?_, ?_, rfl, rfl, ?_⟩
    · exact chainQ_append_intro (chainQ_append_intro hXpart hTpart) hVpart
    · intro j hjA hjv
      have hjt : j ≠ t := fun h => hjA (by rw [h]; exact htmem)
      exact ⟨hnxt_other j hjv hjt, hprv_other j hjv⟩
    · exact linkOnly_trans (linkOnly_ctlUpd _ _) (linkOnly_trans (linkOnly_setNext _ _ _)
        (linkOnly_trans (linkOnly_setPrev _ _ _) (linkOnly_setNext _ _ _)))

/-- Transfer of the 2Q invariant across operations that preserve the whole
queue structure and every refcount. -/
lemma Inv2Q_of_queuesEq {s2 s : BufState} (hq : queuesEq s2 s)
    (hr : ∀ j, (getBuf s2 j).refcount = (getBuf s j).refcount)
    (h : Inv2Q s) : Inv2Q s2 := by
  obtain ⟨M, A, ⟨hcM, hndM, hbM⟩, ⟨hcA, hndA, hbA⟩, hdisj, href⟩ := h
  obtain ⟨hf, hl, hah, hat, hlen, hlk⟩ := hq
  refine ⟨M, A, ⟨?_, hndM, fun i hi => hlen ▸ hbM i hi⟩,
    ⟨?_, hndA, fun i hi => hlen ▸ hbA i hi⟩, hdisj,
    fun j hj => (hr j).trans (href j (hlen ▸ hj))⟩
  · rw [hf, hl]
    exact chainQ_agree (fun i _ => hlk i) hcM
  · rw [hah, hat]
    exact chainQ_agree (fun i _ => hlk i) hcA

lemma refcount_setBuf (s : BufState) (i j : Nat) (f : BufferDesc → BufferDesc)
    (hf : ∀ b, (f b).refcount = b.refcount) :
    (getBuf (setBuf s i f) j).refcount = (getBuf s j).refcount := by
  rw [getBuf_setBuf]
  split
  · next hc => rw [hf, hc.1]
  · rfl

lemma freelistPop_refcount (fuel : Nat) :
    ∀ (s : BufState) (strat : Option BufferAccessStrategyData) (j : Nat),
      (getBuf (freelistPop s strat fuel).1 j).refcount = (getBuf s j).refcount := by
  induction fuel with
  | zero => intro s strat j; rfl
  | succ fuel ih =>
    intro s strat j
    rw [freelistPop]
    by_cases hc : 0 ≤ s.ctl.firstFreeBuffer
    · rw [if_pos hc]
      set i := s.ctl.firstFreeBuffer.toNat with hi
      set s2 := setBuf { s with ctl.firstFreeBuffer := (getBuf s i).freeNext } i
            (fun b => { b with freeNext := FREENEXT_NOT_IN_LIST }) with hs2
      have hup : ∀ k, (getBuf (LockBufHdr s2 i) k).refcount = (getBuf s k).refcount :=
        fun k => (refcount_LockBufHdr s2 i k).trans
          (refcount_setBuf _ i k _ (fun b => rfl))
      by_cases hc2 : (getBuf (LockBufHdr s2 i) i).refcount = 0 ∧
          (getBuf (LockBufHdr s2 i) i).usage_count = 0
      · rw [if_pos hc2]
        cases strat with
        | some st => exact hup j
        | none => exact hup j
      · rw [if_neg hc2]
        exact (ih _ strat j).trans ((refcount_UnlockBufHdr _ i j).trans (hup j))
    · rw [if_neg hc]

lemma GetBufferFromRing_refcount (s : BufState) (st : BufferAccessStrategyData) (j : Nat) :
    (getBuf (GetBufferFromRing s st).1 j).refcount = (getBuf s j).refcount := by
  unfold GetBufferFromRing
  dsimp only
  split
  · split
    · rfl
    · split
      · exact refcount_LockBufHdr _ _ _
      · exact (refcount_UnlockBufHdr _ _ _).trans (refcount_LockBufHdr _ _ _)
  · split
    · rfl
    · split
      · exact refcount_LockBufHdr _ _ _
      · exact (refcount_UnlockBufHdr _ _ _).trans (refcount_LockBufHdr _ _ _)

lemma clearLatch_refcount (s : BufState) (j : Nat) :
    (getBuf (clearLatch s) j).refcount = (getBuf s j).refcount := by
  rw [getBuf_congr_bufs (clearLatch_bufs s)]

lemma chainQ_ctlUpd {s : BufState} {c : BufferStrategyControl}
    {p hd stop tl : Option Nat} {L : List Nat}
    (h : chainQ s p hd L stop tl) : chainQ { s with ctl := c } p hd L stop tl := by
  refine chainQ_agree ?_ h
  intro i _
  exact ⟨rfl, rfl⟩

lemma twoQScanA1_zero (s : BufState) (cur : Option Nat) :
    twoQScanA1 s cur 0 = (s, LoopRes.fuelOut) := by
  cases cur <;> rfl

lemma twoQScanMain_zero (s : BufState) (cur : Option Nat) :
    twoQScanMain s cur 0 = (s, LoopRes.fuelOut) := by
  cases cur <;> rfl

/-- One step of the A1 scan of the 2Q policy preserves the 2Q invariant:
with every frame unpinned the scan either errors on an empty queue, runs
out of fuel (both leaving the state alone), or evicts the queue's head,
which unlinkVictim removes cleanly. -/
lemma twoQScanA1_Inv2Q (s : BufState) (fuel : Nat) (hInv : Inv2Q s) :
    Inv2Q (twoQScanA1 s s.ctl.a1Head fuel).1 := by
  obtain ⟨M, A, hwM, hwA, hdisj, href⟩ := hInv
  obtain ⟨hcM, hndM, hbM⟩ := hwM
  obtain ⟨hcA, hndA, hbA⟩ := hwA
  cases fuel with
  | zero =>
    rw [twoQScanA1_zero]
    exact ⟨M, A, ⟨hcM, hndM, hbM⟩, ⟨hcA, hndA, hbA⟩, hdisj, href⟩
  | succ f =>
    cases A with
    | nil =>
      rw [hcA.1]
      exact ⟨M, [], ⟨hcM, hndM, hbM⟩, ⟨hcA, hndA, hbA⟩, hdisj, href⟩
    | cons a0 A2 =>
      have h1 : s.ctl.a1Head = some a0 := hcA.1
      have ha0len : a0 < s.bufs.length := hbA a0 (by simp)
      have hrc : (getBuf s a0).refcount = 0 := href a0 ha0len
      rw [h1, twoQScanA1_step, if_pos hrc]
      obtain ⟨c1, c2, c3, c4, c5, c6⟩ :=
        unlinkVictim_spec s s.ctl.a1Head s.ctl.a1Tail a0 [] A2 hcA hndA hbA
      rcases hr : unlinkVictim s s.ctl.a1Head s.ctl.a1Tail a0 with ⟨r1, hd2, tl2⟩
      rw [hr] at c1 c2 c3 c4 c5 c6
      dsimp only at c1 c2 c3 c4 c5 c6 ⊢
      have hlen1 : ({ r1 with ctl.a1Head := hd2, ctl.a1Tail := tl2 } : BufState).bufs.length
          = s.bufs.length := c6.1
      refine ⟨M, A2, ⟨?_, hndM, fun i hi => hlen1 ▸ hbM i hi⟩,
        ⟨?_, (List.nodup_cons.mp hndA).2,
          fun i hi => hlen1 ▸ hbA i (List.mem_cons_of_mem a0 hi)⟩,
        fun i hi hia => hdisj i hi (List.mem_cons_of_mem a0 hia), fun j hj => ?_⟩
      · have hTf : ({ r1 with ctl.a1Head := hd2, ctl.a1Tail := tl2 } :
            BufState).ctl.firstUnpinned = s.ctl.firstUnpinned := by
          show r1.ctl.firstUnpinned = s.ctl.firstUnpinned
          rw [c5]
        have hTl : ({ r1 with ctl.a1Head := hd2, ctl.a1Tail := tl2 } :
            BufState).ctl.lastUnpinned = s.ctl.lastUnpinned := by
          show r1.ctl.lastUnpinned = s.ctl.lastUnpinned
          rw [c5]
        rw [hTf, hTl]
        exact chainQ_agree (fun i hi => c2 i (hdisj i hi)) hcM
      · exact chainQ_ctlUpd c1
      · exact ((c6.2 j).2.1).trans (href j (hlen1 ▸ hj))

/-- One step of the main-queue scan of the 2Q policy preserves the 2Q
invariant, symmetrically to the A1 scan. -/
lemma twoQScanMain_Inv2Q (s : BufState) (fuel : Nat) (hInv : Inv2Q s) :
    Inv2Q (twoQScanMain s s.ctl.firstUnpinned fuel).1 := by
  obtain ⟨M, A, hwM, hwA, hdisj, href⟩ := hInv
  obtain ⟨hcM, hndM, hbM⟩ := hwM
  obtain ⟨hcA, hndA, hbA⟩ := hwA
  cases fuel with
  | zero =>
    rw [twoQScanMain_zero]
    exact ⟨M, A, ⟨hcM, hndM, hbM⟩, ⟨hcA, hndA, hbA⟩, hdisj, href⟩
  | succ f =>
    cases M with
    | nil =>
      rw [hcM.1]
      exact ⟨[], A, ⟨hcM, hndM, hbM⟩, ⟨hcA, hndA, hbA⟩, hdisj, href⟩
    | cons m0 M2 =>
      have h1 : s.ctl.firstUnpinned = some m0 := hcM.1
      have hm0len : m0 < s.bufs.length := hbM m0 (by simp)
      have hrc : (getBuf s m0).refcount = 0 := href m0 hm0len
      rw [h1, twoQScanMain_step, if_pos hrc]
      obtain ⟨c1, c2, c3, c4, c5, c6⟩ :=
        unlinkVictim_spec s s.ctl.firstUnpinned s.ctl.lastUnpinned m0 [] M2 hcM hndM hbM
      rcases hr : unlinkVictim s s.ctl.firstUnpinned s.ctl.lastUnpinned m0
        with ⟨r1, hd2, tl2⟩
      rw [hr] at c1 c2 c3 c4 c5 c6
      dsimp only at c1 c2 c3 c4 c5 c6 ⊢
      have hlen1 : ({ r1 with ctl.firstUnpinned := hd2, ctl.lastUnpinned := tl2 } :
          BufState).bufs.length = s.bufs.length := c6.1
      have hdisj2 : ∀ i ∈ A, i ∉ m0 :: M2 := fun i hiA him => hdisj i him hiA
      refine ⟨M2, A, ⟨?_, (List.nodup_cons.mp hndM).2,
          fun i hi => hlen1 ▸ hbM i (List.mem_cons_of_mem m0 hi)⟩,
        ⟨?_, hndA, fun i hi => hlen1 ▸ hbA i hi⟩,
        fun i hi hia => hdisj i (List.mem_cons_of_mem m0 hi) hia, fun j hj => ?_⟩
      · exact chainQ_ctlUpd c1
      · have hTa : ({ r1 with ctl.firstUnpinned := hd2, ctl.lastUnpinned := tl2 } :
            BufState).ctl.a1Head = s.ctl.a1Head := by
          show r1.ctl.a1Head = s.ctl.a1Head
          rw [c5]
        have hTt : ({ r1 with ctl.firstUnpinned := hd2, ctl.lastUnpinned := tl2 } :
            BufState).ctl.a1Tail = s.ctl.a1Tail := by
          show r1.ctl.a1Tail = s.ctl.a1Tail
          rw [c5]
        rw [hTa, hTt]
        exact chainQ_agree (fun i hi => c2 i (hdisj2 i hi)) hcA
      · exact ((c6.2 j).2.1).trans (href j (hlen1 ▸ hj))

lemma freelistPop_Inv2Q (s : BufState) (strat : Option BufferAccessStrategyData)
    (fuel : Nat) (h : Inv2Q s) : Inv2Q (freelistPop s strat fuel).1 :=
  Inv2Q_of_queuesEq (freelistPop_queuesEq fuel s strat)
    (freelistPop_refcount fuel s strat) h

/-- The 2Q policy dispatch preserves the invariant on every outcome. -/
lemma policyVictim_Inv2Q (s2 : BufState) (strat2 : Option BufferAccessStrategyData)
    (fuel : Nat) (h : Inv2Q s2) :
    Inv2Q (policyVictim s2 strat2 PolicyKind.POLICY_2Q fuel).1 := by
  unfold policyVictim
  dsimp only
  rcases hql : queueLen s2 s2.ctl.a1Head fuel with _ | sizeA1
  · exact h
  · dsimp only
    split
    · rcases hscan : twoQScanA1 s2 s2.ctl.a1Head fuel with ⟨s3, res⟩
      have h3 : Inv2Q s3 := by
        have hh := twoQScanA1_Inv2Q s2 fuel h
        rw [hscan] at hh
        exact hh
      cases res <;> exact h3
    · rcases hscan : twoQScanMain s2 s2.ctl.firstUnpinned fuel with ⟨s3, res⟩
      have h3 : Inv2Q s3 := by
        have hh := twoQScanMain_Inv2Q s2 fuel h
        rw [hscan] at hh
        exact hh
      cases res <;> exact h3

lemma freelistThenPolicy_Inv2Q (s1 : BufState) (strat : Option BufferAccessStrategyData)
    (fuel : Nat) (h : Inv2Q s1) :
    Inv2Q (freelistThenPolicy s1 strat PolicyKind.POLICY_2Q fuel).1 := by
  unfold freelistThenPolicy
  rcases hpop : freelistPop s1 strat fuel with ⟨s2, strat2, res⟩
  have h2 : Inv2Q s2 := by
    have hh := freelistPop_Inv2Q s1 strat fuel h
    rw [hpop] at hh
    exact hh
  cases res with
  | found i => exact h2
  | fuelOut => exact h2
  | nil => exact policyVictim_Inv2Q s2 strat2 fuel h2

lemma StrategyGetBufferCore_Inv2Q (s : BufState) (strat : Option BufferAccessStrategyData)
    (fuel : Nat) (h : Inv2Q s) :
    Inv2Q (StrategyGetBufferCore s strat PolicyKind.POLICY_2Q fuel).1 := by
  unfold StrategyGetBufferCore
  refine freelistThenPolicy_Inv2Q _ strat fuel ?_
  refine Inv2Q_of_queuesEq
    (queuesEq_trans (queuesEq_clearLatch _) (queuesEq_ctl _ _ rfl rfl rfl rfl)) ?_ h
  intro j
  exact (clearLatch_refcount _ j).trans rfl

/-- A whole StrategyGetBuffer call under POLICY_2Q preserves the invariant,
whatever the ring, the fuel and the outcome. -/
lemma StrategyGetBuffer_Inv2Q (s : BufState) (strat : Option BufferAccessStrategyData)
    (fuel : Nat) (h : Inv2Q s) :
    Inv2Q (StrategyGetBuffer s strat PolicyKind.POLICY_2Q fuel).1 := by
  unfold StrategyGetBuffer
  cases strat with
  | none => exact StrategyGetBufferCore_Inv2Q s none fuel h
  | some st =>
    dsimp only
    rcases hr : GetBufferFromRing s st with ⟨s1, st1, r⟩
    have h1 : Inv2Q s1 := by
      have hh := Inv2Q_of_queuesEq (GetBufferFromRing_queuesEq s st)
        (fun j => GetBufferFromRing_refcount s st j) h
      rw [hr] at hh
      exact hh
    cases r with
    | some i => exact h1
    | none => exact StrategyGetBufferCore_Inv2Q s1 (some st1) fuel h1

/-- StrategyFreeBuffer touches only the freeNext chain and the freelist
control fields, so it preserves the invariant. -/
lemma StrategyFreeBuffer_Inv2Q (s : BufState) (b : Nat) (h : Inv2Q s) :
    Inv2Q (StrategyFreeBuffer s b) := by
  refine Inv2Q_of_queuesEq ?_ ?_ h
  · unfold StrategyFreeBuffer
    dsimp only
    split
    · split
      · exact queuesEq_trans (queuesEq_ctl _ _ rfl rfl rfl rfl)
          (queuesEq_trans (queuesEq_ctl _ _ rfl rfl rfl rfl)
            (queuesEq_setBuf _ _ _ (fun x => ⟨rfl, rfl⟩)))
      · exact queuesEq_trans (queuesEq_ctl _ _ rfl rfl rfl rfl)
          (queuesEq_setBuf _ _ _ (fun x => ⟨rfl, rfl⟩))
    · exact queuesEq_refl s
  · intro j
    unfold StrategyFreeBuffer
    dsimp only
    split
    · split
      · exact refcount_setBuf s b j
          (fun x => { x with freeNext := s.ctl.firstFreeBuffer }) (fun x => rfl)
      · exact refcount_setBuf s b j
          (fun x => { x with freeNext := s.ctl.firstFreeBuffer }) (fun x => rfl)
    · rfl

lemma refcount_initial (n j : Nat) (h : j < n) :
    (getBuf (StrategyInitialize n) j).refcount = 0 := by
  simp [getBuf, StrategyInitialize, initialBufs, List.getD_eq_getElem?_getD,
    List.getElem?_map, List.getElem?_range, h]

/-- The freshly initialized pool satisfies the 2Q invariant with both
queues empty. -/
lemma Inv2Q_initial (n : Nat) : Inv2Q (StrategyInitialize n) := by
  refine ⟨[], [], ⟨⟨rfl, rfl⟩, List.nodup_nil, by simp⟩,
    ⟨⟨rfl, rfl⟩, List.nodup_nil, by simp⟩, by simp, ?_⟩
  intro j hj
  have hjn : j < n := by
    simpa [StrategyInitialize, initialBufs] using hj
  exact refcount_initial n j hjn

/-- A whole BufferUnpinned call under POLICY_2Q preserves the invariant:
the three dispatch arms are exactly the three membership situations of the
unpinned frame, and each of the specified blocks keeps both queues
well-formed and disjoint. -/
lemma BufferUnpinned_Inv2Q (s : BufState) (b : Nat) (hb : b < s.bufs.length) (fuel : Nat)
    (h : Inv2Q s) : Inv2Q (BufferUnpinned s PolicyKind.POLICY_2Q b fuel) := by
  obtain ⟨M, A, hwM, hwA, hdisj, href⟩ := h
  obtain ⟨hcM, hndM, hbM⟩ := hwM
  obtain ⟨hcA, hndA, hbA⟩ := hwA
  unfold BufferUnpinned
  dsimp only
  rw [if_pos rfl]
  rcases hq1 : inQueue s b s.ctl.firstUnpinned fuel with _ | r1
  · exact ⟨M, A, ⟨hcM, hndM, hbM⟩, ⟨hcA, hndA, hbA⟩, hdisj, href⟩
  · cases r1 with
    | true =>
      have hbm : b ∈ M := (inQueue_sound M hcM hq1).mp rfl
      obtain ⟨X, Y, hMeq⟩ := List.append_of_mem hbm
      subst hMeq
      show Inv2Q (bufferUnpinned2QMain s b s.ctl.lastUnpinned (prv s b) (nxt s b))
      obtain ⟨L, hLd, hchain, hun, hah, hat, hlo⟩ :=
        bufferUnpinned2QMain_spec s b X Y hcM hndM hbM
      have hperm : List.Perm L (X ++ b :: Y) := by
        rcases hLd with h' | h'
        · rw [h']
        · rw [h', ← List.append_assoc]
          exact (List.perm_append_singleton b (X ++ Y)).trans List.perm_middle.symm
      have hlen2 : (bufferUnpinned2QMain s b s.ctl.lastUnpinned (prv s b)
          (nxt s b)).bufs.length = s.bufs.length := hlo.1
      refine ⟨L, A, ⟨hchain, hperm.nodup_iff.mpr hndM,
          fun i hi => hlen2 ▸ hbM i (hperm.mem_iff.mp hi)⟩,
        ⟨?_, hndA, fun i hi => hlen2 ▸ hbA i hi⟩,
        fun i hiL => hdisj i (hperm.mem_iff.mp hiL), fun j hj => ?_⟩
      · rw [hah, hat]
        refine chainQ_agree ?_ hcA
        intro i hi
        exact hun i (fun him => hdisj i him hi)
      · exact ((hlo.2 j).2.1).trans (href j (hlen2 ▸ hj))
    | false =>
      have hbnm : b ∉ M := by
        intro hm
        have h' := (inQueue_sound M hcM hq1).mpr hm
        cases h'
      rcases hq2 : inQueue s b s.ctl.a1Head fuel with _ | r2
      · exact ⟨M, A, ⟨hcM, hndM, hbM⟩, ⟨hcA, hndA, hbA⟩, hdisj, href⟩
      · cases r2 with
        | true =>
          have hba : b ∈ A := (inQueue_sound A hcA hq2).mp rfl
          obtain ⟨XA, YA, hAeq⟩ := List.append_of_mem hba
          subst hAeq
          show Inv2Q (bufferUnpinned2QA1 s b s.ctl.firstUnpinned s.ctl.lastUnpinned
            (prv s b) (nxt s b))
          obtain ⟨hchainM, hchainA, hun, hlo⟩ :=
            bufferUnpinned2QA1_spec s b XA YA M hcA hndA hbA hcM hndM hbM hdisj
          have hlen2 : (bufferUnpinned2QA1 s b s.ctl.firstUnpinned s.ctl.lastUnpinned
              (prv s b) (nxt s b)).bufs.length = s.bufs.length := hlo.1
          have hbA1 := List.nodup_middle.mp hndA
          refine ⟨M ++ [b], XA ++ YA, ⟨hchainM, ?_, ?_⟩,
            ⟨hchainA, (List.nodup_cons.mp hbA1).2, ?_⟩, ?_, fun j hj => ?_⟩
          · exact List.nodup_append_comm.mpr (List.nodup_cons.mpr ⟨hbnm, hndM⟩)
          · intro i hi
            rcases List.mem_append.mp hi with h' | h'
            · exact hlen2 ▸ hbM i h'
            · have hib : i = b := by simpa using h'
              subst hib
              exact hlen2 ▸ hb
          · intro i hi
            refine hlen2 ▸ hbA i ?_
            rcases List.mem_append.mp hi with h' | h'
            · exact List.mem_append.mpr (Or.inl h')
            · exact List.mem_append.mpr (Or.inr (List.mem_cons_of_mem b h'))
          · intro i hi hia
            rcases List.mem_append.mp hi with h' | h'
            · refine hdisj i h' ?_
              rcases List.mem_append.mp hia with h2 | h2
              · exact List.mem_append.mpr (Or.inl h2)
              · exact List.mem_append.mpr (Or.inr (List.mem_cons_of_mem b h2))
            · have hib : i = b := by simpa using h'
              subst hib
              exact (List.nodup_cons.mp hbA1).1 hia
          · exact ((hlo.2 j).2.1).trans (href j (hlen2 ▸ hj))
        | false =>
          have hbna : b ∉ A := by
            intro ha
            have h' := (inQueue_sound A hcA hq2).mpr ha
            cases h'
          show Inv2Q (bufferUnpinned2QNew s b)
          obtain ⟨hchainA, hun, hfp, hlp, hlo⟩ :=
            bufferUnpinned2QNew_spec s b A hcA hndA hbA hbna hb
          have hlen2 : (bufferUnpinned2QNew s b).bufs.length = s.bufs.length := hlo.1
          refine ⟨M, A ++ [b], ⟨?_, hndM, fun i hi => hlen2 ▸ hbM i hi⟩,
            ⟨hchainA, ?_, ?_⟩, ?_, fun j hj => ?_⟩
          · rw [hfp, hlp]
            refine chainQ_agree ?_ hcM
            intro i hi
            exact hun i (fun hia => hdisj i hi hia) (fun hib => hbnm (hib ▸ hi))
          · exact List.nodup_append_comm.mpr (List.nodup_cons.mpr ⟨hbna, hndA⟩)
          · intro i hi
            rcases List.mem_append.mp hi with h' | h'
            · exact hlen2 ▸ hbA i h'
            · have hib : i = b := by simpa using h'
              subst hib
              exact hlen2 ▸ hb
          · intro i hi hia
            rcases List.mem_append.mp hia with h' | h'
            · exact hdisj i hi h'
            · have hib : i = b := by simpa using h'
              subst hib
              exact hbnm hi
          · exact ((hlo.2 j).2.1).trans (href j (hlen2 ▸ hj))

/-- Every state reachable under POLICY_2Q satisfies the 2Q invariant. -/
lemma Inv2Q_reachable (n : Nat) (s : BufState)
    (h : Reachable n PolicyKind.POLICY_2Q s) : Inv2Q s := by
  induction h with
  | init => exact Inv2Q_initial n
  | getBuffer s strat fuel hr ih => exact StrategyGetBuffer_Inv2Q s strat fuel ih
  | freeBuffer s b hb hr ih => exact StrategyFreeBuffer_Inv2Q s b ih
  | unpinned s b hb fuel hr ih => exact BufferUnpinned_Inv2Q s b hb fuel ih

lemma bufferUnpinnedMain_a1Head (s : BufState) (buf : Nat)
    (first last previous next : Option Nat) :
    (bufferUnpinnedMain s buf first last previous next).ctl.a1Head = s.ctl.a1Head := by
  unfold bufferUnpinnedMain
  cases next with
  | some nx =>
    cases previous with
    | some pv => cases last <;> rfl
    | none => cases last <;> rfl
  | none =>
    cases previous with
    | none => cases last <;> cases first <;> rfl
    | some pv => rfl

lemma BufferUnpinned_a1Head_nonTwoQ (s : BufState) (policy : PolicyKind) (b fuel : Nat)
    (hp : policy ≠ PolicyKind.POLICY_2Q) :
    (BufferUnpinned s policy b fuel).ctl.a1Head = s.ctl.a1Head := by
  unfold BufferUnpinned
  dsimp only
  rw [if_neg hp]
  exact bufferUnpinnedMain_a1Head s b _ _ _ _

lemma StrategyFreeBuffer_a1Head (s : BufState) (b : Nat) :
    (StrategyFreeBuffer s b).ctl.a1Head = s.ctl.a1Head := by
  unfold StrategyFreeBuffer
  dsimp only
  split
  · split <;> rfl
  · rfl

/-- Under the non-2Q policies the A1 queue never comes into existence: its
head pointer stays nil in every reachable state. -/
lemma a1Head_reachable_nonTwoQ (n : Nat) (policy : PolicyKind)
    (hp : policy ≠ PolicyKind.POLICY_2Q) (s : BufState)
    (h : Reachable n policy s) : s.ctl.a1Head = none := by
  induction h with
  | init => rfl
  | getBuffer s strat fuel hr ih =>
    rw [(StrategyGetBuffer_queuesEq_nonTwoQ s strat policy hp fuel).2.2.1]
    exact ih
  | freeBuffer s b hb hr ih =>
    rw [StrategyFreeBuffer_a1Head]
    exact ih
  | unpinned s b hb fuel hr ih =>
    rw [BufferUnpinned_a1Head_nonTwoQ s policy b fuel hp]
    exact ih

lemma length_le_of_nodup_bounded {L : List Nat} {n : Nat} (hnd : L.Nodup)
    (hb : ∀ i ∈ L, i < n) : L.length ≤ n := by
  have h1 : L.toFinset ⊆ Finset.range n := by
    intro x hx
    rw [Finset.mem_range]
    exact hb x (List.mem_toFinset.mp hx)
  have h2 := Finset.card_le_card h1
  rw [Finset.card_range, List.toFinset_card_of_nodup hnd] at h2
  exact h2

/-- Under the 2Q invariant the two fueled queue walks recover exactly the
carried lists, which are disjoint. -/
lemma queues_disjoint_of_Inv2Q {s : BufState} (h : Inv2Q s) :
    ∀ i, ¬(i ∈ mainQueueList s ∧ i ∈ a1QueueList s) := by
  obtain ⟨M, A, ⟨hcM, hndM, hbM⟩, ⟨hcA, hndA, hbA⟩, hdisj, href⟩ := h
  have hM : mainQueueList s = M :=
    queueList_of_chainQ M hcM (s.bufs.length + 1)
      (Nat.le_succ_of_le (length_le_of_nodup_bounded hndM hbM))
  have hA : a1QueueList s = A :=
    queueList_of_chainQ A hcA (s.bufs.length + 1)
      (Nat.le_succ_of_le (length_le_of_nodup_bounded hndA hbA))
  rintro i ⟨hiM, hiA⟩
  rw [hM] at hiM
  rw [hA] at hiA
  exact hdisj i hiM hiA

/-- C7 (amended): the claim's three-way partition over freelist, main
queue and A1 queue fails (C7_partition_counterexample shows BufferUnpinned
on a frame still in the freelist leaves it in both the freelist and the A1
queue), but the queue half of the invariant does hold: in every state
reachable by any sequence of Initialize, GetBuffer, FreeBuffer and
BufferUnpinned operations, under any replacement policy, no frame is a
member of both the main victim queue and the A1 queue. -/
theorem C7_main_a1_disjoint_reachable (n : Nat) (policy : PolicyKind) (s : BufState)
    (h : Reachable n policy s) :
    ∀ i, ¬(i ∈ mainQueueList s ∧ i ∈ a1QueueList s) := by
  by_cases hp : policy = PolicyKind.POLICY_2Q
  · subst hp
    exact queues_disjoint_of_Inv2Q (Inv2Q_reachable n s h)
  · have ha := a1Head_reachable_nonTwoQ n policy hp s h
    rintro i ⟨hiM, hiA⟩
    have hnil : a1QueueList s = [] := by
      unfold a1QueueList
      rw [ha]
      rfl
    rw [hnil] at hiA
    cases hiA

/-- Witness for the amended C7 theorem at the freshly initialized
two-frame pool, which is reachable in zero steps. -/
theorem C7_main_a1_disjoint_reachable_witness :
    Reachable 2 PolicyKind.POLICY_2Q (StrategyInitialize 2) ∧
    ∀ i, ¬(i ∈ mainQueueList (StrategyInitialize 2) ∧
           i ∈ a1QueueList (StrategyInitialize 2)) :=
  ⟨Reachable.init,
   C7_main_a1_disjoint_reachable 2 PolicyKind.POLICY_2Q (StrategyInitialize 2)
     Reachable.init⟩

end Freelist
